import Mathlib

/-!
# psycopg `typecast_datetime.c`: date, time, timestamp and interval typecasters

A shallow embedding of the four typecasters of `src/psycopg/typecast_datetime.c`
(`typecast_PYDATE_cast`, `typecast_PYDATETIME_cast`, `typecast_PYTIME_cast`,
`typecast_PYINTERVAL_cast`) together with the parts of the C library they call
(`strcmp`, `sscanf` for the three formats used, `floor`, `round`, the conversions
between `double`, `int` and `long`).

Conventions of the embedding

* A C string is the list of its characters up to the terminating NUL (`cstr`).
* `int` is 32 bits and `long` is 64 bits (LP64); integer arithmetic wraps
  (two's complement), written with an explicit reduction modulo `2^w`.
* `double` is IEEE-754 binary64 with round-to-nearest-even.  A finite double is
  represented by the rational number it denotes (`Dbl.fin q`); every arithmetic
  operation computes the exact rational result and rounds it with `fl`.  The sign
  of zero is not represented (no operation of the typecasters observes it).
* A conversion from `double` to `int`/`long` whose truncated value is out of
  range (or whose operand is not finite) yields the most negative value of the
  target type, as the x86-64 conversion instructions do.
* The Python C-API calls are recorded, not executed: the result of a typecaster
  says which object was called with which arguments (`PyResult`).  Whether a
  recorded constructor call yields a value or raises is told by `constructs`, from
  the domains of the constructors of the `datetime` module.
-/

namespace Typecast

/-! ## Machine integers -/

/-- Reduction of an integer into the signed two's complement range of width `w + 1`
bits, that is into `[-2^w, 2^w)`. -/
def wrapSigned (w : Nat) (z : Int) : Int :=
  (z + 2 ^ w) % 2 ^ (w + 1) - 2 ^ w

/-- Value stored in a C `int` (32 bits). -/
def wrapInt (z : Int) : Int := wrapSigned 31 z

/-- Value stored in a C `long` (64 bits, LP64). -/
def wrapLong (z : Int) : Int := wrapSigned 63 z

def INT_MIN : Int := -2147483648
def INT_MAX : Int := 2147483647
def LONG_MIN : Int := -9223372036854775808
def LONG_MAX : Int := 9223372036854775807

/-! ## IEEE-754 binary64 -/

/-- A C `double`: a finite value (the rational it denotes), an infinity, or a NaN. -/
inductive Dbl where
  | fin (q : ℚ)
  | inf (neg : Bool)
  | nan
  deriving DecidableEq

/-- Nearest integer, ties to the even one. -/
def roundEven (q : ℚ) : ℤ :=
  let f := ⌊q⌋
  let r := q - f
  if r < 1 / 2 then f else if 1 / 2 < r then f + 1 else if f % 2 = 0 then f else f + 1

/-- Number of halvings that bring `n` below 2, by recursion on a bound `fuel ≥ n`. -/
def ilog2Aux : Nat → Nat → Nat
  | 0, _ => 0
  | fuel + 1, n => if n < 2 then 0 else ilog2Aux fuel (n / 2) + 1

/-- Position of the leading bit of a natural number: the `k` with `2^k ≤ n < 2^(k+1)`
(and `0` for `n = 0`). -/
def ilog2 (n : Nat) : Nat := ilog2Aux n n

/-- Binary exponent of a nonzero rational: the `e` with `2^e ≤ |q| < 2^(e+1)`. -/
def binExp (q : ℚ) : ℤ :=
  let e0 : ℤ := (ilog2 q.num.natAbs : ℤ) - (ilog2 q.den : ℤ)
  if (2 : ℚ) ^ e0 ≤ |q| then e0 else e0 - 1

/-- Rounding of an exact result to binary64, round-to-nearest-even: 53 significant
bits for normal numbers, a fixed quantum `2^-1074` in the subnormal range, and
overflow to infinity from `2^1024` on. -/
def fl (q : ℚ) : Dbl :=
  if q = 0 then .fin 0 else
  let e := max (binExp q) (-1022)
  let r : ℚ := (roundEven (q * (2 : ℚ) ^ (52 - e)) : ℚ) * (2 : ℚ) ^ (e - 52)
  if (2 : ℚ) ^ (1024 : ℤ) ≤ |r| then .inf (decide (q < 0)) else .fin r

namespace Dbl

/-- Conversion of an integer to `double`. -/
def ofInt (z : Int) : Dbl := fl z

def neg : Dbl → Dbl
  | fin q => fin (-q)
  | inf s => inf (!s)
  | nan => nan

def add : Dbl → Dbl → Dbl
  | fin x, fin y => fl (x + y)
  | fin _, inf s => inf s
  | inf s, fin _ => inf s
  | inf s, inf t => if s = t then inf s else nan
  | _, _ => nan

def sub (a b : Dbl) : Dbl := add a (neg b)

def mul : Dbl → Dbl → Dbl
  | fin x, fin y => fl (x * y)
  | fin x, inf s => if x = 0 then nan else inf (xor (decide (x < 0)) s)
  | inf s, fin y => if y = 0 then nan else inf (xor s (decide (y < 0)))
  | inf s, inf t => inf (xor s t)
  | _, _ => nan

/-- Division.  The divisors of the typecasters come from integers, so a zero divisor
is the positive zero. -/
def div : Dbl → Dbl → Dbl
  | fin x, fin y =>
      if y = 0 then (if x = 0 then nan else inf (decide (x < 0))) else fl (x / y)
  | fin _, inf _ => fin 0
  | inf s, fin y => inf (xor s (decide (y < 0)))
  | _, _ => nan

/-- The C library `floor`. -/
def floor : Dbl → Dbl
  | fin q => fin (⌊q⌋ : ℤ)
  | d => d

/-- The C library `round`: nearest integer, halfway cases away from zero. -/
def round : Dbl → Dbl
  | fin q => if 0 ≤ q then fin (⌊q + 1 / 2⌋ : ℤ) else fin (-(⌊-q + 1 / 2⌋ : ℤ))
  | d => d

/-- The comparison `d < 0.0`. -/
def ltZero : Dbl → Bool
  | fin q => decide (q < 0)
  | inf s => s
  | nan => false

/-- Truncation toward zero of a rational. -/
def truncQ (q : ℚ) : Int := if 0 ≤ q then ⌊q⌋ else -⌊-q⌋

/-- The cast `(int)d`. -/
def toInt : Dbl → Int
  | fin q => if INT_MIN ≤ truncQ q ∧ truncQ q ≤ INT_MAX then truncQ q else INT_MIN
  | _ => INT_MIN

/-- The cast `(long)d`. -/
def toLong : Dbl → Int
  | fin q => if LONG_MIN ≤ truncQ q ∧ truncQ q ≤ LONG_MAX then truncQ q else LONG_MIN
  | _ => LONG_MIN

end Dbl

/-! ## C strings and character classes (the "C" locale) -/

/-- The C string held in a buffer: the characters before the first NUL. -/
def cstr (buf : List Char) : List Char := buf.takeWhile (fun c => c.toNat != 0)

/-- The C library `isspace`: space, `\t`, `\n`, `\v`, `\f`, `\r`. -/
def isspace (c : Char) : Bool := c.toNat == 32 || (9 ≤ c.toNat && c.toNat ≤ 13)

/-- The C library `isdigit`. -/
def isdigit (c : Char) : Bool := 48 ≤ c.toNat && c.toNat ≤ 57

/-- Value of a decimal digit character. -/
def digitVal (c : Char) : Nat := c.toNat - 48

/-- The C library `tolower` on ASCII letters. -/
def tolower (c : Char) : Char :=
  if 65 ≤ c.toNat ∧ c.toNat ≤ 90 then Char.ofNat (c.toNat + 32) else c

/-- The C library `isxdigit`. -/
def isxdigit (c : Char) : Bool :=
  isdigit c || (97 ≤ (tolower c).toNat && (tolower c).toNat ≤ 102)

/-- Value of a hexadecimal digit character. -/
def xdigitVal (c : Char) : Nat :=
  if isdigit c then digitVal c else (tolower c).toNat - 87

/-- Characters allowed between the parentheses of `nan(...)`: digits, letters, `_`. -/
def isnchar (c : Char) : Bool :=
  isdigit c || (97 ≤ (tolower c).toNat && (tolower c).toNat ≤ 122) || c.toNat == 95

/-- Value of a string of decimal digits. -/
def digitsVal (ds : List Char) : Nat := ds.foldl (fun a c => a * 10 + digitVal c) 0

/-- Value of a string of hexadecimal digits. -/
def xdigitsVal (ds : List Char) : Nat := ds.foldl (fun a c => a * 16 + xdigitVal c) 0

/-- The C library `strcmp(a, b) == 0`. -/
def streq (a b : List Char) : Bool := a == b

/-! ## `sscanf` conversions

Each conversion follows ISO C 7.21.6.2: leading white space is skipped (except for
`%c`), the longest input sequence that is a prefix of a matching sequence is read,
and the conversion fails when what was read is not a complete matching sequence. -/

/-- Outcome of one directive: the converted value and the remaining input, a
matching failure, or an input failure (end of the string before any character). -/
inductive Conv (α : Type) where
  | ok (val : α) (rest : List Char)
  | matchFail
  | inputFail
  deriving DecidableEq

/-- White space in the format, and the skipping that precedes `%d` and `%lf`. -/
def skipws (s : List Char) : List Char := s.dropWhile isspace

/-- An optional sign: whether it is a minus, and the input after it. -/
def optSign : List Char → Bool × List Char
  | '-' :: t => (true, t)
  | '+' :: t => (false, t)
  | s => (false, s)

/-- The conversion `%d` into an `int`.  A value that does not fit is reduced modulo
`2^32`; ISO C leaves that case undefined, and the GNU C library agrees with the
reduction up to `2^63 - 1`, beyond which it stores -1. -/
def scanInt (s : List Char) : Conv Int :=
  match skipws s with
  | [] => .inputFail
  | c :: t =>
    let sb := optSign (c :: t)
    let ds := sb.2.takeWhile isdigit
    if ds = [] then .matchFail
    else .ok (wrapInt (if sb.1 then -(digitsVal ds : Int) else digitsVal ds)) (sb.2.dropWhile isdigit)

/-- The conversion `%c`: one character, no white space skipped. -/
def scanChar : List Char → Conv Char
  | [] => .inputFail
  | c :: t => .ok c t

/-- An ordinary character of the format: the next input character must be it. -/
def scanLit (l : Char) : List Char → Conv Unit
  | [] => .inputFail
  | c :: t => if c = l then .ok () t else .matchFail

/-- Consume the lower-case word `w` from the input, ignoring the case of the input. -/
def eatNoCase : List Char → List Char → Option (List Char)
  | [], s => some s
  | _ :: _, [] => none
  | l :: ls, c :: s => if tolower c = l then eatNoCase ls s else none

/-- Apply a sign to a rational. -/
def withSign (neg : Bool) (q : ℚ) : ℚ := if neg then -q else q

/-- An optional exponent part introduced by the letter `mark` (`e` or `p`): `none` when
the letter is there without digits after it, otherwise the signed exponent (zero when
there is no exponent part) and the remaining input.  The letter without digits is a
matching failure by ISO C; the GNU C library converts the number before the letter
instead. -/
def scanExponent (mark : Char) (s : List Char) : Option (Int × List Char) :=
  match s with
  | [] => some (0, s)
  | c :: t =>
    if tolower c = mark then
      let sb := optSign t
      let ds := sb.2.takeWhile isdigit
      if ds = [] then none
      else some (if sb.1 then -(digitsVal ds : Int) else digitsVal ds, sb.2.dropWhile isdigit)
    else some (0, s)

/-- An optional radix point with the digits after it: those digits and the remaining
input. -/
def scanFraction (isd : Char → Bool) : List Char → List Char × List Char
  | '.' :: t => (t.takeWhile isd, t.dropWhile isd)
  | s => ([], s)

/-- A decimal floating constant after its sign: digits with an optional radix point
and an optional exponent; the value is correctly rounded. -/
def scanDecimal (neg : Bool) (s : List Char) : Conv Dbl :=
  let ip := s.takeWhile isdigit
  let fr := scanFraction isdigit (s.dropWhile isdigit)
  if ip = [] ∧ fr.1 = [] then .matchFail
  else
    match scanExponent 'e' fr.2 with
    | none => .matchFail
    | some (e, rest) =>
      .ok (fl (withSign neg ((digitsVal (ip ++ fr.1) : ℚ) * (10 : ℚ) ^ (e - fr.1.length)))) rest

/-- A hexadecimal floating constant after its sign and its `0x`. -/
def scanHex (neg : Bool) (s : List Char) : Conv Dbl :=
  let ip := s.takeWhile isxdigit
  let fr := scanFraction isxdigit (s.dropWhile isxdigit)
  if ip = [] ∧ fr.1 = [] then .matchFail
  else
    match scanExponent 'p' fr.2 with
    | none => .matchFail
    | some (e, rest) =>
      .ok (fl (withSign neg ((xdigitsVal (ip ++ fr.1) : ℚ) * (2 : ℚ) ^ (e - 4 * fr.1.length)))) rest

/-- A floating-point subject sequence after its sign: `inf`, `infinity`, `nan`,
`nan(...)`, a hexadecimal or a decimal constant.  A `nan(` that is not closed by `)` after
letters, digits and underscores is a matching failure by ISO C; the GNU C library
converts the `nan` before the parenthesis instead. -/
def scanDoubleBody (neg : Bool) (s : List Char) : Conv Dbl :=
  match eatNoCase ['i', 'n', 'f'] s with
  | some r =>
    (match r with
     | c :: _ =>
       if tolower c = 'i' then
         (match eatNoCase ['i', 'n', 'i', 't', 'y'] r with
          | some r2 => .ok (.inf neg) r2
          | none => .matchFail)
       else .ok (.inf neg) r
     | [] => .ok (.inf neg) r)
  | none =>
  match eatNoCase ['n', 'a', 'n'] s with
  | some r =>
    (match r with
     | '(' :: t =>
       (match t.dropWhile isnchar with
        | ')' :: r2 => .ok .nan r2
        | _ => .matchFail)
     | _ => .ok .nan r)
  | none =>
  match eatNoCase ['0', 'x'] s with
  | some r => scanHex neg r
  | none => scanDecimal neg s

/-- The conversion `%lf` into a `double`. -/
def scanDouble (s : List Char) : Conv Dbl :=
  match skipws s with
  | [] => .inputFail
  | c :: t =>
    let sb := optSign (c :: t)
    scanDoubleBody sb.1 sb.2

/-! ## Results of a typecaster -/

/-- The Python objects the module holds pointers to (the `extern` declarations). -/
inductive PyGlobal where
  | pyDateTimeModuleP
  | pyDateTypeP
  | pyTimeTypeP
  | pyDateTimeTypeP
  | pyDeltaTypeP
  deriving DecidableEq

/-- What a typecaster returns, with the Python C-API call that produced it:
`Py_None`; `PyObject_GetAttrString(o, name)`; `NULL` after
`PyErr_SetString(DataError, msg)`; `PyObject_CallFunction(callee, ...)` with its integer
arguments, and, when the timezone factory was called, the integer it was called with
(the object it returns is the last argument of the call).  `overrun` is the interval
scan reading past the terminating NUL of its input. -/
inductive PyResult where
  | pyNone
  | getAttr (o : PyGlobal) (name : String)
  | dataError (msg : String)
  | call (callee : PyGlobal) (args : List Int) (tzinfo : Option Int)
  | overrun
  deriving DecidableEq

/-- The cursor attribute `tzinfo_factory`: `Py_None` or a callable. -/
inductive TzFactory where
  | pyNone
  | callable
  deriving DecidableEq

/-- The part of `cursorObject` the typecasters read. -/
structure cursorObject where
  tzinfo_factory : TzFactory
  deriving DecidableEq

/-! ## DATE -/

/-- The variables `n, y, m, d` of `typecast_PYDATE_cast` after the `sscanf`. -/
structure DateVars where
  n : Int
  y : Int
  m : Int
  d : Int
  deriving DecidableEq

/-- The call `sscanf(str, "%d-%d-%d", &y, &m, &d)` on variables initialised to zero:
`n` is its return value (`-1` is `EOF`). -/
def sscanf_date (str : List Char) : DateVars :=
  match scanInt str with
  | .inputFail => ⟨-1, 0, 0, 0⟩
  | .matchFail => ⟨0, 0, 0, 0⟩
  | .ok y r1 =>
  match scanLit '-' r1 with
  | .inputFail => ⟨1, y, 0, 0⟩
  | .matchFail => ⟨1, y, 0, 0⟩
  | .ok _ r2 =>
  match scanInt r2 with
  | .inputFail => ⟨1, y, 0, 0⟩
  | .matchFail => ⟨1, y, 0, 0⟩
  | .ok m r3 =>
  match scanLit '-' r3 with
  | .inputFail => ⟨2, y, m, 0⟩
  | .matchFail => ⟨2, y, m, 0⟩
  | .ok _ r4 =>
  match scanInt r4 with
  | .inputFail => ⟨2, y, m, 0⟩
  | .matchFail => ⟨2, y, m, 0⟩
  | .ok d _ => ⟨3, y, m, d⟩

/-- The test `!strcmp(str, "infinity") || !strcmp(str, "-infinity")`. -/
def isInfinity (s : List Char) : Bool :=
  streq s "infinity".toList || streq s "-infinity".toList

/-- The function `typecast_PYDATE_cast`. -/
def typecast_PYDATE_cast (str : Option (List Char)) (len : Int) (curs : cursorObject) :
    PyResult :=
  match str with
  | none => .pyNone
  | some buf =>
    let s := cstr buf
    if isInfinity s then
      if s.head? = some '-' then .getAttr .pyDateTypeP "min"
      else .getAttr .pyDateTypeP "max"
    else
      let r := sscanf_date s
      if r.n ≠ 3 then .dataError "unable to parse date"
      else .call .pyDateTypeP [r.y, r.m, r.d] none

/-! ## TIME -/

/-- The variables `n, hh, mm, ss` of `typecast_PYTIME_cast` after the `sscanf`. -/
structure TimeVars where
  n : Int
  hh : Int
  mm : Int
  ss : Dbl
  deriving DecidableEq

/-- The call `sscanf(str, "%d:%d:%lf", &hh, &mm, &ss)` on variables initialised to
zero. -/
def sscanf_time (str : List Char) : TimeVars :=
  match scanInt str with
  | .inputFail => ⟨-1, 0, 0, .fin 0⟩
  | .matchFail => ⟨0, 0, 0, .fin 0⟩
  | .ok hh r1 =>
  match scanLit ':' r1 with
  | .inputFail => ⟨1, hh, 0, .fin 0⟩
  | .matchFail => ⟨1, hh, 0, .fin 0⟩
  | .ok _ r2 =>
  match scanInt r2 with
  | .inputFail => ⟨1, hh, 0, .fin 0⟩
  | .matchFail => ⟨1, hh, 0, .fin 0⟩
  | .ok mm r3 =>
  match scanLit ':' r3 with
  | .inputFail => ⟨2, hh, mm, .fin 0⟩
  | .matchFail => ⟨2, hh, mm, .fin 0⟩
  | .ok _ r4 =>
  match scanDouble r4 with
  | .inputFail => ⟨2, hh, mm, .fin 0⟩
  | .matchFail => ⟨2, hh, mm, .fin 0⟩
  | .ok ss _ => ⟨3, hh, mm, ss⟩

/-- The statement `micro = (ss - floor(ss)) * 1000000.0`. -/
def microOf (ss : Dbl) : Dbl := Dbl.mul (Dbl.sub ss (Dbl.floor ss)) (.fin 1000000)

/-- The statement `sec = (int)floor(ss)`. -/
def secOf (ss : Dbl) : Int := Dbl.toInt (Dbl.floor ss)

/-- The variable `mm` after `if (sec > 59) { mm += 1; sec -= 60; }`. -/
def foldMinute (mm sec : Int) : Int := if sec > 59 then wrapInt (mm + 1) else mm

/-- The variable `sec` after `if (sec > 59) { mm += 1; sec -= 60; }`. -/
def foldSecond (sec : Int) : Int := if sec > 59 then wrapInt (sec - 60) else sec

/-- The function `typecast_PYTIME_cast`. -/
def typecast_PYTIME_cast (str : Option (List Char)) (len : Int) (curs : cursorObject) :
    PyResult :=
  match str with
  | none => .pyNone
  | some buf =>
    let r := sscanf_time (cstr buf)
    if r.n ≠ 3 then .dataError "unable to parse time"
    else
      let micro := microOf r.ss
      let sec := secOf r.ss
      .call .pyTimeTypeP
        [r.hh, foldMinute r.mm sec, foldSecond sec, Dbl.toInt (Dbl.round micro)] none

/-! ## DATETIME -/

/-- The variables of `typecast_PYDATETIME_cast` after the `sscanf`. -/
structure StampVars where
  n : Int
  y : Int
  m : Int
  d : Int
  hh : Int
  mm : Int
  ss : Dbl
  tzs : Char
  tzh : Int
  tzm : Int
  deriving DecidableEq

/-- The variables of `typecast_PYDATETIME_cast` as declared: all zero. -/
def StampVars.init : StampVars := ⟨0, 0, 0, 0, 0, 0, .fin 0, Char.ofNat 0, 0, 0⟩

/-- The time and offset part `%d:%d:%lf%c%d:%d` of the timestamp format, after the
date and the white space were read into `v`. -/
def sscanf_stamp_time (v : StampVars) (r : List Char) : StampVars :=
  match scanInt r with
  | .inputFail => v
  | .matchFail => v
  | .ok hh r1 =>
  let v4 := { v with n := 4, hh := hh }
  match scanLit ':' r1 with
  | .inputFail => v4
  | .matchFail => v4
  | .ok _ r2 =>
  match scanInt r2 with
  | .inputFail => v4
  | .matchFail => v4
  | .ok mm r3 =>
  let v5 := { v4 with n := 5, mm := mm }
  match scanLit ':' r3 with
  | .inputFail => v5
  | .matchFail => v5
  | .ok _ r4 =>
  match scanDouble r4 with
  | .inputFail => v5
  | .matchFail => v5
  | .ok ss r5 =>
  let v6 := { v5 with n := 6, ss := ss }
  match scanChar r5 with
  | .inputFail => v6
  | .matchFail => v6
  | .ok tzs r6 =>
  let v7 := { v6 with n := 7, tzs := tzs }
  match scanInt r6 with
  | .inputFail => v7
  | .matchFail => v7
  | .ok tzh r7 =>
  let v8 := { v7 with n := 8, tzh := tzh }
  match scanLit ':' r7 with
  | .inputFail => v8
  | .matchFail => v8
  | .ok _ r8 =>
  match scanInt r8 with
  | .inputFail => v8
  | .matchFail => v8
  | .ok tzm _ => { v8 with n := 9, tzm := tzm }

/-- The call `sscanf(str, "%d-%d-%d %d:%d:%lf%c%d:%d", &y, &m, &d, &hh, &mm, &ss, &tzs,
&tzh, &tzm)` on the variables as declared: `n` is its return value (`-1` is `EOF`). -/
def sscanf_stamp (str : List Char) : StampVars :=
  let v0 := StampVars.init
  match scanInt str with
  | .inputFail => { v0 with n := -1 }
  | .matchFail => v0
  | .ok y r1 =>
  let v1 := { v0 with n := 1, y := y }
  match scanLit '-' r1 with
  | .inputFail => v1
  | .matchFail => v1
  | .ok _ r2 =>
  match scanInt r2 with
  | .inputFail => v1
  | .matchFail => v1
  | .ok m r3 =>
  let v2 := { v1 with n := 2, m := m }
  match scanLit '-' r3 with
  | .inputFail => v2
  | .matchFail => v2
  | .ok _ r4 =>
  match scanInt r4 with
  | .inputFail => v2
  | .matchFail => v2
  | .ok d r5 => sscanf_stamp_time { v2 with n := 3, d := d } (skipws r5)

/-- The variable `tzm` after `tzm += tzh*60; if (tzs == '-') tzm = -tzm;`. -/
def utcOffset (tzs : Char) (tzh tzm : Int) : Int :=
  let total := wrapInt (tzm + wrapInt (tzh * 60))
  if tzs = '-' then wrapInt (-total) else total

/-- The function `typecast_PYDATETIME_cast`. -/
def typecast_PYDATETIME_cast (str : Option (List Char)) (len : Int) (curs : cursorObject) :
    PyResult :=
  match str with
  | none => .pyNone
  | some buf =>
    let s := cstr buf
    if isInfinity s then
      if s.head? = some '-' then .getAttr .pyDateTimeModuleP "min"
      else .getAttr .pyDateTimeModuleP "max"
    else
      let r := sscanf_stamp s
      if r.n ≠ 3 ∧ r.n ≠ 6 ∧ r.n ≤ 7 then .dataError "unable to parse date"
      else
        let micro := microOf r.ss
        let sec := secOf r.ss
        if r.tzs.toNat ≠ 0 ∧ curs.tzinfo_factory ≠ .pyNone then
          .call .pyDateTimeTypeP
            [r.y, r.m, r.d, r.hh, foldMinute r.mm sec, foldSecond sec,
              Dbl.toInt (Dbl.round micro)]
            (some (utcOffset r.tzs r.tzh r.tzm))
        else
          .call .pyDateTimeTypeP
            [r.y, r.m, r.d, r.hh, foldMinute r.mm sec, foldSecond sec,
              Dbl.toInt (Dbl.round micro)]
            none

/-! ## INTERVAL -/

/-- The local variables of `typecast_PYINTERVAL_cast`. -/
structure IntervalVars where
  years : Int
  months : Int
  days : Int
  denominator : Int
  hours : Dbl
  minutes : Dbl
  seconds : Dbl
  hundredths : Dbl
  v : Dbl
  sign : Dbl
  part : Int
  deriving DecidableEq

/-- The local variables as declared. -/
def IntervalVars.init : IntervalVars :=
  ⟨0, 0, 0, 1, .fin 0, .fin 0, .fin 0, .fin 0, .fin 0, .fin 1, 0⟩

/-- Modelled from the spec: `skip_until_space` is called by the interval typecaster but
defined outside `typecast_datetime.c`; by its name and the spec's description of the
unit letters it advances the pointer to the next space character, or to the terminating
NUL when there is none. -/
def skip_until_space (s : List Char) : List Char := s.dropWhile (fun c => c != ' ')

/-- The statement `v = v*10 + (double)*str - (double)'0'`. -/
def pushDigit (v : Dbl) (c : Char) : Dbl :=
  Dbl.sub (Dbl.add (Dbl.mul v (.fin 10)) (.fin c.toNat)) (.fin 48)

/-- The variables after a unit letter was honoured: `v = 0.0; sign = 1.0; part = p`. -/
def IntervalVars.nextPart (st : IntervalVars) (p : Int) : IntervalVars :=
  { st with v := .fin 0, sign := .fin 1, part := p }

/-- The variables after the `case` of a digit: `v = v*10 + (double)*str - (double)'0';
if (part == 6) denominator *= 10;`. -/
def IntervalVars.digitStep (st : IntervalVars) (c : Char) : IntervalVars :=
  { st with
    v := pushDigit st.v c
    denominator := if st.part = 6 then wrapLong (st.denominator * 10) else st.denominator }

mutual

/-- The loop `while (*str) { switch (*str) { ... } str++; }`, the pointer `str` being
the list of the characters from it to the terminating NUL.  The result is `none` when
the pointer moves past the terminating NUL. -/
def scanLoop : List Char → IntervalVars → Option IntervalVars
  | [], st => some st
  | c :: rest, st =>
    if c = '-' then scanLoop rest { st with sign := .fin (-1) }
    else if isdigit c then scanLoop rest (st.digitStep c)
    else if c = 'y' then
      if st.part = 0 then
        skipLoop rest ({ st with years := Dbl.toLong (Dbl.mul st.v st.sign) }.nextPart 1)
      else scanLoop rest st
    else if c = 'm' then
      if st.part ≤ 1 then
        skipLoop rest ({ st with months := Dbl.toLong (Dbl.mul st.v st.sign) }.nextPart 2)
      else scanLoop rest st
    else if c = 'd' then
      if st.part ≤ 2 then
        skipLoop rest ({ st with days := Dbl.toLong (Dbl.mul st.v st.sign) }.nextPart 3)
      else scanLoop rest st
    else if c = ':' then
      if st.part ≤ 3 then scanLoop rest { st with hours := st.v, v := .fin 0, part := 4 }
      else if st.part = 4 then scanLoop rest { st with minutes := st.v, v := .fin 0, part := 5 }
      else scanLoop rest st
    else if c = '.' then
      if st.part = 5 then scanLoop rest { st with seconds := st.v, v := .fin 0, part := 6 }
      else scanLoop rest st
    else scanLoop rest st

/-- The rest of an iteration that honoured a unit letter: `str = skip_until_space(str)`
went over the unit letter, it goes on to the next space or to the terminating NUL, then
`str++` steps over that character and the loop continues.  Stepping over the
terminating NUL leaves the string. -/
def skipLoop : List Char → IntervalVars → Option IntervalVars
  | [], _ => none
  | c :: rest, st => if c = ' ' then scanLoop rest st else skipLoop rest st

end

/-- The statements after the loop that store the last value read: minutes, seconds or
the fraction of a second. -/
def lastValue (st : IntervalVars) : IntervalVars :=
  if st.part = 4 then { st with minutes := st.v }
  else if st.part = 5 then { st with seconds := st.v }
  else if st.part = 6 then { st with hundredths := Dbl.div st.v (Dbl.ofInt st.denominator) }
  else st

/-- The variable `seconds` after the statement commented `calculates seconds`. -/
def totalSeconds (st : IntervalVars) : Dbl :=
  if Dbl.ltZero st.sign then
    Dbl.neg (Dbl.add (Dbl.add (Dbl.add st.hundredths st.seconds) (Dbl.mul st.minutes (.fin 60)))
      (Dbl.mul st.hours (.fin 3600)))
  else
    Dbl.add st.seconds (Dbl.add (Dbl.add st.hundredths (Dbl.mul st.minutes (.fin 60)))
      (Dbl.mul st.hours (.fin 3600)))

/-- The variable `days` after `days += years*365 + months*30`. -/
def totalDays (st : IntervalVars) : Int :=
  wrapLong (st.days + wrapLong (wrapLong (st.years * 365) + wrapLong (st.months * 30)))

/-- The function `typecast_PYINTERVAL_cast`.  The `long` variable `days` is passed for
an `i` format unit, which reads an `int`. -/
def typecast_PYINTERVAL_cast (str : Option (List Char)) (len : Int) (curs : cursorObject) :
    PyResult :=
  match str with
  | none => .pyNone
  | some buf =>
    match scanLoop (cstr buf) IntervalVars.init with
    | none => .overrun
    | some st0 =>
      let st := lastValue st0
      let seconds := totalSeconds st
      let micro := microOf seconds
      let sec := secOf seconds
      .call .pyDeltaTypeP [wrapInt (totalDays st), sec, Dbl.toInt (Dbl.round micro)] none

/-! ## Decimal text of natural numbers, used to state the properties -/

/-- The character of a decimal digit. -/
def digitChar (k : Nat) : Char := Char.ofNat (48 + k)

/-- Decimal digits of `n`, most significant first, by recursion on a bound `fuel > n`. -/
def decimalAux : Nat → Nat → List Char
  | 0, _ => []
  | fuel + 1, n =>
    if n < 10 then [digitChar n] else decimalAux fuel (n / 10) ++ [digitChar (n % 10)]

/-- The decimal text of a natural number, without leading zeros (`%d`). -/
def decimal (n : Nat) : List Char := decimalAux (n + 1) n

/-- The decimal text of a natural number on at least two digits (`%02d`). -/
def pad2 (n : Nat) : List Char :=
  if n < 100 then [digitChar (n / 10), digitChar (n % 10)] else decimal n

/-- The four-digit text of a natural number below 10000 (`%04d`). -/
def pad4 (n : Nat) : List Char :=
  [digitChar (n / 1000 % 10), digitChar (n / 100 % 10), digitChar (n / 10 % 10),
    digitChar (n % 10)]

/-- Leap years of the Gregorian calendar. -/
def isLeapYear (y : Nat) : Bool := (y % 4 == 0 && y % 100 != 0) || y % 400 == 0

/-- Number of days of month `m` of year `y`. -/
def daysInMonth (y m : Nat) : Nat :=
  if m = 2 then (if isLeapYear y then 29 else 28)
  else if m = 4 ∨ m = 6 ∨ m = 9 ∨ m = 11 then 30 else 31

/-- The text `YYYY-MM-DD`. -/
def dateText (y m d : Nat) : List Char :=
  pad4 y ++ '-' :: (pad2 m ++ '-' :: pad2 d)

/-- The text `hh:mm:ss`. -/
def clockText (h mi s : Nat) : List Char :=
  pad2 h ++ ':' :: (pad2 mi ++ ':' :: pad2 s)

/-- The text `YYYY-MM-DD hh:mm:ss` followed by the character `sign`, the timezone hour,
`:` and the timezone minute. -/
def stampTzText (y m d h mi s : Nat) (sign : Char) (tzh tzm : Nat) : List Char :=
  pad4 y ++ '-' :: (pad2 m ++ '-' :: (pad2 d ++ ' ' :: (pad2 h ++ ':' :: (pad2 mi ++ ':' ::
    (pad2 s ++ sign :: (pad2 tzh ++ ':' :: pad2 tzm))))))

/-- The text `-hh:mi:ss`. -/
def negClockText (h mi s : Nat) : List Char := '-' :: clockText h mi s

/-- The text `Y year M mons D days hh:mi:ss`. -/
def intervalText (Y M D h mi s : Nat) : List Char :=
  decimal Y ++ " year ".toList ++ (decimal M ++ " mons ".toList ++
    (decimal D ++ " days ".toList ++ clockText h mi s))

/-- The text `-Y year M mons D days hh:mi:ss`. -/
def negIntervalText (Y M D h mi s : Nat) : List Char := '-' :: intervalText Y M D h mi s

/-- The text `-D days hh:mi:ss`. -/
def negDaysText (D h mi s : Nat) : List Char :=
  '-' :: (decimal D ++ " days ".toList ++ clockText h mi s)

/-- The text `hh:mi:ss.f` for a string `f` of fraction digits, after a `-` when `neg`. -/
def fracClockText (neg : Bool) (h mi s : Nat) (f : List Char) : List Char :=
  (if neg then ['-'] else []) ++ (clockText h mi s ++ '.' :: f)

/-- The text `Y year M mons D days hh:mi:ss.f`, the clock clause after a `-` when
`neg`. -/
def fracIntervalText (Y M D : Nat) (neg : Bool) (h mi s : Nat) (f : List Char) : List Char :=
  decimal Y ++ " year ".toList ++ (decimal M ++ " mons ".toList ++
    (decimal D ++ " days ".toList ++ fracClockText neg h mi s f))

/-! ## The interval scan with the position of `str` -/

mutual

/-- The loop of `scanLoop` together with the offset `pos` of the pointer `str` from the
start of the string: every `str++` and every step of `skip_until_space` adds one.  The
result is the variables (`none` when the pointer left the string) and the final offset. -/
def scanTrace : List Char → IntervalVars → Nat → Option IntervalVars × Nat
  | [], st, pos => (some st, pos)
  | c :: rest, st, pos =>
    if c = '-' then scanTrace rest { st with sign := .fin (-1) } (pos + 1)
    else if isdigit c then scanTrace rest (st.digitStep c) (pos + 1)
    else if c = 'y' then
      if st.part = 0 then
        skipTrace rest ({ st with years := Dbl.toLong (Dbl.mul st.v st.sign) }.nextPart 1)
          (pos + 1)
      else scanTrace rest st (pos + 1)
    else if c = 'm' then
      if st.part ≤ 1 then
        skipTrace rest ({ st with months := Dbl.toLong (Dbl.mul st.v st.sign) }.nextPart 2)
          (pos + 1)
      else scanTrace rest st (pos + 1)
    else if c = 'd' then
      if st.part ≤ 2 then
        skipTrace rest ({ st with days := Dbl.toLong (Dbl.mul st.v st.sign) }.nextPart 3)
          (pos + 1)
      else scanTrace rest st (pos + 1)
    else if c = ':' then
      if st.part ≤ 3 then
        scanTrace rest { st with hours := st.v, v := .fin 0, part := 4 } (pos + 1)
      else if st.part = 4 then
        scanTrace rest { st with minutes := st.v, v := .fin 0, part := 5 } (pos + 1)
      else scanTrace rest st (pos + 1)
    else if c = '.' then
      if st.part = 5 then
        scanTrace rest { st with seconds := st.v, v := .fin 0, part := 6 } (pos + 1)
      else scanTrace rest st (pos + 1)
    else scanTrace rest st (pos + 1)

/-- The steps of `skipLoop` with the offset: on the terminating NUL `skip_until_space`
stops at `pos` and `str++` makes the offset `pos + 1`, past the terminator. -/
def skipTrace : List Char → IntervalVars → Nat → Option IntervalVars × Nat
  | [], _, pos => (none, pos + 1)
  | c :: rest, st, pos =>
    if c = ' ' then scanTrace rest st (pos + 1) else skipTrace rest st (pos + 1)

end

/-! ## The constructors of the `datetime` module

The typecasters hand their integers to the constructors of Python's `datetime` module,
which either yield a value or raise.  The functions below say which arguments yield a
value. -/

/-- Modelled from the spec: the Date of the data model (month 1-12, day 1-31), with the
year range `1..9999` and the lengths of the months of Python's `datetime.date`, the
constructor behind `pyDateTypeP`; other arguments raise `ValueError`. -/
def dateAccepts (y m d : Int) : Bool :=
  decide (1 ≤ y ∧ y ≤ 9999 ∧ 1 ≤ m ∧ m ≤ 12 ∧ 1 ≤ d ∧
    d ≤ (daysInMonth y.toNat m.toNat : Int))

/-- Modelled from the spec: the Time of the data model, hour 0-23, minute 0-59, second
0-59, microsecond 0-999999; other arguments raise `ValueError`. -/
def timeAccepts (h mi s us : Int) : Bool :=
  decide (0 ≤ h ∧ h ≤ 23 ∧ 0 ≤ mi ∧ mi ≤ 59 ∧ 0 ≤ s ∧ s ≤ 59 ∧ 0 ≤ us ∧ us ≤ 999999)

/-- Modelled from the spec: the Duration of the data model, whose constructor adds up
days, seconds and microseconds of either sign ("signed accumulation before
normalization"); as Python's `datetime.timedelta` it yields a value when the sum lies
between -999999999 days and 999999999 days 23:59:59.999999, and raises `OverflowError`
otherwise. -/
def deltaAccepts (days sec us : Int) : Bool :=
  decide (-(999999999 * 86400000000) ≤ days * 86400000000 + sec * 1000000 + us ∧
    days * 86400000000 + sec * 1000000 + us ≤ 999999999 * 86400000000 + 86399999999)

/-- Whether a result is a constructor call that yields a value.  A timezone object
returned by the factory is taken to be acceptable to the datetime constructor, which
looks at its type only. -/
def constructs : PyResult → Bool
  | .call .pyDateTypeP [y, m, d] none => dateAccepts y m d
  | .call .pyTimeTypeP [h, mi, s, us] none => timeAccepts h mi s us
  | .call .pyDateTimeTypeP [y, m, d, h, mi, s, us] _ =>
    dateAccepts y m d && timeAccepts h mi s us
  | .call .pyDeltaTypeP [days, sec, us] none => deltaAccepts days sec us
  | _ => false

/-! ## Lemmas: machine integers and binary64 -/

theorem wrapSigned_of_range (w : Nat) (z : Int) (h1 : -(2 ^ w) ≤ z) (h2 : z < 2 ^ w) :
    wrapSigned w z = z := by
  unfold wrapSigned
  have hp : (2 : Int) ^ (w + 1) = 2 * 2 ^ w := by ring
  rw [hp, Int.emod_eq_of_lt (by omega) (by omega)]
  ring

theorem wrapInt_of_range (z : Int) (h1 : -2147483648 ≤ z) (h2 : z ≤ 2147483647) :
    wrapInt z = z := by
  unfold wrapInt
  apply wrapSigned_of_range <;> norm_num <;> omega

theorem wrapLong_of_range (z : Int) (h1 : -9223372036854775808 ≤ z)
    (h2 : z ≤ 9223372036854775807) : wrapLong z = z := by
  unfold wrapLong
  apply wrapSigned_of_range <;> norm_num <;> omega

theorem ilog2Aux_le (fuel : Nat) : ∀ n k : Nat, n < 2 ^ (k + 1) → ilog2Aux fuel n ≤ k := by
  induction fuel with
  | zero => intro n k _; simp [ilog2Aux]
  | succ f ih =>
    intro n k h
    unfold ilog2Aux
    split
    · omega
    · rename_i h2
      cases k with
      | zero => simp at h; omega
      | succ k =>
        have : n / 2 < 2 ^ (k + 1) := by
          rw [Nat.div_lt_iff_lt_mul (by norm_num)]
          calc n < 2 ^ (k + 1 + 1) := h
            _ = 2 ^ (k + 1) * 2 := by ring
        have := ih (n / 2) k this
        omega

theorem roundEven_intCast (k : ℤ) : roundEven (k : ℚ) = k := by
  unfold roundEven
  simp

theorem binExp_intCast_le (z : ℤ) (h : z.natAbs < 2 ^ 53) : binExp (z : ℚ) ≤ 52 := by
  unfold binExp
  have h1 : ilog2 z.natAbs ≤ 52 := ilog2Aux_le _ _ 52 h
  have h2 : ilog2 1 = 0 := by decide
  simp only [Rat.intCast_num, Rat.intCast_den, h2]
  split <;> omega

theorem fl_intCast (z : ℤ) (h : z.natAbs < 2 ^ 53) : fl (z : ℚ) = .fin z := by
  unfold fl
  by_cases hz : (z : ℚ) = 0
  · simp [hz]
  · rw [if_neg hz]
    have he : max (binExp (z : ℚ)) (-1022) ≤ 52 := by
      have := binExp_intCast_le z h
      omega
    generalize max (binExp (z : ℚ)) (-1022) = e at he
    obtain ⟨k, hk⟩ : ∃ k : ℕ, 52 - e = k := ⟨(52 - e).toNat, by omega⟩
    have h1 : (z : ℚ) * (2 : ℚ) ^ (52 - e) = ((z * 2 ^ k : ℤ) : ℚ) := by
      rw [hk]; push_cast; simp
    have h2 : (2 : ℚ) ^ (e - 52) = ((2 : ℚ) ^ k)⁻¹ := by
      have : e - 52 = -(k : ℤ) := by omega
      rw [this, zpow_neg, zpow_natCast]
    have h3 : ((roundEven ((z : ℚ) * (2 : ℚ) ^ (52 - e)) : ℤ) : ℚ) * (2 : ℚ) ^ (e - 52) = z := by
      rw [h1, roundEven_intCast, h2]; push_cast; field_simp
    simp only [h3]
    have h4 : ¬ ((2 : ℚ) ^ (1024 : ℤ) ≤ |(z : ℚ)|) := by
      rw [not_le]
      have : |(z : ℚ)| < 2 ^ 53 := by
        rw [← Int.cast_abs, Int.abs_eq_natAbs]
        exact_mod_cast h
      calc |(z : ℚ)| < 2 ^ 53 := this
        _ ≤ (2 : ℚ) ^ (1024 : ℤ) := by norm_num
    rw [if_neg h4]

theorem ilog2Aux_spec (fuel : Nat) : ∀ n : Nat, 0 < n → n ≤ fuel →
    2 ^ ilog2Aux fuel n ≤ n ∧ n < 2 ^ (ilog2Aux fuel n + 1) := by
  induction fuel with
  | zero => intro n h0 h1; omega
  | succ f ih =>
    intro n h0 h1
    unfold ilog2Aux
    split
    · rename_i h2
      constructor <;> simp <;> omega
    · rename_i h2
      have hn : 0 < n / 2 := by omega
      have hf : n / 2 ≤ f := by omega
      obtain ⟨a, b⟩ := ih (n / 2) hn hf
      constructor
      · rw [pow_succ]; omega
      · rw [pow_succ]; omega

theorem ilog2_spec (n : Nat) (h : 0 < n) : 2 ^ ilog2 n ≤ n ∧ n < 2 ^ (ilog2 n + 1) :=
  ilog2Aux_spec n n h (le_refl n)

/-- The binary exponent of a nonzero rational brackets it between two powers of two. -/
theorem binExp_spec (q : ℚ) (hq : q ≠ 0) :
    (2 : ℚ) ^ binExp q ≤ |q| ∧ |q| < (2 : ℚ) ^ (binExp q + 1) := by
  have hnum : 0 < q.num.natAbs := Int.natAbs_pos.2 (Rat.num_ne_zero.2 hq)
  have hden : 0 < q.den := q.den_pos
  obtain ⟨a1, a2⟩ := ilog2_spec _ hnum
  obtain ⟨b1, b2⟩ := ilog2_spec _ hden
  have habs : |q| = (q.num.natAbs : ℚ) / (q.den : ℚ) := by
    conv_lhs => rw [← Rat.num_div_den q]
    rw [abs_div, Nat.abs_cast, ← Int.cast_abs, Int.abs_eq_natAbs, Int.cast_natCast]
  have hdpos : (0 : ℚ) < (q.den : ℚ) := by exact_mod_cast hden
  have a1' : (2 : ℚ) ^ (ilog2 q.num.natAbs) ≤ (q.num.natAbs : ℚ) := by exact_mod_cast a1
  have a2' : (q.num.natAbs : ℚ) < (2 : ℚ) ^ (ilog2 q.num.natAbs + 1) := by exact_mod_cast a2
  have b1' : (2 : ℚ) ^ (ilog2 q.den) ≤ (q.den : ℚ) := by exact_mod_cast b1
  have b2' : (q.den : ℚ) < (2 : ℚ) ^ (ilog2 q.den + 1) := by exact_mod_cast b2
  have two_pos : ∀ k : ℤ, (0 : ℚ) < (2 : ℚ) ^ k := fun k => zpow_pos (by norm_num) k
  unfold binExp
  simp only
  split
  · rename_i hle
    refine ⟨hle, ?_⟩
    rw [habs, div_lt_iff₀ hdpos]
    have e : (2 : ℚ) ^ ((ilog2 q.num.natAbs : ℤ) - (ilog2 q.den : ℤ) + 1) * (2 : ℚ) ^ (ilog2 q.den)
        = (2 : ℚ) ^ (ilog2 q.num.natAbs + 1) := by
      rw [← zpow_natCast, ← zpow_natCast, ← zpow_add₀ (by norm_num : (2 : ℚ) ≠ 0)]
      congr 1
      push_cast
      ring
    calc (q.num.natAbs : ℚ) < (2 : ℚ) ^ (ilog2 q.num.natAbs + 1) := a2'
      _ = (2 : ℚ) ^ ((ilog2 q.num.natAbs : ℤ) - (ilog2 q.den : ℤ) + 1) * (2 : ℚ) ^ (ilog2 q.den) :=
          e.symm
      _ ≤ (2 : ℚ) ^ ((ilog2 q.num.natAbs : ℤ) - (ilog2 q.den : ℤ) + 1) * (q.den : ℚ) :=
          mul_le_mul_of_nonneg_left b1' (le_of_lt (two_pos _))
  · rename_i hlt
    rw [not_le] at hlt
    refine ⟨?_, by simpa using hlt⟩
    rw [habs, le_div_iff₀ hdpos]
    have e : (2 : ℚ) ^ ((ilog2 q.num.natAbs : ℤ) - (ilog2 q.den : ℤ) - 1) *
        (2 : ℚ) ^ (ilog2 q.den + 1) = (2 : ℚ) ^ (ilog2 q.num.natAbs) := by
      rw [← zpow_natCast, ← zpow_natCast, ← zpow_add₀ (by norm_num : (2 : ℚ) ≠ 0)]
      congr 1
      push_cast
      ring
    calc (2 : ℚ) ^ ((ilog2 q.num.natAbs : ℤ) - (ilog2 q.den : ℤ) - 1) * (q.den : ℚ)
        ≤ (2 : ℚ) ^ ((ilog2 q.num.natAbs : ℤ) - (ilog2 q.den : ℤ) - 1) *
            (2 : ℚ) ^ (ilog2 q.den + 1) :=
          mul_le_mul_of_nonneg_left (le_of_lt b2') (le_of_lt (two_pos _))
      _ = (2 : ℚ) ^ (ilog2 q.num.natAbs) := e
      _ ≤ (q.num.natAbs : ℚ) := a1'

/-- Rounding to the nearest integer is within one half. -/
theorem roundEven_spec (q : ℚ) : |(roundEven q : ℚ) - q| ≤ 1 / 2 := by
  unfold roundEven
  have h1 := Int.floor_le q
  have h2 := Int.lt_floor_add_one q
  simp only
  split_ifs with a b c
  · rw [abs_le]; constructor <;> linarith
  · rw [abs_le]; push_cast; constructor <;> linarith
  · rw [abs_le]; constructor <;> linarith
  · rw [abs_le]; push_cast; constructor <;> linarith

/-- Known binary64 values: the doubles nearest to 0.1 and to 59.9999999, correctly
rounded ties, the largest finite double, overflow and the smallest subnormal. -/
theorem fl_known_values :
    fl (1 / 10) = .fin (3602879701896397 / 36028797018963968) ∧
    fl (599999999 / 10000000) = .fin (8444249287245931 / 140737488355328) ∧
    fl 9007199254740993 = .fin 9007199254740992 ∧
    fl 9007199254740995 = .fin 9007199254740996 ∧
    fl (2 ^ 1024 - 2 ^ 971) = .fin (2 ^ 1024 - 2 ^ 971) ∧
    fl (2 ^ 1024 - 2 ^ 970) = .inf false ∧
    fl (1 / 2 ^ 1074) = .fin (1 / 2 ^ 1074) ∧
    fl (1 / 2 ^ 1075) = .fin 0 := by
  refine ⟨?_, ?_, ?_, ?_, ?_, ?_, ?_, ?_⟩ <;> decide!

/-! ## Lemmas: characters and the `%d` conversion -/

theorem isdigit_range {c : Char} (h : isdigit c = true) : 48 ≤ c.toNat ∧ c.toNat ≤ 57 := by
  simpa [isdigit] using h

theorem isdigit_digitChar (k : Nat) (h : k < 10) : isdigit (digitChar k) = true := by
  interval_cases k <;> decide

theorem digitVal_digitChar (k : Nat) (h : k < 10) : digitVal (digitChar k) = k := by
  interval_cases k <;> decide

theorem isspace_of_isdigit {c : Char} (h : isdigit c = true) : isspace c = false := by
  have := isdigit_range h
  simp only [isspace, Bool.or_eq_false_iff, Bool.and_eq_false_iff, beq_eq_false_iff_ne,
    decide_eq_false_iff_not]
  constructor
  · omega
  · right; omega

theorem ne_of_isdigit {c d : Char} (h : isdigit c = true) (hd : isdigit d = false) : c ≠ d := by
  rintro rfl; simp [h] at hd

theorem optSign_of_isdigit {c : Char} (t : List Char) (h : isdigit c = true) :
    optSign (c :: t) = (false, c :: t) := by
  unfold optSign
  split
  · rename_i heq; cases heq; simp [isdigit] at h
  · rename_i heq; cases heq; simp [isdigit] at h
  · rfl

theorem takeWhile_digits (ds rest : List Char) (hds : ∀ c ∈ ds, isdigit c = true)
    (hr : ∀ c ∈ rest.head?, isdigit c = false) :
    (ds ++ rest).takeWhile isdigit = ds := by
  induction ds with
  | nil =>
    cases rest with
    | nil => rfl
    | cons c t => simp [List.takeWhile, hr c (by simp)]
  | cons d ds ih =>
    rw [List.cons_append, List.takeWhile_cons, hds d (by simp)]
    simp only [if_true]
    rw [ih (fun c hc => hds c (by simp [hc]))]

theorem dropWhile_digits (ds rest : List Char) (hds : ∀ c ∈ ds, isdigit c = true)
    (hr : ∀ c ∈ rest.head?, isdigit c = false) :
    (ds ++ rest).dropWhile isdigit = rest := by
  induction ds with
  | nil =>
    cases rest with
    | nil => rfl
    | cons c t => simp [List.dropWhile, hr c (by simp)]
  | cons d ds ih =>
    rw [List.cons_append, List.dropWhile_cons, hds d (by simp)]
    simp only [if_true]
    rw [ih (fun c hc => hds c (by simp [hc]))]

theorem scanInt_digits (ds rest : List Char) (hne : ds ≠ [])
    (hds : ∀ c ∈ ds, isdigit c = true) (hr : ∀ c ∈ rest.head?, isdigit c = false) :
    scanInt (ds ++ rest) = .ok (wrapInt (digitsVal ds)) rest := by
  cases ds with
  | nil => exact absurd rfl hne
  | cons d ds' =>
    have hd : isdigit d = true := hds d (by simp)
    have hsp : skipws ((d :: ds') ++ rest) = d :: (ds' ++ rest) := by
      simp [skipws, List.dropWhile, isspace_of_isdigit hd]
    unfold scanInt
    rw [hsp]
    simp only [optSign_of_isdigit _ hd]
    have e : d :: (ds' ++ rest) = (d :: ds') ++ rest := rfl
    rw [e, takeWhile_digits _ _ hds hr, dropWhile_digits _ _ hds hr]
    simp

/-! ## Lemmas: decimal text -/

theorem digitsVal_append_singleton (l : List Char) (c : Char) :
    digitsVal (l ++ [c]) = digitsVal l * 10 + digitVal c := by
  simp [digitsVal, List.foldl_append]

theorem decimalAux_spec (fuel : Nat) : ∀ n, n < fuel →
    decimalAux fuel n ≠ [] ∧ (∀ c ∈ decimalAux fuel n, isdigit c = true) ∧
      digitsVal (decimalAux fuel n) = n := by
  induction fuel with
  | zero => intro n h; omega
  | succ f ih =>
    intro n h
    unfold decimalAux
    split
    · rename_i h10
      refine ⟨by simp, ?_, ?_⟩
      · intro c hc
        simp only [List.mem_singleton] at hc
        subst hc
        exact isdigit_digitChar n h10
      · simp [digitsVal, digitVal_digitChar n h10]
    · rename_i h10
      have hlt : n / 10 < f := by omega
      obtain ⟨_, h2, h3⟩ := ih (n / 10) hlt
      have hmod : n % 10 < 10 := Nat.mod_lt _ (by norm_num)
      refine ⟨by simp, ?_, ?_⟩
      · intro c hc
        rcases List.mem_append.1 hc with hc | hc
        · exact h2 c hc
        · simp only [List.mem_singleton] at hc
          subst hc
          exact isdigit_digitChar _ hmod
      · rw [digitsVal_append_singleton, h3, digitVal_digitChar _ hmod]
        omega

theorem decimal_spec (n : Nat) :
    decimal n ≠ [] ∧ (∀ c ∈ decimal n, isdigit c = true) ∧ digitsVal (decimal n) = n :=
  decimalAux_spec (n + 1) n (Nat.lt_succ_self n)

theorem pad2_spec (n : Nat) :
    pad2 n ≠ [] ∧ (∀ c ∈ pad2 n, isdigit c = true) ∧ digitsVal (pad2 n) = n := by
  unfold pad2
  split
  · rename_i h
    have h1 : n / 10 < 10 := by omega
    have h2 : n % 10 < 10 := by omega
    refine ⟨by simp, ?_, ?_⟩
    · intro c hc
      simp only [List.mem_cons, List.mem_singleton, List.not_mem_nil, or_false] at hc
      rcases hc with rfl | rfl
      · exact isdigit_digitChar _ h1
      · exact isdigit_digitChar _ h2
    · simp only [digitsVal, List.foldl, digitVal_digitChar _ h1, digitVal_digitChar _ h2]
      omega
  · exact decimal_spec n

theorem pad4_spec (n : Nat) (h : n < 10000) :
    pad4 n ≠ [] ∧ (∀ c ∈ pad4 n, isdigit c = true) ∧ digitsVal (pad4 n) = n := by
  unfold pad4
  have h1 : n / 1000 % 10 < 10 := by omega
  have h2 : n / 100 % 10 < 10 := by omega
  have h3 : n / 10 % 10 < 10 := by omega
  have h4 : n % 10 < 10 := by omega
  refine ⟨by simp, ?_, ?_⟩
  · intro c hc
    simp only [List.mem_cons, List.mem_singleton, List.not_mem_nil, or_false] at hc
    rcases hc with rfl | rfl | rfl | rfl
    · exact isdigit_digitChar _ h1
    · exact isdigit_digitChar _ h2
    · exact isdigit_digitChar _ h3
    · exact isdigit_digitChar _ h4
  · simp only [digitsVal, List.foldl, digitVal_digitChar _ h1, digitVal_digitChar _ h2,
      digitVal_digitChar _ h3, digitVal_digitChar _ h4]
    omega

/-- The C string of a buffer without NUL is the buffer. -/
theorem cstr_of_nonzero (s : List Char) (h : ∀ c ∈ s, c.toNat ≠ 0) : cstr s = s := by
  unfold cstr
  rw [List.takeWhile_eq_self_iff]
  intro c hc
  simpa using h c hc

theorem toNat_ne_zero_of_isdigit {c : Char} (h : isdigit c = true) : c.toNat ≠ 0 := by
  have := isdigit_range h; omega

theorem isInfinity_of_digit_head (c : Char) (t : List Char) (h : isdigit c = true) :
    isInfinity (c :: t) = false := by
  have h1 : c ≠ 'i' := by rintro rfl; simp [isdigit] at h
  have h2 : c ≠ '-' := by rintro rfl; simp [isdigit] at h
  simp [isInfinity, streq, h1, h2]

theorem scanLit_cons (l : Char) (t : List Char) : scanLit l (l :: t) = .ok () t := by
  simp [scanLit]

/-! ## Lemmas: the date and timestamp scans -/

theorem scanInt_digits_end (ds : List Char) (hne : ds ≠ [])
    (hds : ∀ c ∈ ds, isdigit c = true) : scanInt ds = .ok (wrapInt (digitsVal ds)) [] := by
  have h := scanInt_digits ds [] hne hds (by simp)
  rwa [List.append_nil] at h

/-- The date scan of `ys-ms-ds` for three nonempty digit strings. -/
theorem sscanf_date_digits (ys ms ds : List Char) (hy0 : ys ≠ []) (hm0 : ms ≠ []) (hd0 : ds ≠ [])
    (hy : ∀ c ∈ ys, isdigit c = true) (hm : ∀ c ∈ ms, isdigit c = true)
    (hd : ∀ c ∈ ds, isdigit c = true) :
    sscanf_date (ys ++ '-' :: (ms ++ '-' :: ds)) =
      ⟨3, wrapInt (digitsVal ys), wrapInt (digitsVal ms), wrapInt (digitsVal ds)⟩ := by
  unfold sscanf_date
  rw [scanInt_digits ys _ hy0 hy (by simp [isdigit])]
  simp only [scanLit_cons]
  rw [scanInt_digits ms _ hm0 hm (by simp [isdigit])]
  simp only [scanLit_cons]
  rw [scanInt_digits_end ds hd0 hd]

theorem date_text_cast (y m d : Nat) (len : Int) (curs : cursorObject) (hy : y < 10000)
    (hm : m ≤ 2147483647) (hd : d ≤ 2147483647) :
    typecast_PYDATE_cast (some (dateText y m d)) len curs = .call .pyDateTypeP [y, m, d] none := by
  obtain ⟨y0, y1, y2⟩ := pad4_spec y hy
  obtain ⟨m0, m1, m2⟩ := pad2_spec m
  obtain ⟨d0, d1, d2⟩ := pad2_spec d
  have hnz : ∀ c ∈ dateText y m d, c.toNat ≠ 0 := by
    intro c hc
    simp only [dateText, List.mem_append, List.mem_cons] at hc
    rcases hc with hc | rfl | hc | rfl | hc
    · exact toNat_ne_zero_of_isdigit (y1 c hc)
    · decide
    · exact toNat_ne_zero_of_isdigit (m1 c hc)
    · decide
    · exact toNat_ne_zero_of_isdigit (d1 c hc)
  have hinf : isInfinity (dateText y m d) = false := by
    unfold dateText
    cases hp : pad4 y with
    | nil => exact absurd hp y0
    | cons c t => exact isInfinity_of_digit_head c _ (y1 c (by simp [hp]))
  unfold typecast_PYDATE_cast
  simp only [cstr_of_nonzero _ hnz, hinf]
  unfold dateText
  rw [sscanf_date_digits _ _ _ y0 m0 d0 y1 m1 d1, y2, m2, d2]
  rw [wrapInt_of_range y (by omega) (by omega), wrapInt_of_range m (by omega) (by omega),
    wrapInt_of_range d (by omega) (by omega)]
  simp

theorem daysInMonth_le (y m : Nat) : daysInMonth y m ≤ 31 := by
  unfold daysInMonth
  split_ifs <;> omega

theorem sscanf_stamp_time_spec (v : StampVars) (r : List Char) (hn : v.n = 3)
    (ht : v.tzs = Char.ofNat 0) :
    ((sscanf_stamp_time v r).n = -1 ∨ (sscanf_stamp_time v r).n = 0 ∨
      (sscanf_stamp_time v r).n = 1 ∨ (sscanf_stamp_time v r).n = 2 ∨
      (sscanf_stamp_time v r).n = 3 ∨ (sscanf_stamp_time v r).n = 4 ∨
      (sscanf_stamp_time v r).n = 5 ∨ (sscanf_stamp_time v r).n = 6 ∨
      (sscanf_stamp_time v r).n = 7 ∨ (sscanf_stamp_time v r).n = 8 ∨
      (sscanf_stamp_time v r).n = 9) ∧
    ((sscanf_stamp_time v r).n < 7 → (sscanf_stamp_time v r).tzs = Char.ofNat 0) := by
  unfold sscanf_stamp_time
  repeat' split
  all_goals simp [hn, ht]

theorem sscanf_stamp_spec (s : List Char) :
    ((sscanf_stamp s).n = -1 ∨ (sscanf_stamp s).n = 0 ∨ (sscanf_stamp s).n = 1 ∨
      (sscanf_stamp s).n = 2 ∨ (sscanf_stamp s).n = 3 ∨ (sscanf_stamp s).n = 4 ∨
      (sscanf_stamp s).n = 5 ∨ (sscanf_stamp s).n = 6 ∨ (sscanf_stamp s).n = 7 ∨
      (sscanf_stamp s).n = 8 ∨ (sscanf_stamp s).n = 9) ∧
    ((sscanf_stamp s).n < 7 → (sscanf_stamp s).tzs = Char.ofNat 0) := by
  unfold sscanf_stamp
  repeat' split
  all_goals first
    | (simp [StampVars.init]; done)
    | exact sscanf_stamp_time_spec _ _ rfl rfl

theorem sscanf_date_n_le (s : List Char) : (sscanf_date s).n ≤ 3 := by
  unfold sscanf_date
  repeat' split
  all_goals simp

/-! ## DATE and DATETIME: properties -/

/-- C2: for every year in 1..9999, month in 1..12 and day valid for that month, the date
typecaster applied to the zero-padded text `YYYY-MM-DD` calls the date type with exactly
the three integers year, month, day. -/
theorem date_roundtrip (y m d : Nat) (len : Int) (curs : cursorObject)
    (hy : 1 ≤ y ∧ y ≤ 9999) (hm : 1 ≤ m ∧ m ≤ 12) (hd : 1 ≤ d ∧ d ≤ daysInMonth y m) :
    typecast_PYDATE_cast (some (dateText y m d)) len curs =
      .call .pyDateTypeP [(y : Int), (m : Int), (d : Int)] none := by
  have := daysInMonth_le y m
  exact date_text_cast y m d len curs (by omega) (by omega) (by omega)

theorem date_roundtrip_witness :
    dateText 2024 2 29 = "2024-02-29".toList ∧
      typecast_PYDATE_cast (some (dateText 2024 2 29)) 10 ⟨.pyNone⟩ =
        .call .pyDateTypeP [2024, 2, 29] none :=
  ⟨by decide, date_roundtrip 2024 2 29 10 ⟨.pyNone⟩ (by decide) (by decide) (by decide)⟩

/-- C10: the date typecaster applied to `infinity` returns the attribute `max` of the date
type and applied to `-infinity` its attribute `min`; no parse error is raised, although
the integer scan of either text captures nothing. -/
theorem date_infinity (len : Int) (curs : cursorObject) :
    typecast_PYDATE_cast (some "infinity".toList) len curs = .getAttr .pyDateTypeP "max" ∧
    typecast_PYDATE_cast (some "-infinity".toList) len curs = .getAttr .pyDateTypeP "min" ∧
    (sscanf_date "infinity".toList).n = 0 ∧ (sscanf_date "-infinity".toList).n = 0 := by
  exact ⟨rfl, rfl, by decide, by decide⟩

/-- C9: for an input that is not an infinity sentinel, the date typecaster raises the
parse error `unable to parse date` and calls no constructor whenever the scan extracts
fewer than three integers, in particular when the text is blank or its first non-blank
character is neither a digit nor a sign; whenever three integers are extracted it calls
the date type with them and raises nothing.  The scan never extracts more than three. -/
theorem date_parse_error (buf : List Char) (len : Int) (curs : cursorObject)
    (h : isInfinity (cstr buf) = false) :
    ((sscanf_date (cstr buf)).n < 3 →
      typecast_PYDATE_cast (some buf) len curs = .dataError "unable to parse date") ∧
    ((sscanf_date (cstr buf)).n = 3 →
      typecast_PYDATE_cast (some buf) len curs =
        .call .pyDateTypeP
          [(sscanf_date (cstr buf)).y, (sscanf_date (cstr buf)).m, (sscanf_date (cstr buf)).d]
          none) ∧
    (sscanf_date (cstr buf)).n ≤ 3 ∧
    (skipws (cstr buf) = [] →
      typecast_PYDATE_cast (some buf) len curs = .dataError "unable to parse date") ∧
    (∀ c t, skipws (cstr buf) = c :: t → isdigit c = false → c ≠ '-' → c ≠ '+' →
      typecast_PYDATE_cast (some buf) len curs = .dataError "unable to parse date") := by
  have key : ∀ k : Int, (sscanf_date (cstr buf)).n = k → k ≠ 3 →
      typecast_PYDATE_cast (some buf) len curs = .dataError "unable to parse date" := by
    intro k hk hne
    simp [typecast_PYDATE_cast, h, hk, hne]
  refine ⟨?_, ?_, sscanf_date_n_le _, ?_, ?_⟩
  · intro hlt
    exact key _ rfl (by omega)
  · intro h3
    simp [typecast_PYDATE_cast, h, h3]
  · intro hs
    apply key (-1) _ (by decide)
    simp [sscanf_date, scanInt, hs]
  · intro c t hs hd hm hp
    apply key 0 _ (by decide)
    have ho : optSign (c :: t) = (false, c :: t) := by
      unfold optSign
      split
      · rename_i heq; cases heq; exact absurd rfl hm
      · rename_i heq; cases heq; exact absurd rfl hp
      · rfl
    simp [sscanf_date, scanInt, hs, ho, List.takeWhile, hd]

theorem date_parse_error_witness :
    typecast_PYDATE_cast (some "not-a-date".toList) 10 ⟨.pyNone⟩ =
        .dataError "unable to parse date" ∧
    typecast_PYDATE_cast (some "2001-01".toList) 7 ⟨.pyNone⟩ =
        .dataError "unable to parse date" ∧
    typecast_PYDATE_cast (some []) 0 ⟨.pyNone⟩ = .dataError "unable to parse date" ∧
    typecast_PYDATE_cast (some "2001-02-03".toList) 10 ⟨.pyNone⟩ =
        .call .pyDateTypeP [2001, 2, 3] none :=
  ⟨(date_parse_error "not-a-date".toList 10 ⟨.pyNone⟩ (by decide)).2.2.2.2 'n' "ot-a-date".toList
      (by decide) (by decide) (by decide) (by decide),
    (date_parse_error "2001-01".toList 7 ⟨.pyNone⟩ (by decide)).1 (by decide),
    (date_parse_error [] 0 ⟨.pyNone⟩ (by decide)).2.2.2.1 (by decide),
    (date_parse_error "2001-02-03".toList 10 ⟨.pyNone⟩ (by decide)).2.1 (by decide)⟩

/-- C1 (as the code has it): for an input that is not an infinity sentinel, the timestamp
typecaster calls the datetime type exactly when the scan captured 3, 6, 8 or 9
components, and raises the parse error for every other count (EOF, 0, 1, 2, 4, 5, 7). -/
theorem stamp_accept_iff (buf : List Char) (len : Int) (curs : cursorObject)
    (h : isInfinity (cstr buf) = false) :
    ((∃ args tz, typecast_PYDATETIME_cast (some buf) len curs =
        .call .pyDateTimeTypeP args tz) ↔
      ((sscanf_stamp (cstr buf)).n = 3 ∨ (sscanf_stamp (cstr buf)).n = 6 ∨
        (sscanf_stamp (cstr buf)).n = 8 ∨ (sscanf_stamp (cstr buf)).n = 9)) ∧
    (typecast_PYDATETIME_cast (some buf) len curs = .dataError "unable to parse date" ↔
      ¬ ((sscanf_stamp (cstr buf)).n = 3 ∨ (sscanf_stamp (cstr buf)).n = 6 ∨
        (sscanf_stamp (cstr buf)).n = 8 ∨ (sscanf_stamp (cstr buf)).n = 9)) := by
  have hr := (sscanf_stamp_spec (cstr buf)).1
  by_cases hacc : (sscanf_stamp (cstr buf)).n = 3 ∨ (sscanf_stamp (cstr buf)).n = 6 ∨
      (sscanf_stamp (cstr buf)).n = 8 ∨ (sscanf_stamp (cstr buf)).n = 9
  · have hc : ¬ ((sscanf_stamp (cstr buf)).n ≠ 3 ∧ (sscanf_stamp (cstr buf)).n ≠ 6 ∧
        (sscanf_stamp (cstr buf)).n ≤ 7) := by omega
    simp only [hacc, iff_true, not_true_eq_false, iff_false]
    unfold typecast_PYDATETIME_cast
    simp only [h, Bool.false_eq_true, if_false, hc]
    split_ifs <;> simp
  · have hc : (sscanf_stamp (cstr buf)).n ≠ 3 ∧ (sscanf_stamp (cstr buf)).n ≠ 6 ∧
        (sscanf_stamp (cstr buf)).n ≤ 7 := by omega
    simp only [hacc, iff_false, not_false_eq_true, iff_true]
    unfold typecast_PYDATETIME_cast
    simp [h, hc]

theorem stamp_accept_iff_witness :
    (∃ args tz, typecast_PYDATETIME_cast (some "2001-02-03 04:05:06+07".toList) 22 ⟨.callable⟩ =
      .call .pyDateTimeTypeP args tz) :=
  (stamp_accept_iff "2001-02-03 04:05:06+07".toList 22 ⟨.callable⟩ (by decide)).1.2
    (Or.inr (Or.inr (Or.inl (by decide!))))

/-- C1, counterexample: `2001-01-01 12:00:00+05:30` has nine captured components and is
accepted, `2001-01-01 12:00:00+` has seven and is rejected. -/
theorem stamp_accept_counterexample :
    (sscanf_stamp (cstr "2001-01-01 12:00:00+05:30".toList)).n = 9 ∧
    typecast_PYDATETIME_cast (some "2001-01-01 12:00:00+05:30".toList) 25 ⟨.callable⟩ =
      .call .pyDateTimeTypeP [2001, 1, 1, 12, 0, 0, 0] (some 330) ∧
    (sscanf_stamp (cstr "2001-01-01 12:00:00+".toList)).n = 7 ∧
    typecast_PYDATETIME_cast (some "2001-01-01 12:00:00+".toList) 20 ⟨.callable⟩ =
      .dataError "unable to parse date" := by
  refine ⟨?_, ?_, ?_, ?_⟩ <;> decide!

/-- C6: when the timestamp typecaster accepts an input and calls the datetime type, the
same input decoded with the timezone factory disabled calls it with the same seven
integers and without a timezone object (the factory is not called); and when the scan
captured no sign character (fewer than seven components) the factory is not called
either, whatever the cursor. -/
theorem stamp_factory_disabled (buf : List Char) (len : Int) (curs : cursorObject)
    (callee : PyGlobal) (args : List Int) (tz : Option Int)
    (h : typecast_PYDATETIME_cast (some buf) len curs = .call callee args tz) :
    typecast_PYDATETIME_cast (some buf) len ⟨.pyNone⟩ = .call callee args none ∧
    ((sscanf_stamp (cstr buf)).n < 7 → tz = none) := by
  have ht := (sscanf_stamp_spec (cstr buf)).2
  constructor
  · unfold typecast_PYDATETIME_cast at h ⊢
    simp only at h ⊢
    split_ifs at h ⊢ <;> simp_all
  · intro hn
    have hz : (sscanf_stamp (cstr buf)).tzs.toNat = 0 := by rw [ht hn]; rfl
    unfold typecast_PYDATETIME_cast at h
    simp only [hz] at h
    split_ifs at h <;> simp_all

theorem stamp_factory_disabled_witness :
    typecast_PYDATETIME_cast (some "2001-01-01 12:00:00+05:30".toList) 25 ⟨.pyNone⟩ =
      .call .pyDateTimeTypeP [2001, 1, 1, 12, 0, 0, 0] none :=
  (stamp_factory_disabled "2001-01-01 12:00:00+05:30".toList 25 ⟨.callable⟩
    .pyDateTimeTypeP [2001, 1, 1, 12, 0, 0, 0] (some 330) (by decide!)).1

/-! ## Lemmas: the `%lf` conversion and arithmetic on integral doubles -/

theorem wrapSigned_range (w : Nat) (z : Int) :
    -(2 ^ w) ≤ wrapSigned w z ∧ wrapSigned w z < 2 ^ w := by
  unfold wrapSigned
  have hp : (2 : Int) ^ (w + 1) = 2 * 2 ^ w := by ring
  have hpos : (0 : Int) < 2 ^ w := by positivity
  have h1 := Int.emod_nonneg (z + 2 ^ w) (show (2 : Int) ^ (w + 1) ≠ 0 by positivity)
  have h2 := Int.emod_lt_of_pos (z + 2 ^ w) (show (0 : Int) < 2 ^ (w + 1) by positivity)
  constructor <;> omega

theorem wrapInt_range (z : Int) : INT_MIN ≤ wrapInt z ∧ wrapInt z ≤ INT_MAX := by
  have h := wrapSigned_range 31 z
  unfold wrapInt INT_MIN INT_MAX
  norm_num at h
  omega

theorem scanInt_range (s : List Char) (v : Int) (r : List Char) (h : scanInt s = .ok v r) :
    INT_MIN ≤ v ∧ v ≤ INT_MAX := by
  unfold scanInt at h
  split at h
  · cases h
  · simp only at h
    split at h
    · cases h
    · cases h
      exact wrapInt_range _

theorem sscanf_time_mm_range (s : List Char) :
    INT_MIN ≤ (sscanf_time s).mm ∧ (sscanf_time s).mm ≤ INT_MAX := by
  unfold sscanf_time
  repeat' split
  all_goals first
    | (simp [INT_MIN, INT_MAX]; done)
    | (simp only; apply scanInt_range; assumption)

theorem tolower_of_isdigit {c : Char} (h : isdigit c = true) : tolower c = c := by
  have := isdigit_range h
  unfold tolower
  rw [if_neg (by omega)]

theorem eatNoCase_head_ne (l : Char) (ls : List Char) (c : Char) (t : List Char)
    (h : tolower c ≠ l) : eatNoCase (l :: ls) (c :: t) = none := by
  simp [eatNoCase, h]

theorem eatNoCase_0x_digits (ds rest : List Char) (hne : ds ≠ [])
    (hds : ∀ c ∈ ds, isdigit c = true)
    (hr : ∀ c ∈ rest.head?, tolower c ≠ 'x') : eatNoCase ['0', 'x'] (ds ++ rest) = none := by
  cases ds with
  | nil => exact absurd rfl hne
  | cons d ds' =>
    have hd : isdigit d = true := hds d (by simp)
    by_cases h0 : tolower d = '0'
    · cases ds' with
      | nil =>
        cases rest with
        | nil => simp [eatNoCase, h0]
        | cons c t => simp [eatNoCase, h0, hr c (by simp)]
      | cons d2 t2 =>
        have hd2 : isdigit d2 = true := hds d2 (by simp)
        have : tolower d2 ≠ 'x' := by
          rw [tolower_of_isdigit hd2]
          rintro rfl
          simp [isdigit] at hd2
        simp [eatNoCase, h0, this]
    · exact eatNoCase_head_ne _ _ _ _ h0

theorem scanDouble_digits (ds rest : List Char) (hne : ds ≠ [])
    (hds : ∀ c ∈ ds, isdigit c = true)
    (hr : ∀ c ∈ rest.head?, isdigit c = false ∧ c ≠ '.' ∧ tolower c ≠ 'e' ∧ tolower c ≠ 'x') :
    scanDouble (ds ++ rest) = .ok (fl (digitsVal ds : ℚ)) rest := by
  have hx := eatNoCase_0x_digits ds rest hne hds (fun c hc => (hr c hc).2.2.2)
  have htk := takeWhile_digits ds rest hds (fun c hc => (hr c hc).1)
  have hdr := dropWhile_digits ds rest hds (fun c hc => (hr c hc).1)
  cases ds with
  | nil => exact absurd rfl hne
  | cons d ds' =>
    have hd : isdigit d = true := hds d (by simp)
    have hsp : skipws ((d :: ds') ++ rest) = d :: (ds' ++ rest) := by
      simp [skipws, List.dropWhile, isspace_of_isdigit hd]
    have hi : tolower d ≠ 'i' := by
      rw [tolower_of_isdigit hd]; rintro rfl; simp [isdigit] at hd
    have hn : tolower d ≠ 'n' := by
      rw [tolower_of_isdigit hd]; rintro rfl; simp [isdigit] at hd
    have hexp : scanExponent 'e' rest = some (0, rest) := by
      cases rest with
      | nil => rfl
      | cons c t => simp [scanExponent, (hr c (by simp)).2.2.1]
    unfold scanDouble
    rw [hsp]
    simp only [optSign_of_isdigit _ hd]
    unfold scanDoubleBody
    rw [eatNoCase_head_ne _ _ _ _ hi, eatNoCase_head_ne _ _ _ _ hn]
    have e : d :: (ds' ++ rest) = (d :: ds') ++ rest := rfl
    simp only [e, hx]
    unfold scanDecimal
    have hfr : scanFraction isdigit rest = ([], rest) := by
      unfold scanFraction
      split
      · exact absurd rfl (hr '.' (by simp)).2.1
      · rfl
    simp only [htk, hdr, hfr, hexp]
    simp [withSign]

theorem truncQ_intCast (z : ℤ) : Dbl.truncQ (z : ℚ) = z := by
  unfold Dbl.truncQ
  split
  · simp
  · rw [← Int.cast_neg, Int.floor_intCast]; ring

theorem toInt_intCast (z : ℤ) (h1 : INT_MIN ≤ z) (h2 : z ≤ INT_MAX) :
    Dbl.toInt (.fin (z : ℚ)) = z := by
  simp [Dbl.toInt, truncQ_intCast, h1, h2]

theorem toLong_intCast (z : ℤ) (h1 : LONG_MIN ≤ z) (h2 : z ≤ LONG_MAX) :
    Dbl.toLong (.fin (z : ℚ)) = z := by
  simp [Dbl.toLong, truncQ_intCast, h1, h2]

theorem add_intCast (a b : ℤ) (h : (a + b).natAbs < 2 ^ 53) :
    Dbl.add (.fin (a : ℚ)) (.fin (b : ℚ)) = .fin ((a + b : ℤ) : ℚ) := by
  simp only [Dbl.add]
  rw [← Int.cast_add, fl_intCast _ h]

theorem sub_intCast (a b : ℤ) (h : (a - b).natAbs < 2 ^ 53) :
    Dbl.sub (.fin (a : ℚ)) (.fin (b : ℚ)) = .fin ((a - b : ℤ) : ℚ) := by
  simp only [Dbl.sub, Dbl.neg, Dbl.add]
  rw [← Int.cast_neg, ← Int.cast_add, fl_intCast _ (by rwa [← sub_eq_add_neg])]
  rw [sub_eq_add_neg]

theorem mul_intCast (a b : ℤ) (h : (a * b).natAbs < 2 ^ 53) :
    Dbl.mul (.fin (a : ℚ)) (.fin (b : ℚ)) = .fin ((a * b : ℤ) : ℚ) := by
  simp only [Dbl.mul]
  rw [← Int.cast_mul, fl_intCast _ h]

theorem secOf_fin (q : ℚ) (h1 : INT_MIN ≤ ⌊q⌋) (h2 : ⌊q⌋ ≤ INT_MAX) : secOf (.fin q) = ⌊q⌋ := by
  unfold secOf Dbl.floor
  exact toInt_intCast _ h1 h2

theorem microOf_intCast (z : ℤ) : microOf (.fin (z : ℚ)) = .fin 0 := by
  have h0 : fl 0 = .fin 0 := by simp [fl]
  simp [microOf, Dbl.floor, Dbl.sub, Dbl.neg, Dbl.add, Dbl.mul, h0]

theorem round_zero_toInt : Dbl.toInt (Dbl.round (.fin 0)) = 0 := by decide!

/-! ## TIME: properties -/

/-- C7 (with the limits of the C types): when the time scan captures hour `hh`, minute
`mm` and a finite seconds value `ss` whose floor is in the `int` range (and `mm` is below
`INT_MAX` when the seconds overflow), the time type is called with the hour `hh`
unchanged, with minute `mm + 1` and second `floor(ss) - 60` when `floor(ss) > 59` and
with minute `mm` and second `floor(ss)` otherwise, and with the microsecond
`(int)round((ss - floor(ss)) * 1000000.0)` computed in `double` arithmetic; nothing is
carried into the hour. -/
theorem time_seconds_fold (buf : List Char) (len : Int) (curs : cursorObject)
    (hh mm : Int) (q : ℚ) (hs : sscanf_time (cstr buf) = ⟨3, hh, mm, .fin q⟩)
    (hlo : INT_MIN ≤ ⌊q⌋) (hhi : ⌊q⌋ ≤ INT_MAX) (hmm : ⌊q⌋ > 59 → mm < INT_MAX) :
    typecast_PYTIME_cast (some buf) len curs =
      .call .pyTimeTypeP
        [hh, if ⌊q⌋ > 59 then mm + 1 else mm, if ⌊q⌋ > 59 then ⌊q⌋ - 60 else ⌊q⌋,
          Dbl.toInt (Dbl.round (Dbl.mul (Dbl.sub (.fin q) (.fin (⌊q⌋ : ℤ))) (.fin 1000000)))]
        none := by
  have hr := sscanf_time_mm_range (cstr buf)
  rw [hs] at hr
  simp only at hr
  unfold typecast_PYTIME_cast
  simp only [hs, secOf_fin q hlo hhi, foldMinute, foldSecond, microOf, Dbl.floor]
  simp only [INT_MIN, INT_MAX] at *
  by_cases h59 : ⌊q⌋ > 59
  · have := hmm h59
    simp [h59, wrapInt_of_range (mm + 1) (by omega) (by omega),
      wrapInt_of_range (⌊q⌋ - 60) (by omega) (by omega)]
  · simp [h59]

theorem time_seconds_fold_witness :
    typecast_PYTIME_cast (some "12:00:60.5".toList) 10 ⟨.pyNone⟩ =
      .call .pyTimeTypeP [12, 1, 0, 500000] none ∧
    typecast_PYTIME_cast (some "12:59:60.5".toList) 10 ⟨.pyNone⟩ =
      .call .pyTimeTypeP [12, 60, 0, 500000] none ∧
    typecast_PYTIME_cast (some "23:59:59.25".toList) 11 ⟨.pyNone⟩ =
      .call .pyTimeTypeP [23, 59, 59, 250000] none :=
  ⟨(time_seconds_fold "12:00:60.5".toList 10 ⟨.pyNone⟩ 12 0 (121 / 2) (by decide!) (by decide!)
      (by decide!) (by decide!)).trans (by decide!),
    (time_seconds_fold "12:59:60.5".toList 10 ⟨.pyNone⟩ 12 59 (121 / 2) (by decide!) (by decide!)
      (by decide!) (by decide!)).trans (by decide!),
    (time_seconds_fold "23:59:59.25".toList 11 ⟨.pyNone⟩ 23 59 (237 / 4) (by decide!) (by decide!)
      (by decide!) (by decide!)).trans (by decide!)⟩

/-- C7, counterexample: from `12:00:9999999999` the scan captures the seconds value
9999999999, whose floor is above 59; the time type is called with minute 0 and second
`INT_MIN` (what the out-of-range conversion gives on x86-64), not with minute `0 + 1` and
second `9999999999 - 60`; and from `12:2147483647:60` the minute passed is `INT_MIN`
(the `int` addition wraps), not `2147483647 + 1`. -/
theorem time_seconds_fold_counterexample :
    sscanf_time (cstr "12:00:9999999999".toList) = ⟨3, 12, 0, .fin 9999999999⟩ ∧
    typecast_PYTIME_cast (some "12:00:9999999999".toList) 16 ⟨.pyNone⟩ =
      .call .pyTimeTypeP [12, 0, -2147483648, 0] none ∧
    typecast_PYTIME_cast (some "12:00:9999999999".toList) 16 ⟨.pyNone⟩ ≠
      .call .pyTimeTypeP [12, 0 + 1, 9999999999 - 60, 0] none ∧
    sscanf_time (cstr "12:2147483647:60".toList) = ⟨3, 12, 2147483647, .fin 60⟩ ∧
    typecast_PYTIME_cast (some "12:2147483647:60".toList) 16 ⟨.pyNone⟩ =
      .call .pyTimeTypeP [12, -2147483648, 0, 0] none ∧
    typecast_PYTIME_cast (some "12:2147483647:60".toList) 16 ⟨.pyNone⟩ ≠
      .call .pyTimeTypeP [12, 2147483647 + 1, 60 - 60, 0] none := by
  refine ⟨?_, ?_, ?_, ?_, ?_, ?_⟩ <;> decide!

/-! ## DATETIME: the timezone offset -/

theorem fl_natCast (n : ℕ) (h : n < 2 ^ 53) : fl (n : ℚ) = .fin (n : ℚ) := by
  have := fl_intCast (n : ℤ) (by simpa using h)
  simpa using this

theorem skipws_space_digits (ds rest : List Char) (hne : ds ≠ [])
    (hds : ∀ c ∈ ds, isdigit c = true) : skipws (' ' :: (ds ++ rest)) = ds ++ rest := by
  cases ds with
  | nil => exact absurd rfl hne
  | cons d ds' =>
    have hd : isdigit d = true := hds d (by simp)
    have h1 : isspace ' ' = true := by decide
    simp [skipws, List.dropWhile, isspace_of_isdigit hd, h1]

theorem isInfinity_of_digits (ds rest : List Char) (hne : ds ≠ [])
    (hds : ∀ c ∈ ds, isdigit c = true) : isInfinity (ds ++ rest) = false := by
  cases ds with
  | nil => exact absurd rfl hne
  | cons d ds' => exact isInfinity_of_digit_head d _ (hds d (by simp))

/-- The timestamp scan of `ys-ms-ds hs:mis:ss` followed by a sign character and
`tzhs:tzms`, all of them nonempty digit strings. -/
theorem sscanf_stamp_digits (ys ms ds hs mis ss tzhs tzms : List Char) (sg : Char)
    (hy0 : ys ≠ []) (hm0 : ms ≠ []) (hd0 : ds ≠ []) (hh0 : hs ≠ []) (hmi0 : mis ≠ [])
    (hs0 : ss ≠ []) (hth0 : tzhs ≠ []) (htm0 : tzms ≠ [])
    (hy : ∀ c ∈ ys, isdigit c = true) (hm : ∀ c ∈ ms, isdigit c = true)
    (hd : ∀ c ∈ ds, isdigit c = true) (hh : ∀ c ∈ hs, isdigit c = true)
    (hmi : ∀ c ∈ mis, isdigit c = true) (hs1 : ∀ c ∈ ss, isdigit c = true)
    (hth : ∀ c ∈ tzhs, isdigit c = true) (htm : ∀ c ∈ tzms, isdigit c = true)
    (hsg : sg = '+' ∨ sg = '-') :
    sscanf_stamp (ys ++ '-' :: (ms ++ '-' :: (ds ++ ' ' :: (hs ++ ':' :: (mis ++ ':' ::
      (ss ++ sg :: (tzhs ++ ':' :: tzms))))))) =
      ⟨9, wrapInt (digitsVal ys), wrapInt (digitsVal ms), wrapInt (digitsVal ds),
        wrapInt (digitsVal hs), wrapInt (digitsVal mis), fl (digitsVal ss : ℚ), sg,
        wrapInt (digitsVal tzhs), wrapInt (digitsVal tzms)⟩ := by
  have hsgd : ∀ c ∈ (sg :: (tzhs ++ ':' :: tzms)).head?,
      isdigit c = false ∧ c ≠ '.' ∧ tolower c ≠ 'e' ∧ tolower c ≠ 'x' := by
    intro c hc
    simp only [List.head?_cons, Option.mem_def, Option.some.injEq] at hc
    subst hc
    rcases hsg with rfl | rfl <;> decide
  unfold sscanf_stamp
  rw [scanInt_digits ys _ hy0 hy (by simp [isdigit])]
  simp only [scanLit_cons]
  rw [scanInt_digits ms _ hm0 hm (by simp [isdigit])]
  simp only [scanLit_cons]
  rw [scanInt_digits ds _ hd0 hd (by simp [isdigit])]
  simp only [skipws_space_digits _ _ hh0 hh]
  unfold sscanf_stamp_time
  rw [scanInt_digits hs _ hh0 hh (by simp [isdigit])]
  simp only [scanLit_cons]
  rw [scanInt_digits mis _ hmi0 hmi (by simp [isdigit])]
  simp only [scanLit_cons]
  rw [scanDouble_digits ss _ hs0 hs1 hsgd]
  simp only [scanChar]
  rw [scanInt_digits tzhs _ hth0 hth (by simp [isdigit])]
  simp only [scanLit_cons]
  rw [scanInt_digits_end tzms htm0 htm]

/-- The call the timestamp typecaster makes, with the timezone factory enabled, on
`YYYY-MM-DD hh:mm:ss` followed by a sign, a timezone hour, `:` and a timezone minute whose
offset fits a C `int`. -/
theorem stamp_tz_call (y m d h mi s tzh tzm : Nat) (sg : Char) (len : Int)
    (hy : y ≤ 9999) (hm : m ≤ 99) (hd : d ≤ 99) (hh : h ≤ 99) (hmi : mi ≤ 99) (hs : s ≤ 99)
    (hsg : sg = '+' ∨ sg = '-') (htz : tzh * 60 + tzm ≤ 2147483647) :
    typecast_PYDATETIME_cast (some (stampTzText y m d h mi s sg tzh tzm)) len ⟨.callable⟩ =
      .call .pyDateTimeTypeP
        [(y : Int), (m : Int), (d : Int), (h : Int), if s > 59 then (mi : Int) + 1 else mi,
          if s > 59 then (s : Int) - 60 else s, 0]
        (some (if sg = '-' then -((tzh : Int) * 60 + tzm) else (tzh : Int) * 60 + tzm)) := by
  obtain ⟨y0, y1, y2⟩ := pad4_spec y (by omega)
  obtain ⟨m0, m1, m2⟩ := pad2_spec m
  obtain ⟨d0, d1, d2⟩ := pad2_spec d
  obtain ⟨h0, h1, h2⟩ := pad2_spec h
  obtain ⟨mi0, mi1, mi2⟩ := pad2_spec mi
  obtain ⟨s0, s1, s2⟩ := pad2_spec s
  obtain ⟨th0, th1, th2⟩ := pad2_spec tzh
  obtain ⟨tm0, tm1, tm2⟩ := pad2_spec tzm
  have hsg0 : sg.toNat ≠ 0 := by rcases hsg with rfl | rfl <;> decide
  have hnz : ∀ c ∈ stampTzText y m d h mi s sg tzh tzm, c.toNat ≠ 0 := by
    intro c hc
    simp only [stampTzText, List.mem_append, List.mem_cons] at hc
    rcases hc with hc | rfl | hc | rfl | hc | rfl | hc | rfl | hc | rfl | hc | rfl | hc | rfl | hc
    · exact toNat_ne_zero_of_isdigit (y1 c hc)
    · decide
    · exact toNat_ne_zero_of_isdigit (m1 c hc)
    · decide
    · exact toNat_ne_zero_of_isdigit (d1 c hc)
    · decide
    · exact toNat_ne_zero_of_isdigit (h1 c hc)
    · decide
    · exact toNat_ne_zero_of_isdigit (mi1 c hc)
    · decide
    · exact toNat_ne_zero_of_isdigit (s1 c hc)
    · exact hsg0
    · exact toNat_ne_zero_of_isdigit (th1 c hc)
    · decide
    · exact toNat_ne_zero_of_isdigit (tm1 c hc)
  have hinf : isInfinity (stampTzText y m d h mi s sg tzh tzm) = false :=
    isInfinity_of_digits _ _ y0 y1
  have hscan := sscanf_stamp_digits _ _ _ _ _ _ _ _ sg y0 m0 d0 h0 mi0 s0 th0 tm0
    y1 m1 d1 h1 mi1 s1 th1 tm1 hsg
  rw [y2, m2, d2, h2, mi2, s2, th2, tm2] at hscan
  rw [wrapInt_of_range y (by omega) (by omega), wrapInt_of_range m (by omega) (by omega),
    wrapInt_of_range d (by omega) (by omega), wrapInt_of_range h (by omega) (by omega),
    wrapInt_of_range mi (by omega) (by omega), wrapInt_of_range tzh (by omega) (by omega),
    wrapInt_of_range tzm (by omega) (by omega), fl_natCast s (by omega)] at hscan
  have hsec : secOf (.fin (s : ℚ)) = (s : Int) := by
    have := secOf_fin (s : ℚ) (by simp [INT_MIN]; omega) (by simp [INT_MAX]; omega)
    simpa using this
  have hmic : microOf (.fin (s : ℚ)) = .fin 0 := by
    have := microOf_intCast (s : ℤ)
    simpa using this
  have hoff : utcOffset sg tzh tzm =
      if sg = '-' then -((tzh : Int) * 60 + tzm) else (tzh : Int) * 60 + tzm := by
    unfold utcOffset
    rw [wrapInt_of_range ((tzh : Int) * 60) (by omega) (by omega),
      wrapInt_of_range ((tzm : Int) + (tzh : Int) * 60) (by omega) (by omega)]
    split
    · rw [wrapInt_of_range _ (by omega) (by omega)]; ring
    · ring
  unfold typecast_PYDATETIME_cast
  simp only [cstr_of_nonzero _ hnz, hinf]
  unfold stampTzText
  rw [hscan]
  simp only [hsec, hmic, round_zero_toInt, hoff, foldMinute, foldSecond]
  by_cases h59 : s > 59
  · have h59i : (s : Int) > 59 := by omega
    simp [h59, h59i, hsg0, wrapInt_of_range ((mi : Int) + 1) (by omega) (by omega),
      wrapInt_of_range ((s : Int) - 60) (by omega) (by omega)]
  · have h59i : ¬ (s : Int) > 59 := by omega
    simp [h59, h59i, hsg0]

/-- C5 (with the limits of the C `int` and of the constructor): for every text
`YYYY-MM-DD hh:mm:ss` followed by a sign character `+` or `-`, a timezone hour `tzh`, `:`
and a timezone minute `tzm` with `tzh * 60 + tzm` at most `INT_MAX`, the timestamp
typecaster with the timezone factory enabled calls the datetime type with the fields of
the text (seconds above 59 folded into the minute) and with the object the factory
returns for `tzh * 60 + tzm` when the sign is `+` and for `-(tzh * 60 + tzm)` when it is
`-`; the call yields a value exactly when year, month and day are a date, the hour is at
most 23 and the minute after the fold is at most 59. -/
theorem stamp_tz_offset (y m d h mi s tzh tzm : Nat) (sg : Char) (len : Int)
    (hy : y ≤ 9999) (hm : m ≤ 99) (hd : d ≤ 99) (hh : h ≤ 99) (hmi : mi ≤ 99) (hs : s ≤ 99)
    (hsg : sg = '+' ∨ sg = '-') (htz : tzh * 60 + tzm ≤ 2147483647) :
    typecast_PYDATETIME_cast (some (stampTzText y m d h mi s sg tzh tzm)) len ⟨.callable⟩ =
      .call .pyDateTimeTypeP
        [(y : Int), (m : Int), (d : Int), (h : Int), if s > 59 then (mi : Int) + 1 else mi,
          if s > 59 then (s : Int) - 60 else s, 0]
        (some (if sg = '-' then -((tzh : Int) * 60 + tzm) else (tzh : Int) * 60 + tzm)) ∧
    (constructs
        (typecast_PYDATETIME_cast (some (stampTzText y m d h mi s sg tzh tzm)) len ⟨.callable⟩) =
          true ↔
      dateAccepts (y : Int) (m : Int) (d : Int) = true ∧ h ≤ 23 ∧
        (if s > 59 then mi + 1 else mi) ≤ 59) := by
  have hc := stamp_tz_call y m d h mi s tzh tzm sg len hy hm hd hh hmi hs hsg htz
  refine ⟨hc, ?_⟩
  rw [hc]
  simp only [constructs, timeAccepts, Bool.and_eq_true, decide_eq_true_eq]
  by_cases h59 : s > 59
  · simp only [h59, if_true]
    constructor
    · rintro ⟨h1, h2⟩; exact ⟨h1, by omega, by omega⟩
    · rintro ⟨h1, h2, h3⟩; exact ⟨h1, by omega⟩
  · simp only [h59, if_false]
    constructor
    · rintro ⟨h1, h2⟩; exact ⟨h1, by omega, by omega⟩
    · rintro ⟨h1, h2, h3⟩; exact ⟨h1, by omega⟩

theorem stamp_tz_offset_witness :
    stampTzText 2001 1 1 12 0 0 '+' 5 30 = "2001-01-01 12:00:00+05:30".toList ∧
    typecast_PYDATETIME_cast (some "2001-01-01 12:00:00+05:30".toList) 25 ⟨.callable⟩ =
      .call .pyDateTimeTypeP [2001, 1, 1, 12, 0, 0, 0] (some 330) ∧
    constructs (typecast_PYDATETIME_cast (some (stampTzText 2001 1 1 12 0 0 '+' 5 30)) 25
      ⟨.callable⟩) = true ∧
    typecast_PYDATETIME_cast (some (stampTzText 1999 12 31 23 58 60 '-' 8 0)) 25 ⟨.callable⟩ =
      .call .pyDateTimeTypeP [1999, 12, 31, 23, 59, 0, 0] (some (-480)) ∧
    constructs (typecast_PYDATETIME_cast (some (stampTzText 1999 12 31 23 58 60 '-' 8 0)) 25
      ⟨.callable⟩) = true :=
  ⟨by decide,
    (stamp_tz_offset 2001 1 1 12 0 0 5 30 '+' 25 (by decide) (by decide) (by decide) (by decide)
      (by decide) (by decide) (by decide) (by decide)).1.trans (by decide),
    (stamp_tz_offset 2001 1 1 12 0 0 5 30 '+' 25 (by decide) (by decide) (by decide) (by decide)
      (by decide) (by decide) (by decide) (by decide)).2.2 (by decide),
    (stamp_tz_offset 1999 12 31 23 58 60 8 0 '-' 25 (by decide) (by decide) (by decide)
      (by decide) (by decide) (by decide) (by decide) (by decide)).1.trans (by decide),
    (stamp_tz_offset 1999 12 31 23 58 60 8 0 '-' 25 (by decide) (by decide) (by decide)
      (by decide) (by decide) (by decide) (by decide) (by decide)).2.2 (by decide)⟩

/-- C5, counterexample: with timezone hour 40000000 the sum `tzh * 60 + tzm` is
2400000000, which no C `int` holds; the factory is called with -1894967296, not with
`40000000*60 + 0`.  And the typecaster does not always succeed: on
`1999-12-31 23:59:60-08:00` the fold gives minute 60 and on `2001-13-01 12:00:00+05:30`
the month is 13; the factory is called and the call of the datetime type yields no
value. -/
theorem stamp_tz_offset_counterexample :
    stampTzText 2001 1 1 12 0 0 '+' 40000000 0 = "2001-01-01 12:00:00+40000000:00".toList ∧
    typecast_PYDATETIME_cast (some "2001-01-01 12:00:00+40000000:00".toList) 31 ⟨.callable⟩ =
      .call .pyDateTimeTypeP [2001, 1, 1, 12, 0, 0, 0] (some (-1894967296)) ∧
    typecast_PYDATETIME_cast (some "2001-01-01 12:00:00+40000000:00".toList) 31 ⟨.callable⟩ ≠
      .call .pyDateTimeTypeP [2001, 1, 1, 12, 0, 0, 0] (some (40000000 * 60 + 0)) ∧
    typecast_PYDATETIME_cast (some "1999-12-31 23:59:60-08:00".toList) 25 ⟨.callable⟩ =
      .call .pyDateTimeTypeP [1999, 12, 31, 23, 60, 0, 0] (some (-480)) ∧
    constructs (typecast_PYDATETIME_cast (some "1999-12-31 23:59:60-08:00".toList) 25
      ⟨.callable⟩) = false ∧
    typecast_PYDATETIME_cast (some "2001-13-01 12:00:00+05:30".toList) 25 ⟨.callable⟩ =
      .call .pyDateTimeTypeP [2001, 13, 1, 12, 0, 0, 0] (some 330) ∧
    constructs (typecast_PYDATETIME_cast (some "2001-13-01 12:00:00+05:30".toList) 25
      ⟨.callable⟩) = false := by
  refine ⟨?_, ?_, ?_, ?_, ?_, ?_, ?_⟩ <;> decide!

/-! ## Lemmas: the interval scan -/

theorem scanLoop_digit (c : Char) (rest : List Char) (st : IntervalVars) (h : isdigit c = true) :
    scanLoop (c :: rest) st = scanLoop rest (st.digitStep c) := by
  have h1 : c ≠ '-' := by rintro rfl; simp [isdigit] at h
  rw [scanLoop]
  simp [h1, h]

theorem scanLoop_digits (ds rest : List Char) (hds : ∀ c ∈ ds, isdigit c = true) :
    ∀ st, scanLoop (ds ++ rest) st = scanLoop rest (ds.foldl IntervalVars.digitStep st) := by
  induction ds with
  | nil => intro st; rfl
  | cons d ds ih =>
    intro st
    rw [List.cons_append, scanLoop_digit d _ st (hds d (by simp)),
      ih (fun c hc => hds c (by simp [hc]))]
    rfl

/-- The value read from a digit string after the value `a`. -/
theorem digits_foldl_ge (ds : List Char) :
    ∀ a : Nat, a ≤ ds.foldl (fun a c => a * 10 + digitVal c) a := by
  induction ds with
  | nil => intro a; exact le_refl a
  | cons d ds ih =>
    intro a
    have := ih (a * 10 + digitVal d)
    simp only [List.foldl]
    omega

theorem pushDigit_natCast (a : Nat) (c : Char) (hc : isdigit c = true)
    (hb : a * 10 + digitVal c + 48 < 2 ^ 53) :
    pushDigit (.fin (a : ℚ)) c = .fin ((a * 10 + digitVal c : ℕ) : ℚ) := by
  have hr := isdigit_range hc
  have hdv : digitVal c + 48 = c.toNat := by unfold digitVal; omega
  have e1 : Dbl.mul (.fin (a : ℚ)) (.fin 10) = .fin (((a * 10 : ℕ) : ℤ) : ℚ) := by
    have := mul_intCast (a : ℤ) 10 (by omega)
    simpa using this
  have e2 : Dbl.add (.fin (((a * 10 : ℕ) : ℤ) : ℚ)) (.fin (c.toNat : ℚ)) =
      .fin (((a * 10 + c.toNat : ℕ) : ℤ) : ℚ) := by
    have := add_intCast ((a * 10 : ℕ) : ℤ) (c.toNat : ℤ) (by omega)
    simpa using this
  have e3 : Dbl.sub (.fin (((a * 10 + c.toNat : ℕ) : ℤ) : ℚ)) (.fin 48) =
      .fin ((a * 10 + digitVal c : ℕ) : ℚ) := by
    have := sub_intCast ((a * 10 + c.toNat : ℕ) : ℤ) 48 (by omega)
    rw [show ((48 : ℤ) : ℚ) = 48 by norm_num] at this
    rw [this]
    congr 1
    have : ((a * 10 + c.toNat : ℕ) : ℤ) - 48 = ((a * 10 + digitVal c : ℕ) : ℤ) := by omega
    rw [this]
    simp
  unfold pushDigit
  rw [e1, e2, e3]

theorem pushDigits_natCast (ds : List Char) (hds : ∀ c ∈ ds, isdigit c = true) :
    ∀ a : Nat, ds.foldl (fun a c => a * 10 + digitVal c) a + 48 < 2 ^ 53 →
      ds.foldl pushDigit (.fin (a : ℚ)) =
        .fin ((ds.foldl (fun a c => a * 10 + digitVal c) a : ℕ) : ℚ) := by
  induction ds with
  | nil => intro a _; rfl
  | cons d ds ih =>
    intro a hb
    simp only [List.foldl] at hb ⊢
    have hge := digits_foldl_ge ds (a * 10 + digitVal d)
    rw [pushDigit_natCast a d (hds d (by simp)) (by omega)]
    exact ih (fun c hc => hds c (by simp [hc])) _ hb

/-- Outside the fraction of a second a digit string only changes `v`. -/
theorem foldl_digitStep (ds : List Char) :
    ∀ st : IntervalVars, st.part ≠ 6 →
      ds.foldl IntervalVars.digitStep st = { st with v := ds.foldl pushDigit st.v } := by
  induction ds with
  | nil => intro st _; rfl
  | cons d ds ih =>
    intro st hp
    simp only [List.foldl]
    rw [ih (st.digitStep d) (by simpa [IntervalVars.digitStep] using hp)]
    simp [IntervalVars.digitStep, hp]

/-- The interval scan over a digit string read from `v = 0` outside the fraction of a
second: `v` becomes the number written. -/
theorem scanLoop_number (ds rest : List Char) (hds : ∀ c ∈ ds, isdigit c = true)
    (st : IntervalVars) (hv : st.v = .fin 0) (hp : st.part ≠ 6)
    (hb : digitsVal ds + 48 < 2 ^ 53) :
    scanLoop (ds ++ rest) st = scanLoop rest { st with v := .fin (digitsVal ds : ℚ) } := by
  rw [scanLoop_digits ds rest hds, foldl_digitStep ds st hp, hv]
  have := pushDigits_natCast ds hds 0 (by simpa [digitsVal] using hb)
  rw [show ((0 : ℕ) : ℚ) = 0 by norm_num] at this
  rw [this]
  rfl

theorem toLong_mul_one (n : ℕ) (h : n < 2 ^ 53) :
    Dbl.toLong (Dbl.mul (.fin (n : ℚ)) (.fin 1)) = (n : Int) := by
  have h1 := mul_intCast (n : ℤ) 1 (by omega)
  have h2 := toLong_intCast (n : ℤ) (by simp [LONG_MIN]; omega) (by simp [LONG_MAX]; omega)
  simp only [Int.cast_natCast, Int.cast_one, mul_one] at h1 h2
  rw [h1, h2]

theorem toLong_mul_neg_one (n : ℕ) (h : n < 2 ^ 53) :
    Dbl.toLong (Dbl.mul (.fin (n : ℚ)) (.fin (-1))) = -(n : Int) := by
  have h1 := mul_intCast (n : ℤ) (-1) (by omega)
  have h2 := toLong_intCast (-(n : ℤ)) (by simp [LONG_MIN]; omega) (by simp [LONG_MAX]; omega)
  simp only [Int.cast_natCast, Int.cast_neg, Int.cast_one, mul_neg, mul_one] at h1 h2
  rw [h1, h2]

theorem scanLoop_year (rest : List Char) (st : IntervalVars) (h : st.part = 0) :
    scanLoop (' ' :: 'y' :: 'e' :: 'a' :: 'r' :: ' ' :: rest) st =
      scanLoop rest ({ st with years := Dbl.toLong (Dbl.mul st.v st.sign) }.nextPart 1) := by
  simp [scanLoop, skipLoop, isdigit, h]

theorem scanLoop_mons (rest : List Char) (st : IntervalVars) (h : st.part ≤ 1) :
    scanLoop (' ' :: 'm' :: 'o' :: 'n' :: 's' :: ' ' :: rest) st =
      scanLoop rest ({ st with months := Dbl.toLong (Dbl.mul st.v st.sign) }.nextPart 2) := by
  simp [scanLoop, skipLoop, isdigit, h]

theorem scanLoop_days (rest : List Char) (st : IntervalVars) (h : st.part ≤ 2) :
    scanLoop (' ' :: 'd' :: 'a' :: 'y' :: 's' :: ' ' :: rest) st =
      scanLoop rest ({ st with days := Dbl.toLong (Dbl.mul st.v st.sign) }.nextPart 3) := by
  simp [scanLoop, skipLoop, isdigit, h]

theorem scanLoop_colon_hours (rest : List Char) (st : IntervalVars) (h : st.part ≤ 3) :
    scanLoop (':' :: rest) st = scanLoop rest { st with hours := st.v, v := .fin 0, part := 4 } := by
  simp [scanLoop, isdigit, h]

theorem scanLoop_colon_minutes (rest : List Char) (st : IntervalVars) (h : st.part = 4) :
    scanLoop (':' :: rest) st =
      scanLoop rest { st with minutes := st.v, v := .fin 0, part := 5 } := by
  simp [scanLoop, isdigit, h]

theorem scanLoop_minus (rest : List Char) (st : IntervalVars) :
    scanLoop ('-' :: rest) st = scanLoop rest { st with sign := .fin (-1) } := by
  simp [scanLoop]

/-- The interval scan of `hs:mis:ss` for three digit strings, started outside the clock
clause with `v = 0`. -/
theorem scanLoop_clock (dh dmi dsec : List Char) (st : IntervalVars)
    (hh : ∀ c ∈ dh, isdigit c = true) (hmi : ∀ c ∈ dmi, isdigit c = true)
    (hs : ∀ c ∈ dsec, isdigit c = true) (hv : st.v = .fin 0) (hp : st.part ≤ 3)
    (bh : digitsVal dh + 48 < 2 ^ 53) (bmi : digitsVal dmi + 48 < 2 ^ 53)
    (bs : digitsVal dsec + 48 < 2 ^ 53) :
    scanLoop (dh ++ ':' :: (dmi ++ ':' :: dsec)) st =
      some { st with hours := .fin (digitsVal dh : ℚ), minutes := .fin (digitsVal dmi : ℚ),
                     v := .fin (digitsVal dsec : ℚ), part := 5 } := by
  rw [scanLoop_number dh _ hh st hv (by omega) bh]
  rw [scanLoop_colon_hours _ _ (by simpa using hp)]
  rw [scanLoop_number dmi _ hmi _ rfl (by simp) bmi]
  rw [scanLoop_colon_minutes _ _ rfl]
  have e : dsec = dsec ++ [] := by simp
  rw [e, scanLoop_number dsec [] hs _ rfl (by simp) (by simpa using bs)]
  simp [scanLoop]


theorem clock_total_pos (h mi s : ℕ) (hb : h * 3600 + mi * 60 + s < 2 ^ 53) :
    Dbl.add (.fin (s : ℚ)) (Dbl.add (Dbl.add (.fin 0) (Dbl.mul (.fin (mi : ℚ)) (.fin 60)))
      (Dbl.mul (.fin (h : ℚ)) (.fin 3600))) = .fin ((h * 3600 + mi * 60 + s : ℕ) : ℚ) := by
  have e1 := mul_intCast (mi : ℤ) 60 (by omega)
  have e2 := mul_intCast (h : ℤ) 3600 (by omega)
  have e3 := add_intCast 0 ((mi : ℤ) * 60) (by omega)
  have e4 := add_intCast (0 + (mi : ℤ) * 60) ((h : ℤ) * 3600) (by omega)
  have e5 := add_intCast (s : ℤ) (0 + (mi : ℤ) * 60 + (h : ℤ) * 3600) (by omega)
  simp only [Int.cast_natCast, Int.cast_ofNat, Int.cast_zero] at e1 e2 e3 e4 e5
  rw [e1, e3, e2, e4, e5]
  congr 1
  push_cast
  ring

theorem clock_total_neg (h mi s : ℕ) (hb : h * 3600 + mi * 60 + s < 2 ^ 53) :
    Dbl.neg (Dbl.add (Dbl.add (Dbl.add (.fin 0) (.fin (s : ℚ))) (Dbl.mul (.fin (mi : ℚ)) (.fin 60)))
      (Dbl.mul (.fin (h : ℚ)) (.fin 3600))) = .fin ((-((h * 3600 + mi * 60 + s : ℕ) : ℤ) : ℤ) : ℚ) := by
  have e1 := mul_intCast (mi : ℤ) 60 (by omega)
  have e2 := mul_intCast (h : ℤ) 3600 (by omega)
  have e3 := add_intCast 0 (s : ℤ) (by omega)
  have e4 := add_intCast (0 + (s : ℤ)) ((mi : ℤ) * 60) (by omega)
  have e5 := add_intCast (0 + (s : ℤ) + (mi : ℤ) * 60) ((h : ℤ) * 3600) (by omega)
  simp only [Int.cast_natCast, Int.cast_ofNat, Int.cast_zero] at e1 e2 e3 e4 e5
  rw [e1, e3, e4, e2, e5]
  simp only [Dbl.neg]
  congr 1
  push_cast
  ring

theorem secOf_intCast (z : ℤ) (h1 : INT_MIN ≤ z) (h2 : z ≤ INT_MAX) :
    secOf (.fin (z : ℚ)) = z := by
  have := secOf_fin (z : ℚ) (by simpa using h1) (by simpa using h2)
  simpa using this

/-- The interval typecaster on `Y year M mons D days h:mi:s` written with any digit
strings. -/
theorem interval_digits_cast (dY dM dD dh dmi dsec : List Char) (len : Int)
    (curs : cursorObject)
    (hY : ∀ c ∈ dY, isdigit c = true) (hM : ∀ c ∈ dM, isdigit c = true)
    (hD : ∀ c ∈ dD, isdigit c = true) (hh : ∀ c ∈ dh, isdigit c = true)
    (hmi : ∀ c ∈ dmi, isdigit c = true) (hs : ∀ c ∈ dsec, isdigit c = true)
    (bd : digitsVal dY * 365 + digitsVal dM * 30 + digitsVal dD ≤ 2147483647)
    (bs : digitsVal dh * 3600 + digitsVal dmi * 60 + digitsVal dsec ≤ 2147483647) :
    typecast_PYINTERVAL_cast
      (some (dY ++ ' ' :: 'y' :: 'e' :: 'a' :: 'r' :: ' ' ::
        (dM ++ ' ' :: 'm' :: 'o' :: 'n' :: 's' :: ' ' ::
          (dD ++ ' ' :: 'd' :: 'a' :: 'y' :: 's' :: ' ' ::
            (dh ++ ':' :: (dmi ++ ':' :: dsec)))))) len curs =
      .call .pyDeltaTypeP
        [((digitsVal dY * 365 + digitsVal dM * 30 + digitsVal dD : ℕ) : Int),
          ((digitsVal dh * 3600 + digitsVal dmi * 60 + digitsVal dsec : ℕ) : Int), 0] none := by
  have hnz : ∀ c ∈ (dY ++ ' ' :: 'y' :: 'e' :: 'a' :: 'r' :: ' ' ::
        (dM ++ ' ' :: 'm' :: 'o' :: 'n' :: 's' :: ' ' ::
          (dD ++ ' ' :: 'd' :: 'a' :: 'y' :: 's' :: ' ' ::
            (dh ++ ':' :: (dmi ++ ':' :: dsec))))), c.toNat ≠ 0 := by
    intro c hc
    simp only [List.mem_append, List.mem_cons] at hc
    rcases hc with hc | rfl | rfl | rfl | rfl | rfl | rfl | hc | rfl | rfl | rfl | rfl | rfl |
      rfl | hc | rfl | rfl | rfl | rfl | rfl | rfl | hc | rfl | hc | rfl | hc
    all_goals first
      | decide
      | exact toNat_ne_zero_of_isdigit (hY c hc)
      | exact toNat_ne_zero_of_isdigit (hM c hc)
      | exact toNat_ne_zero_of_isdigit (hD c hc)
      | exact toNat_ne_zero_of_isdigit (hh c hc)
      | exact toNat_ne_zero_of_isdigit (hmi c hc)
      | exact toNat_ne_zero_of_isdigit (hs c hc)
  have hscan : scanLoop (dY ++ ' ' :: 'y' :: 'e' :: 'a' :: 'r' :: ' ' ::
        (dM ++ ' ' :: 'm' :: 'o' :: 'n' :: 's' :: ' ' ::
          (dD ++ ' ' :: 'd' :: 'a' :: 'y' :: 's' :: ' ' ::
            (dh ++ ':' :: (dmi ++ ':' :: dsec))))) IntervalVars.init =
      some ⟨digitsVal dY, digitsVal dM, digitsVal dD, 1, .fin (digitsVal dh : ℚ),
        .fin (digitsVal dmi : ℚ), .fin 0, .fin 0, .fin (digitsVal dsec : ℚ), .fin 1, 5⟩ := by
    rw [scanLoop_number dY _ hY _ rfl (by simp [IntervalVars.init]) (by omega)]
    simp only [IntervalVars.init]
    rw [scanLoop_year _ _ rfl]
    simp only [IntervalVars.nextPart, toLong_mul_one (digitsVal dY) (by omega)]
    rw [scanLoop_number dM _ hM _ rfl (by simp) (by omega)]
    rw [scanLoop_mons _ _ (by simp)]
    simp only [IntervalVars.nextPart, toLong_mul_one (digitsVal dM) (by omega)]
    rw [scanLoop_number dD _ hD _ rfl (by simp) (by omega)]
    rw [scanLoop_days _ _ (by simp)]
    simp only [IntervalVars.nextPart, toLong_mul_one (digitsVal dD) (by omega)]
    rw [scanLoop_clock dh dmi dsec _ hh hmi hs rfl (by simp) (by omega) (by omega) (by omega)]
  unfold typecast_PYINTERVAL_cast
  simp only [cstr_of_nonzero _ hnz, hscan]
  have hlast : lastValue ⟨digitsVal dY, digitsVal dM, digitsVal dD, 1, .fin (digitsVal dh : ℚ),
        .fin (digitsVal dmi : ℚ), .fin 0, .fin 0, .fin (digitsVal dsec : ℚ), .fin 1, 5⟩ =
      ⟨digitsVal dY, digitsVal dM, digitsVal dD, 1, .fin (digitsVal dh : ℚ),
        .fin (digitsVal dmi : ℚ), .fin (digitsVal dsec : ℚ), .fin 0, .fin (digitsVal dsec : ℚ),
        .fin 1, 5⟩ := by
    simp [lastValue]
  have hlt : Dbl.ltZero (.fin 1) = false := by decide!
  have htot := clock_total_pos (digitsVal dh) (digitsVal dmi) (digitsVal dsec) (by omega)
  rw [hlast]
  simp only [totalSeconds, hlt, htot, totalDays, Bool.false_eq_true, if_false]
  have hsec := secOf_intCast ((digitsVal dh * 3600 + digitsVal dmi * 60 + digitsVal dsec : ℕ) : ℤ)
    (by simp [INT_MIN]; omega) (by simp [INT_MAX]; omega)
  have hmic := microOf_intCast ((digitsVal dh * 3600 + digitsVal dmi * 60 + digitsVal dsec : ℕ) : ℤ)
  simp only [Int.cast_natCast] at hsec hmic
  rw [hsec, hmic, round_zero_toInt]
  rw [wrapLong_of_range ((digitsVal dY : ℤ) * 365) (by omega) (by omega),
    wrapLong_of_range ((digitsVal dM : ℤ) * 30) (by omega) (by omega),
    wrapLong_of_range ((digitsVal dY : ℤ) * 365 + (digitsVal dM : ℤ) * 30) (by omega) (by omega),
    wrapLong_of_range _ (by omega) (by omega), wrapInt_of_range _ (by omega) (by omega)]
  congr 2
  push_cast
  ring

/-! ## INTERVAL: properties -/

theorem intervalText_eq (Y M D h mi s : Nat) :
    intervalText Y M D h mi s =
      decimal Y ++ ' ' :: 'y' :: 'e' :: 'a' :: 'r' :: ' ' ::
        (decimal M ++ ' ' :: 'm' :: 'o' :: 'n' :: 's' :: ' ' ::
          (decimal D ++ ' ' :: 'd' :: 'a' :: 'y' :: 's' :: ' ' ::
            (pad2 h ++ ':' :: (pad2 mi ++ ':' :: pad2 s)))) := by
  unfold intervalText clockText
  rw [show " year ".toList = [' ', 'y', 'e', 'a', 'r', ' '] from rfl,
    show " mons ".toList = [' ', 'm', 'o', 'n', 's', ' '] from rfl,
    show " days ".toList = [' ', 'd', 'a', 'y', 's', ' '] from rfl]
  simp only [List.append_assoc, List.cons_append, List.nil_append]

/-- The call the interval typecaster makes on `Y year M mons D days hh:mi:ss` when days and
seconds fit a C `int`. -/
theorem interval_text_call (Y M D h mi s : Nat) (len : Int) (curs : cursorObject)
    (hd : Y * 365 + M * 30 + D ≤ 2147483647) (hs : h * 3600 + mi * 60 + s ≤ 2147483647) :
    typecast_PYINTERVAL_cast (some (intervalText Y M D h mi s)) len curs =
      .call .pyDeltaTypeP
        [(Y : Int) * 365 + (M : Int) * 30 + (D : Int),
          (h : Int) * 3600 + (mi : Int) * 60 + (s : Int), 0] none := by
  obtain ⟨_, y1, y2⟩ := decimal_spec Y
  obtain ⟨_, m1, m2⟩ := decimal_spec M
  obtain ⟨_, d1, d2⟩ := decimal_spec D
  obtain ⟨_, h1, h2⟩ := pad2_spec h
  obtain ⟨_, mi1, mi2⟩ := pad2_spec mi
  obtain ⟨_, s1, s2⟩ := pad2_spec s
  rw [intervalText_eq]
  rw [interval_digits_cast _ _ _ _ _ _ len curs y1 m1 d1 h1 mi1 s1
    (by rw [y2, m2, d2]; exact hd) (by rw [h2, mi2, s2]; exact hs)]
  rw [y2, m2, d2, h2, mi2, s2]
  push_cast
  rfl

/-- C3 (with the limits of the C types and of the constructor): for all natural numbers
`Y, M, D, h, mi, s` with `Y*365 + M*30 + D` and `h*3600 + mi*60 + s` at most `INT_MAX`,
the interval typecaster applied to `Y year M mons D days hh:mi:ss` calls the timedelta
type with days `Y*365 + M*30 + D`, seconds `h*3600 + mi*60 + s` and microseconds 0; the
call yields a value exactly when that duration is at most 999999999 days 23:59:59. -/
theorem interval_full_text (Y M D h mi s : Nat) (len : Int) (curs : cursorObject)
    (hd : Y * 365 + M * 30 + D ≤ 2147483647) (hs : h * 3600 + mi * 60 + s ≤ 2147483647) :
    typecast_PYINTERVAL_cast (some (intervalText Y M D h mi s)) len curs =
      .call .pyDeltaTypeP
        [(Y : Int) * 365 + (M : Int) * 30 + (D : Int),
          (h : Int) * 3600 + (mi : Int) * 60 + (s : Int), 0] none ∧
    (constructs (typecast_PYINTERVAL_cast (some (intervalText Y M D h mi s)) len curs) = true ↔
      (Y * 365 + M * 30 + D) * 86400 + (h * 3600 + mi * 60 + s) ≤ 999999999 * 86400 + 86399) := by
  have hc := interval_text_call Y M D h mi s len curs hd hs
  refine ⟨hc, ?_⟩
  rw [hc]
  simp only [constructs, deltaAccepts, decide_eq_true_eq]
  constructor
  · intro h1; omega
  · intro h1; omega

theorem interval_full_text_witness :
    intervalText 1 2 3 4 5 6 = "1 year 2 mons 3 days 04:05:06".toList ∧
    typecast_PYINTERVAL_cast (some "1 year 2 mons 3 days 04:05:06".toList) 29 ⟨.pyNone⟩ =
      .call .pyDeltaTypeP [428, 14706, 0] none ∧
    constructs (typecast_PYINTERVAL_cast (some (intervalText 1 2 3 4 5 6)) 29 ⟨.pyNone⟩) = true :=
  ⟨by decide,
    (interval_full_text 1 2 3 4 5 6 29 ⟨.pyNone⟩ (by decide) (by decide)).1.trans (by decide),
    (interval_full_text 1 2 3 4 5 6 29 ⟨.pyNone⟩ (by decide) (by decide)).2.2 (by decide)⟩

/-- C3, counterexample: ten million years are 3650000000 days, more than a C `int`
holds; the timedelta type is called with days -644967296 (the low 32 bits of the `long`),
not with `10000000*365 + 0*30 + 0`.  Three million years are 1095000000 days, which fit
the `int` but not a timedelta: the call is made and yields no value. -/
theorem interval_full_text_counterexample :
    intervalText 10000000 0 0 0 0 0 = "10000000 year 0 mons 0 days 00:00:00".toList ∧
    typecast_PYINTERVAL_cast (some (intervalText 10000000 0 0 0 0 0)) 36 ⟨.pyNone⟩ =
      .call .pyDeltaTypeP [-644967296, 0, 0] none ∧
    typecast_PYINTERVAL_cast (some (intervalText 10000000 0 0 0 0 0)) 36 ⟨.pyNone⟩ ≠
      .call .pyDeltaTypeP [10000000 * 365 + 0 * 30 + 0, 0 * 3600 + 0 * 60 + 0, 0] none ∧
    intervalText 3000000 0 0 0 0 0 = "3000000 year 0 mons 0 days 00:00:00".toList ∧
    typecast_PYINTERVAL_cast (some (intervalText 3000000 0 0 0 0 0)) 35 ⟨.pyNone⟩ =
      .call .pyDeltaTypeP [1095000000, 0, 0] none ∧
    constructs (typecast_PYINTERVAL_cast (some (intervalText 3000000 0 0 0 0 0)) 35 ⟨.pyNone⟩) =
      false := by
  refine ⟨?_, ?_, ?_, ?_, ?_, ?_⟩ <;> decide!

/-- The interval typecaster on `-h:mi:s` written with any digit strings. -/
theorem interval_neg_digits_cast (dh dmi dsec : List Char) (len : Int) (curs : cursorObject)
    (hh : ∀ c ∈ dh, isdigit c = true) (hmi : ∀ c ∈ dmi, isdigit c = true)
    (hs : ∀ c ∈ dsec, isdigit c = true)
    (bs : digitsVal dh * 3600 + digitsVal dmi * 60 + digitsVal dsec ≤ 2147483648) :
    typecast_PYINTERVAL_cast (some ('-' :: (dh ++ ':' :: (dmi ++ ':' :: dsec)))) len curs =
      .call .pyDeltaTypeP
        [0, -((digitsVal dh * 3600 + digitsVal dmi * 60 + digitsVal dsec : ℕ) : Int), 0]
        none := by
  have hnz : ∀ c ∈ ('-' :: (dh ++ ':' :: (dmi ++ ':' :: dsec))), c.toNat ≠ 0 := by
    intro c hc
    simp only [List.mem_append, List.mem_cons] at hc
    rcases hc with rfl | hc | rfl | hc | rfl | hc
    all_goals first
      | decide
      | exact toNat_ne_zero_of_isdigit (hh c hc)
      | exact toNat_ne_zero_of_isdigit (hmi c hc)
      | exact toNat_ne_zero_of_isdigit (hs c hc)
  have hscan : scanLoop ('-' :: (dh ++ ':' :: (dmi ++ ':' :: dsec))) IntervalVars.init =
      some ⟨0, 0, 0, 1, .fin (digitsVal dh : ℚ), .fin (digitsVal dmi : ℚ), .fin 0, .fin 0,
        .fin (digitsVal dsec : ℚ), .fin (-1), 5⟩ := by
    rw [scanLoop_minus]
    rw [scanLoop_clock dh dmi dsec _ hh hmi hs rfl (by simp [IntervalVars.init]) (by omega)
      (by omega) (by omega)]
    simp only [IntervalVars.init]
  unfold typecast_PYINTERVAL_cast
  simp only [cstr_of_nonzero _ hnz, hscan]
  have hlast : lastValue ⟨0, 0, 0, 1, .fin (digitsVal dh : ℚ), .fin (digitsVal dmi : ℚ), .fin 0,
        .fin 0, .fin (digitsVal dsec : ℚ), .fin (-1), 5⟩ =
      ⟨0, 0, 0, 1, .fin (digitsVal dh : ℚ), .fin (digitsVal dmi : ℚ),
        .fin (digitsVal dsec : ℚ), .fin 0, .fin (digitsVal dsec : ℚ), .fin (-1), 5⟩ := by
    simp [lastValue]
  have hlt : Dbl.ltZero (.fin (-1)) = true := by decide!
  have htot := clock_total_neg (digitsVal dh) (digitsVal dmi) (digitsVal dsec) (by omega)
  rw [hlast]
  simp only [totalSeconds, hlt, htot, totalDays, if_true]
  have hsec := secOf_intCast
    (-((digitsVal dh * 3600 + digitsVal dmi * 60 + digitsVal dsec : ℕ) : ℤ))
    (by simp [INT_MIN]; omega) (by simp [INT_MAX]; omega)
  have hmic := microOf_intCast
    (-((digitsVal dh * 3600 + digitsVal dmi * 60 + digitsVal dsec : ℕ) : ℤ))
  rw [hsec, hmic, round_zero_toInt]
  rfl

/-- C4 (with the limits of the C `int`): for all natural numbers `h, mi, s` with
`h*3600 + mi*60 + s` at most 2147483648, the interval typecaster applied to `-hh:mi:ss`
calls the timedelta type with days 0, seconds `-(h*3600 + mi*60 + s)` and microseconds
0. -/
theorem interval_negative_clock (h mi s : Nat) (len : Int) (curs : cursorObject)
    (hs : h * 3600 + mi * 60 + s ≤ 2147483648) :
    typecast_PYINTERVAL_cast (some (negClockText h mi s)) len curs =
      .call .pyDeltaTypeP [0, -((h : Int) * 3600 + (mi : Int) * 60 + (s : Int)), 0] none := by
  obtain ⟨_, h1, h2⟩ := pad2_spec h
  obtain ⟨_, mi1, mi2⟩ := pad2_spec mi
  obtain ⟨_, s1, s2⟩ := pad2_spec s
  unfold negClockText clockText
  rw [interval_neg_digits_cast _ _ _ len curs h1 mi1 s1 (by rw [h2, mi2, s2]; exact hs)]
  rw [h2, mi2, s2]
  push_cast
  rfl

theorem interval_negative_clock_witness :
    negClockText 4 5 6 = "-04:05:06".toList ∧
    typecast_PYINTERVAL_cast (some "-04:05:06".toList) 9 ⟨.pyNone⟩ =
      .call .pyDeltaTypeP [0, -14706, 0] none :=
  ⟨by decide, (interval_negative_clock 4 5 6 9 ⟨.pyNone⟩ (by decide)).trans (by decide)⟩

/-- C4, counterexample: 600000 hours are 2160000000 seconds, more than a C `int` holds;
the timedelta type is called with seconds `INT_MIN` (what the out-of-range conversion
gives on x86-64), not with `-(600000*3600 + 0*60 + 0)`. -/
theorem interval_negative_clock_counterexample :
    negClockText 600000 0 0 = "-600000:00:00".toList ∧
    typecast_PYINTERVAL_cast (some (negClockText 600000 0 0)) 13 ⟨.pyNone⟩ =
      .call .pyDeltaTypeP [0, -2147483648, 0] none ∧
    typecast_PYINTERVAL_cast (some (negClockText 600000 0 0)) 13 ⟨.pyNone⟩ ≠
      .call .pyDeltaTypeP [0, -(600000 * 3600 + 0 * 60 + 0), 0] none := by
  refine ⟨?_, ?_, ?_⟩ <;> decide!

/-- The helper `skip_until_space` followed by `str++` is what `skipLoop` does before it
continues the loop. -/
theorem skipLoop_eq (s : List Char) (st : IntervalVars) :
    skipLoop s st =
      match skip_until_space s with
      | [] => none
      | _ :: t => scanLoop t st := by
  induction s with
  | nil => rfl
  | cons c rest ih =>
    rw [skipLoop]
    by_cases h : c = ' '
    · subst h
      simp [skip_until_space, List.dropWhile]
    · have hb : (c != ' ') = true := by simp [h]
      have : skip_until_space (c :: rest) = skip_until_space rest := by
        unfold skip_until_space
        rw [List.dropWhile_cons, hb]
        rfl
      rw [if_neg h, ih, this]

/-- C8, failing input: on `3 days` the unit letter `d` is honoured, `skip_until_space`
stops on the terminating NUL and `str++` moves past it: the scan leaves the string
before any timedelta is built.  The same happens on `1 year`. -/
theorem interval_overrun_at_unit_end (len : Int) (curs : cursorObject) :
    typecast_PYINTERVAL_cast (some "3 days".toList) len curs = .overrun ∧
    typecast_PYINTERVAL_cast (some "1 year".toList) len curs = .overrun ∧
    skip_until_space "days".toList = [] := by
  refine ⟨?_, ?_, by decide⟩
  · show typecast_PYINTERVAL_cast (some "3 days".toList) 0 ⟨.pyNone⟩ = .overrun
    decide!
  · show typecast_PYINTERVAL_cast (some "1 year".toList) 0 ⟨.pyNone⟩ = .overrun
    decide!

/-- The scan of a text without `:` and without the letters `y`, `m`, `d`, started before
any unit: only `v` and `sign` change, and `sign` stays what it was or becomes `-1`. -/
theorem scanLoop_no_unit (s : List Char) :
    ∀ st : IntervalVars, st.part = 0 →
      (∀ c ∈ s, c ≠ ':' ∧ c ≠ 'y' ∧ c ≠ 'm' ∧ c ≠ 'd') →
      ∃ v sg, scanLoop s st = some { st with v := v, sign := sg } ∧
        (sg = st.sign ∨ sg = .fin (-1)) := by
  induction s with
  | nil => intro st _ _; exact ⟨st.v, st.sign, rfl, Or.inl rfl⟩
  | cons c rest ih =>
    intro st hp hc
    obtain ⟨h1, h2, h3, h4⟩ := hc c (by simp)
    have hrest : ∀ c ∈ rest, c ≠ ':' ∧ c ≠ 'y' ∧ c ≠ 'm' ∧ c ≠ 'd' :=
      fun c hc' => hc c (by simp [hc'])
    rw [scanLoop]
    by_cases hm : c = '-'
    · obtain ⟨v, sg, e, hsg⟩ := ih { st with sign := .fin (-1) } hp hrest
      refine ⟨v, sg, ?_, ?_⟩
      · simp only [hm, if_true] at e ⊢
        rw [e]
      · rcases hsg with hsg | hsg
        · exact Or.inr hsg
        · exact Or.inr hsg
    · by_cases hd : isdigit c = true
      · obtain ⟨v, sg, e, hsg⟩ := ih (st.digitStep c) (by simpa [IntervalVars.digitStep] using hp)
          hrest
        refine ⟨v, sg, ?_, ?_⟩
        · simp only [hm, if_false, hd, if_true]
          rw [e]
          simp [IntervalVars.digitStep, hp]
        · simpa [IntervalVars.digitStep] using hsg
      · obtain ⟨v, sg, e, hsg⟩ := ih st hp hrest
        refine ⟨v, sg, ?_, hsg⟩
        have hp5 : ¬ st.part = 5 := by omega
        have hd' : isdigit c = false := by simpa using hd
        simp only [hm, if_false, hd', Bool.false_eq_true, h1, h2, h3, h4, hp5, e, ite_self]


/-- The interval typecaster has no parse-error path: on a non-null input it either
calls the timedelta type with exactly three integers, or its scan has left the string. -/
theorem interval_no_parse_error (buf : List Char) (len : Int) (curs : cursorObject) :
    typecast_PYINTERVAL_cast (some buf) len curs = .overrun ∨
    ∃ days sec micro,
      typecast_PYINTERVAL_cast (some buf) len curs =
        .call .pyDeltaTypeP [days, sec, micro] none := by
  unfold typecast_PYINTERVAL_cast
  cases hsc : scanLoop (cstr buf) IntervalVars.init with
  | none => left; simp only [hsc]
  | some st => right; simp only [hsc]; exact ⟨_, _, _, rfl⟩

/-- An interval text without `:` and without the letters `y`, `m`, `d` yields days 0,
seconds 0 and microseconds 0: units that do not occur contribute zero. -/
theorem interval_no_unit_zero (buf : List Char) (len : Int) (curs : cursorObject)
    (h : ∀ c ∈ cstr buf, c ≠ ':' ∧ c ≠ 'y' ∧ c ≠ 'm' ∧ c ≠ 'd') :
    typecast_PYINTERVAL_cast (some buf) len curs = .call .pyDeltaTypeP [0, 0, 0] none := by
  obtain ⟨v, sg, e, hsg⟩ := scanLoop_no_unit (cstr buf) IntervalVars.init rfl h
  unfold typecast_PYINTERVAL_cast
  simp only [e]
  have hl : ∀ sg', lastValue { IntervalVars.init with v := v, sign := sg' } =
      { IntervalVars.init with v := v, sign := sg' } := by
    intro sg'; simp [lastValue, IntervalVars.init]
  rw [hl]
  rcases hsg with rfl | rfl
  · have h1 : totalSeconds { IntervalVars.init with v := v, sign := IntervalVars.init.sign } =
        .fin 0 := by
      simp only [totalSeconds, IntervalVars.init]
      decide!
    have h2 : totalDays { IntervalVars.init with v := v, sign := IntervalVars.init.sign } = 0 := by
      simp only [totalDays, IntervalVars.init]
      decide!
    rw [h1, h2]
    decide!
  · have h1 : totalSeconds { IntervalVars.init with v := v, sign := .fin (-1) } = .fin 0 := by
      simp only [totalSeconds, IntervalVars.init]
      decide!
    have h2 : totalDays { IntervalVars.init with v := v, sign := .fin (-1) } = 0 := by
      simp only [totalDays, IntervalVars.init]
      decide!
    rw [h1, h2]
    decide!

theorem interval_no_unit_zero_witness :
    typecast_PYINTERVAL_cast (some "hello -5 @".toList) 10 ⟨.pyNone⟩ =
      .call .pyDeltaTypeP [0, 0, 0] none ∧
    typecast_PYINTERVAL_cast (some []) 0 ⟨.pyNone⟩ = .call .pyDeltaTypeP [0, 0, 0] none :=
  ⟨interval_no_unit_zero "hello -5 @".toList 10 ⟨.pyNone⟩ (by decide),
    interval_no_unit_zero [] 0 ⟨.pyNone⟩ (by decide)⟩

/-! ## DATETIME and TIME: sentinels, date-only input, NULL input, error messages -/

/-- C11, failing input: on `infinity` and `-infinity` the timestamp typecaster looks the
attributes `max` and `min` up on `pyDateTimeModuleP`, the datetime module, not on the
datetime type `pyDateTimeTypeP`; the date typecaster looks them up on its type. -/
theorem stamp_infinity_on_module (len : Int) (curs : cursorObject) :
    typecast_PYDATETIME_cast (some "infinity".toList) len curs =
      .getAttr .pyDateTimeModuleP "max" ∧
    typecast_PYDATETIME_cast (some "-infinity".toList) len curs =
      .getAttr .pyDateTimeModuleP "min" ∧
    typecast_PYDATETIME_cast (some "infinity".toList) len curs ≠
      .getAttr .pyDateTimeTypeP "max" ∧
    typecast_PYDATETIME_cast (some "-infinity".toList) len curs ≠
      .getAttr .pyDateTimeTypeP "min" ∧
    typecast_PYDATE_cast (some "infinity".toList) len curs = .getAttr .pyDateTypeP "max" := by
  have h1 : typecast_PYDATETIME_cast (some "infinity".toList) len curs =
      .getAttr .pyDateTimeModuleP "max" := rfl
  have h2 : typecast_PYDATETIME_cast (some "-infinity".toList) len curs =
      .getAttr .pyDateTimeModuleP "min" := rfl
  refine ⟨h1, h2, ?_, ?_, rfl⟩
  · rw [h1]; decide
  · rw [h2]; decide

theorem isInfinity_eq (s : List Char) (h : isInfinity s = true) :
    s = "infinity".toList ∨ s = "-infinity".toList := by
  simpa [isInfinity, streq] using h

theorem sscanf_stamp_three (s : List Char) (h : (sscanf_stamp s).n = 3) :
    (sscanf_stamp s).hh = 0 ∧ (sscanf_stamp s).mm = 0 ∧ (sscanf_stamp s).ss = .fin 0 ∧
      (sscanf_stamp s).tzs = Char.ofNat 0 := by
  have key : ∀ (v : StampVars) (r : List Char), v.n = 3 → v.hh = 0 → v.mm = 0 →
      v.ss = .fin 0 → v.tzs = Char.ofNat 0 → (sscanf_stamp_time v r).n = 3 →
      (sscanf_stamp_time v r).hh = 0 ∧ (sscanf_stamp_time v r).mm = 0 ∧
        (sscanf_stamp_time v r).ss = .fin 0 ∧ (sscanf_stamp_time v r).tzs = Char.ofNat 0 := by
    intro v r h1 h2 h3 h4 h5
    unfold sscanf_stamp_time
    repeat' split
    all_goals simp_all
  revert h
  unfold sscanf_stamp
  repeat' split
  all_goals first
    | (simp [StampVars.init]; done)
    | (intro h; exact key _ _ rfl rfl rfl rfl rfl h)

/-- The call the timestamp typecaster makes when its scan captures exactly three
components. -/
theorem stamp_date_only_call (buf : List Char) (len : Int) (curs : cursorObject)
    (h : (sscanf_stamp (cstr buf)).n = 3) :
    typecast_PYDATETIME_cast (some buf) len curs =
      .call .pyDateTimeTypeP
        [(sscanf_stamp (cstr buf)).y, (sscanf_stamp (cstr buf)).m, (sscanf_stamp (cstr buf)).d,
          0, 0, 0, 0] none := by
  have hinf : isInfinity (cstr buf) = false := by
    by_contra hc
    rw [Bool.not_eq_false] at hc
    rcases isInfinity_eq _ hc with e | e
    · rw [e] at h; revert h; decide
    · rw [e] at h; revert h; decide
  obtain ⟨h1, h2, h3, h4⟩ := sscanf_stamp_three _ h
  have hz : (Char.ofNat 0).toNat = 0 := rfl
  have hsec : secOf (.fin 0) = 0 := by decide!
  have hmic : Dbl.toInt (Dbl.round (microOf (.fin 0))) = 0 := by decide!
  unfold typecast_PYDATETIME_cast
  simp [hinf, h, h1, h2, h3, h4, hz, hsec, hmic, foldMinute, foldSecond]

theorem timeAccepts_zero : timeAccepts 0 0 0 0 = true := by decide

/-- C12 (with the limits of the constructor): whenever the timestamp scan captures exactly
three components, the timestamp typecaster raises no parse error and calls the datetime
type with the parsed year, month and day, with hour, minute, second and microsecond 0,
and without a timezone object, whatever the cursor; the call yields a value exactly when
year, month and day are a date. -/
theorem stamp_date_only (buf : List Char) (len : Int) (curs : cursorObject)
    (h : (sscanf_stamp (cstr buf)).n = 3) :
    typecast_PYDATETIME_cast (some buf) len curs =
      .call .pyDateTimeTypeP
        [(sscanf_stamp (cstr buf)).y, (sscanf_stamp (cstr buf)).m, (sscanf_stamp (cstr buf)).d,
          0, 0, 0, 0] none ∧
    (constructs (typecast_PYDATETIME_cast (some buf) len curs) = true ↔
      dateAccepts (sscanf_stamp (cstr buf)).y (sscanf_stamp (cstr buf)).m
        (sscanf_stamp (cstr buf)).d = true) := by
  have hc := stamp_date_only_call buf len curs h
  refine ⟨hc, ?_⟩
  rw [hc]
  simp [constructs, timeAccepts_zero]

theorem stamp_date_only_witness :
    typecast_PYDATETIME_cast (some "2001-02-03".toList) 10 ⟨.callable⟩ =
      .call .pyDateTimeTypeP [2001, 2, 3, 0, 0, 0, 0] none ∧
    constructs (typecast_PYDATETIME_cast (some "2001-02-03".toList) 10 ⟨.callable⟩) = true :=
  ⟨(stamp_date_only "2001-02-03".toList 10 ⟨.callable⟩ (by decide!)).1.trans (by decide!),
    (stamp_date_only "2001-02-03".toList 10 ⟨.callable⟩ (by decide!)).2.2 (by decide!)⟩

/-- C12, counterexample: from `2001-13-45` and from `0-0-0` the scan captures exactly three
components; the datetime type is called with month 13 and day 45, and with year 0, and
the call yields no value. -/
theorem stamp_date_only_counterexample :
    (sscanf_stamp (cstr "2001-13-45".toList)).n = 3 ∧
    typecast_PYDATETIME_cast (some "2001-13-45".toList) 10 ⟨.pyNone⟩ =
      .call .pyDateTimeTypeP [2001, 13, 45, 0, 0, 0, 0] none ∧
    constructs (typecast_PYDATETIME_cast (some "2001-13-45".toList) 10 ⟨.pyNone⟩) = false ∧
    (sscanf_stamp (cstr "0-0-0".toList)).n = 3 ∧
    typecast_PYDATETIME_cast (some "0-0-0".toList) 5 ⟨.pyNone⟩ =
      .call .pyDateTimeTypeP [0, 0, 0, 0, 0, 0, 0] none ∧
    constructs (typecast_PYDATETIME_cast (some "0-0-0".toList) 5 ⟨.pyNone⟩) = false := by
  refine ⟨?_, ?_, ?_, ?_, ?_, ?_⟩ <;> decide!

/-- C13: each of the four typecasters returns `Py_None` for a NULL input: no error, no
parse, no constructor call and no call of the timezone factory. -/
theorem null_input_is_none (len : Int) (curs : cursorObject) :
    typecast_PYDATE_cast none len curs = .pyNone ∧
    typecast_PYDATETIME_cast none len curs = .pyNone ∧
    typecast_PYTIME_cast none len curs = .pyNone ∧
    typecast_PYINTERVAL_cast none len curs = .pyNone :=
  ⟨rfl, rfl, rfl, rfl⟩

/-- C14 (as the code has it): the date typecaster and the timestamp typecaster raise the
same message, `unable to parse date`; the time typecaster raises `unable to parse time`,
which differs from it.  The message tells a time from a date or timestamp, not a
timestamp from a date. -/
theorem parse_error_messages (buf : List Char) (len : Int) (curs : cursorObject)
    (msg : String) :
    (typecast_PYDATE_cast (some buf) len curs = .dataError msg → msg = "unable to parse date") ∧
    (typecast_PYDATETIME_cast (some buf) len curs = .dataError msg →
      msg = "unable to parse date") ∧
    (typecast_PYTIME_cast (some buf) len curs = .dataError msg → msg = "unable to parse time") ∧
    "unable to parse date" ≠ "unable to parse time" := by
  refine ⟨?_, ?_, ?_, by decide⟩
  · intro h
    unfold typecast_PYDATE_cast at h
    simp only at h
    split_ifs at h <;> simp_all
  · intro h
    unfold typecast_PYDATETIME_cast at h
    simp only at h
    split_ifs at h <;> simp_all
  · intro h
    unfold typecast_PYTIME_cast at h
    simp only at h
    split_ifs at h <;> simp_all

theorem parse_error_messages_witness :
    typecast_PYDATETIME_cast (some "12:00:00".toList) 8 ⟨.pyNone⟩ =
      .dataError "unable to parse date" ∧
    typecast_PYTIME_cast (some "2001-01-01".toList) 10 ⟨.pyNone⟩ =
      .dataError "unable to parse time" ∧
    "unable to parse date" = "unable to parse date" ∧
    "unable to parse time" = "unable to parse time" ∧
    "unable to parse date" ≠ "unable to parse time" :=
  ⟨by decide, by decide,
    (parse_error_messages "12:00:00".toList 8 ⟨.pyNone⟩ "unable to parse date").2.1 (by decide),
    (parse_error_messages "2001-01-01".toList 10 ⟨.pyNone⟩ "unable to parse time").2.2.1
      (by decide),
    (parse_error_messages "12:00:00".toList 8 ⟨.pyNone⟩ "").2.2.2⟩

/-- C14, counterexample: the rejected timestamp `2001-01-01 12:00` and the rejected date
`2001-01` are reported with the same message. -/
theorem parse_error_messages_counterexample :
    typecast_PYDATETIME_cast (some "2001-01-01 12:00".toList) 16 ⟨.pyNone⟩ =
      .dataError "unable to parse date" ∧
    typecast_PYDATE_cast (some "2001-01".toList) 7 ⟨.pyNone⟩ =
      .dataError "unable to parse date" := by
  constructor <;> decide

/-! ## DATETIME against TIME: the same folding of the seconds -/

theorem cstr_append_of_nonzero (a b : List Char) (h : ∀ c ∈ a, c.toNat ≠ 0) :
    cstr (a ++ b) = a ++ cstr b := by
  induction a with
  | nil => rfl
  | cons c t ih =>
    have hc : (c.toNat != 0) = true := by simpa using h c (by simp)
    unfold cstr at ih ⊢
    rw [List.cons_append, List.takeWhile_cons, hc]
    simp only [if_true, List.cons_append]
    rw [ih (fun x hx => h x (by simp [hx]))]

theorem skipws_idem (s : List Char) : skipws (skipws s) = skipws s := by
  induction s with
  | nil => rfl
  | cons c t ih =>
    unfold skipws at ih ⊢
    by_cases hc : isspace c = true
    · rw [List.dropWhile_cons, hc]; simpa using ih
    · have hc' : isspace c = false := by simpa using hc
      rw [List.dropWhile_cons, hc']
      simp only [Bool.false_eq_true, if_false]
      rw [List.dropWhile_cons, hc']
      simp

theorem scanInt_skipws (s : List Char) : scanInt (skipws s) = scanInt s := by
  unfold scanInt
  rw [skipws_idem]

theorem sscanf_stamp_time_skipws (v : StampVars) (s : List Char) :
    sscanf_stamp_time v (skipws s) = sscanf_stamp_time v s := by
  unfold sscanf_stamp_time
  rw [scanInt_skipws]

/-- The time part of the timestamp scan captures the hour, minute and seconds that the
time scan captures from the same text. -/
theorem sscanf_stamp_time_of_time (v : StampVars) (r : List Char)
    (h : (sscanf_time r).n = 3) :
    6 ≤ (sscanf_stamp_time v r).n ∧ (sscanf_stamp_time v r).hh = (sscanf_time r).hh ∧
      (sscanf_stamp_time v r).mm = (sscanf_time r).mm ∧
      (sscanf_stamp_time v r).ss = (sscanf_time r).ss ∧
      (sscanf_stamp_time v r).y = v.y ∧ (sscanf_stamp_time v r).m = v.m ∧
      (sscanf_stamp_time v r).d = v.d := by
  revert h
  unfold sscanf_stamp_time sscanf_time
  repeat' split
  all_goals simp_all


/-- The timestamp scan of a date text followed by a space and any text `t`: the date is
captured and the scan goes on with the time part on `t`. -/
theorem sscanf_stamp_date_then (ys ms ds t : List Char) (hy0 : ys ≠ []) (hm0 : ms ≠ [])
    (hd0 : ds ≠ []) (hy : ∀ c ∈ ys, isdigit c = true) (hm : ∀ c ∈ ms, isdigit c = true)
    (hd : ∀ c ∈ ds, isdigit c = true) :
    sscanf_stamp (ys ++ '-' :: (ms ++ '-' :: (ds ++ ' ' :: t))) =
      sscanf_stamp_time
        { StampVars.init with n := 3, y := wrapInt (digitsVal ys), m := wrapInt (digitsVal ms),
                              d := wrapInt (digitsVal ds) } t := by
  have hsp : skipws (' ' :: t) = skipws t := by
    have h1 : isspace ' ' = true := by decide
    simp [skipws, List.dropWhile, h1]
  unfold sscanf_stamp
  rw [scanInt_digits ys _ hy0 hy (by simp [isdigit])]
  simp only [scanLit_cons]
  rw [scanInt_digits ms _ hm0 hm (by simp [isdigit])]
  simp only [scanLit_cons]
  rw [scanInt_digits ds _ hd0 hd (by simp [isdigit])]
  simp only [hsp, sscanf_stamp_time_skipws]

/-- C18: for every date text `YYYY-MM-DD` and every time text `t`, if the time typecaster
accepts `t` and the timestamp typecaster accepts `YYYY-MM-DD t`, then the datetime type
is called with year, month, day followed by exactly the hour, minute, second and
microsecond the time type is called with for `t`. -/
theorem stamp_time_same_fold (y m d : Nat) (t : List Char) (len len2 : Int)
    (curs curs2 : cursorObject) (targs sargs : List Int) (tz : Option Int)
    (hy : y ≤ 9999) (hm : m ≤ 99) (hd : d ≤ 99)
    (ht : typecast_PYTIME_cast (some t) len curs = .call .pyTimeTypeP targs none)
    (hs : typecast_PYDATETIME_cast (some (dateText y m d ++ ' ' :: t)) len2 curs2 =
      .call .pyDateTimeTypeP sargs tz) :
    sargs = [(y : Int), (m : Int), (d : Int)] ++ targs := by
  obtain ⟨y0, y1, y2⟩ := pad4_spec y (by omega)
  obtain ⟨m0, m1, m2⟩ := pad2_spec m
  obtain ⟨d0, d1, d2⟩ := pad2_spec d
  have hnz : ∀ c ∈ dateText y m d ++ [' '], c.toNat ≠ 0 := by
    intro c hc
    simp only [dateText, List.mem_append, List.mem_cons, List.mem_singleton,
      List.not_mem_nil, or_false] at hc
    rcases hc with (hc | rfl | hc | rfl | hc) | rfl
    · exact toNat_ne_zero_of_isdigit (y1 c hc)
    · decide
    · exact toNat_ne_zero_of_isdigit (m1 c hc)
    · decide
    · exact toNat_ne_zero_of_isdigit (d1 c hc)
    · decide
  have hcs : cstr (dateText y m d ++ ' ' :: t) = dateText y m d ++ ' ' :: cstr t := by
    have := cstr_append_of_nonzero (dateText y m d ++ [' ']) t hnz
    simpa using this
  have hinf : isInfinity (dateText y m d ++ ' ' :: cstr t) = false := by
    unfold dateText
    rw [List.append_assoc]
    exact isInfinity_of_digits _ _ y0 y1
  have hn : (sscanf_time (cstr t)).n = 3 := by
    by_contra hne
    unfold typecast_PYTIME_cast at ht
    simp [hne] at ht
  have hscan : sscanf_stamp (dateText y m d ++ ' ' :: cstr t) =
      sscanf_stamp_time
        { StampVars.init with n := 3, y := (y : Int), m := (m : Int), d := (d : Int) }
        (cstr t) := by
    have := sscanf_stamp_date_then (pad4 y) (pad2 m) (pad2 d) (cstr t) y0 m0 d0 y1 m1 d1
    rw [y2, m2, d2, wrapInt_of_range y (by omega) (by omega),
      wrapInt_of_range m (by omega) (by omega), wrapInt_of_range d (by omega) (by omega)] at this
    rw [← this]
    simp [dateText]
  obtain ⟨_, e2, e3, e4, e5, e6, e7⟩ := sscanf_stamp_time_of_time
    { StampVars.init with n := 3, y := (y : Int), m := (m : Int), d := (d : Int) } (cstr t) hn
  unfold typecast_PYTIME_cast at ht
  simp only [hn, ne_eq, not_true_eq_false, if_false, PyResult.call.injEq, true_and,
    and_true] at ht
  unfold typecast_PYDATETIME_cast at hs
  simp only [hcs, hinf, hscan, e2, e3, e4, e5, e6, e7] at hs
  rw [← ht]
  split_ifs at hs <;> simp_all

theorem stamp_time_same_fold_witness :
    typecast_PYDATETIME_cast (some "2001-02-03 12:59:60.5+01".toList) 24 ⟨.callable⟩ =
      .call .pyDateTimeTypeP ([2001, 2, 3] ++ [12, 60, 0, 500000]) (some 60) ∧
    typecast_PYTIME_cast (some "12:59:60.5+01".toList) 13 ⟨.pyNone⟩ =
      .call .pyTimeTypeP [12, 60, 0, 500000] none ∧
    [(2001 : Int), 2, 3, 12, 60, 0, 500000] = [((2001 : Nat) : Int), ((2 : Nat) : Int),
      ((3 : Nat) : Int)] ++ [12, 60, 0, 500000] :=
  ⟨by decide!, by decide!,
    stamp_time_same_fold 2001 2 3 "12:59:60.5+01".toList 13 24 ⟨.pyNone⟩ ⟨.callable⟩
      [12, 60, 0, 500000] [2001, 2, 3, 12, 60, 0, 500000] (some 60) (by decide) (by decide)
      (by decide) (by decide!) (by decide!)⟩

/-! ## INTERVAL: the position of the scan -/

/-- One iteration of the traced loop against one iteration of the loop: a property that
holds for the two continuations holds for the iteration. -/
theorem scanTrace_step (P : Option IntervalVars × Nat → Option IntervalVars → Prop)
    (c : Char) (rest : List Char) (st : IntervalVars) (pos : Nat)
    (h1 : ∀ st2, P (scanTrace rest st2 (pos + 1)) (scanLoop rest st2))
    (h2 : ∀ st2, P (skipTrace rest st2 (pos + 1)) (skipLoop rest st2)) :
    P (scanTrace (c :: rest) st pos) (scanLoop (c :: rest) st) := by
  rw [scanTrace, scanLoop]
  by_cases c1 : c = '-'
  · rw [if_pos c1, if_pos c1]; exact h1 _
  rw [if_neg c1, if_neg c1]
  by_cases c2 : isdigit c = true
  · rw [if_pos c2, if_pos c2]; exact h1 _
  rw [if_neg c2, if_neg c2]
  by_cases c3 : c = 'y'
  · rw [if_pos c3, if_pos c3]
    by_cases p : st.part = 0
    · rw [if_pos p, if_pos p]; exact h2 _
    · rw [if_neg p, if_neg p]; exact h1 _
  rw [if_neg c3, if_neg c3]
  by_cases c4 : c = 'm'
  · rw [if_pos c4, if_pos c4]
    by_cases p : st.part ≤ 1
    · rw [if_pos p, if_pos p]; exact h2 _
    · rw [if_neg p, if_neg p]; exact h1 _
  rw [if_neg c4, if_neg c4]
  by_cases c5 : c = 'd'
  · rw [if_pos c5, if_pos c5]
    by_cases p : st.part ≤ 2
    · rw [if_pos p, if_pos p]; exact h2 _
    · rw [if_neg p, if_neg p]; exact h1 _
  rw [if_neg c5, if_neg c5]
  by_cases c6 : c = ':'
  · rw [if_pos c6, if_pos c6]
    by_cases p : st.part ≤ 3
    · rw [if_pos p, if_pos p]; exact h1 _
    · rw [if_neg p, if_neg p]
      by_cases p4 : st.part = 4
      · rw [if_pos p4, if_pos p4]; exact h1 _
      · rw [if_neg p4, if_neg p4]; exact h1 _
  rw [if_neg c6, if_neg c6]
  by_cases c7 : c = '.'
  · rw [if_pos c7, if_pos c7]
    by_cases p : st.part = 5
    · rw [if_pos p, if_pos p]; exact h1 _
    · rw [if_neg p, if_neg p]; exact h1 _
  rw [if_neg c7, if_neg c7]
  exact h1 _

theorem skipTrace_step (P : Option IntervalVars × Nat → Option IntervalVars → Prop)
    (c : Char) (rest : List Char) (st : IntervalVars) (pos : Nat)
    (h1 : ∀ st2, P (scanTrace rest st2 (pos + 1)) (scanLoop rest st2))
    (h2 : ∀ st2, P (skipTrace rest st2 (pos + 1)) (skipLoop rest st2)) :
    P (skipTrace (c :: rest) st pos) (skipLoop (c :: rest) st) := by
  rw [skipTrace, skipLoop]
  by_cases c1 : c = ' '
  · rw [if_pos c1, if_pos c1]; exact h1 _
  · rw [if_neg c1, if_neg c1]; exact h2 _

/-- The traced loop computes the variables of the loop, and every character moves the
pointer by exactly one: the scan ends on the terminating NUL, at offset `pos + length`,
when it returns, and one past it, at `pos + length + 1`, when it has left the string. -/
theorem scanTrace_spec (s : List Char) :
    (∀ st pos, scanTrace s st pos =
      (scanLoop s st, if (scanLoop s st).isSome then pos + s.length else pos + s.length + 1)) ∧
    (∀ st pos, skipTrace s st pos =
      (skipLoop s st, if (skipLoop s st).isSome then pos + s.length else pos + s.length + 1)) := by
  induction s with
  | nil =>
    constructor
    · intro st pos; rfl
    · intro st pos; rfl
  | cons c rest ih =>
    obtain ⟨ih1, ih2⟩ := ih
    constructor
    · intro st pos
      apply scanTrace_step (fun r o => r =
        (o, if o.isSome then pos + (c :: rest).length else pos + (c :: rest).length + 1))
      · intro st2
        rw [ih1]
        simp only [List.length_cons]
        split_ifs <;> (congr 1; omega)
      · intro st2
        rw [ih2]
        simp only [List.length_cons]
        split_ifs <;> (congr 1; omega)
    · intro st pos
      apply skipTrace_step (fun r o => r =
        (o, if o.isSome then pos + (c :: rest).length else pos + (c :: rest).length + 1))
      · intro st2
        rw [ih1]
        simp only [List.length_cons]
        split_ifs <;> (congr 1; omega)
      · intro st2
        rw [ih2]
        simp only [List.length_cons]
        split_ifs <;> (congr 1; omega)

/-- C20, failing input: on `3 days` (six characters, the terminating NUL at offset 6) the
pointer `str` ends at offset 7, past the terminator; likewise on `1 year`.  On
`3 days 04:05:06` it ends on the terminator. -/
theorem interval_scan_position :
    "3 days".toList.length = 6 ∧
    scanTrace "3 days".toList IntervalVars.init 0 = (none, 7) ∧
    (scanTrace "1 year".toList IntervalVars.init 0).2 = 7 ∧
    "3 days 04:05:06".toList.length = 15 ∧
    (scanTrace "3 days 04:05:06".toList IntervalVars.init 0).2 = 15 := by
  refine ⟨by decide, ?_, ?_, by decide, ?_⟩ <;> decide!

/-- The interval scan is bounded by the length of its input: the pointer `str` makes at
most `length + 1` steps of one character; it ends on the terminating NUL when the scan
returns, and one character past it exactly when the scan has left the string. -/
theorem interval_scan_bounded (s : List Char) :
    (scanTrace s IntervalVars.init 0).2 ≤ s.length + 1 ∧
    (scanTrace s IntervalVars.init 0).1 = scanLoop s IntervalVars.init ∧
    ((scanLoop s IntervalVars.init).isSome = true →
      (scanTrace s IntervalVars.init 0).2 = s.length) ∧
    (scanLoop s IntervalVars.init = none →
      (scanTrace s IntervalVars.init 0).2 = s.length + 1) := by
  have h := (scanTrace_spec s).1 IntervalVars.init 0
  rw [h]
  refine ⟨?_, rfl, ?_, ?_⟩
  · simp only
    split_ifs <;> omega
  · intro hs; simp [hs]
  · intro hs; simp [hs]

theorem interval_scan_bounded_witness :
    (scanTrace "04:05:06".toList IntervalVars.init 0).2 = 8 ∧
    (scanTrace "3 days".toList IntervalVars.init 0).2 = 6 + 1 :=
  ⟨(interval_scan_bounded "04:05:06".toList).2.2.1 (by decide!),
    (interval_scan_bounded "3 days".toList).2.2.2 (by decide!)⟩

/-! ## INTERVAL: the sign -/

/-- A character that is neither `-` nor a unit letter makes one plain iteration of the
loop, and that iteration neither reads nor writes `sign`. -/
theorem scanLoop_plain_step (c : Char) (h0 : c ≠ '-') (hy : c ≠ 'y') (hm : c ≠ 'm')
    (hd : c ≠ 'd') :
    ∃ f : IntervalVars → IntervalVars,
      (∀ st rest, scanLoop (c :: rest) st = scanLoop rest (f st)) ∧
      (∀ st x, f { st with sign := x } = { f st with sign := x }) := by
  refine ⟨fun st =>
    if isdigit c then st.digitStep c
    else if c = ':' then
      (if st.part ≤ 3 then { st with hours := st.v, v := .fin 0, part := 4 }
       else if st.part = 4 then { st with minutes := st.v, v := .fin 0, part := 5 }
       else st)
    else if c = '.' then
      (if st.part = 5 then { st with seconds := st.v, v := .fin 0, part := 6 } else st)
    else st, ?_, ?_⟩
  · intro st rest
    rw [scanLoop]
    simp only [h0, hy, hm, hd, if_false]
    by_cases c2 : isdigit c = true
    · simp only [c2, if_true]
    · have c2f : isdigit c = false := by simpa using c2
      simp only [c2f, Bool.false_eq_true, if_false]
      by_cases c6 : c = ':'
      · simp only [c6, if_true]
        split_ifs <;> rfl
      · simp only [c6, if_false]
        by_cases c7 : c = '.'
        · simp only [c7, if_true]
          split_ifs <;> rfl
        · simp only [c7, if_false]
  · intro st x
    simp only [IntervalVars.digitStep]
    split_ifs <;> rfl

/-- Without `-` and unit letters the loop carries `sign` through unchanged. -/
theorem scanLoop_sign_frame (t : List Char)
    (ht : ∀ c ∈ t, c ≠ '-' ∧ c ≠ 'y' ∧ c ≠ 'm' ∧ c ≠ 'd') :
    ∀ st x, scanLoop t { st with sign := x } =
      (scanLoop t st).map (fun r => { r with sign := x }) := by
  induction t with
  | nil => intro st x; rfl
  | cons c rest ih =>
    intro st x
    obtain ⟨h0, hy, hm, hd⟩ := ht c (by simp)
    obtain ⟨f, f1, f2⟩ := scanLoop_plain_step c h0 hy hm hd
    rw [f1, f1, f2, ih (fun c hc => ht c (by simp [hc]))]

/-- In a text without unit letters every `-` can be taken out: the loop computes the same
variables, with `sign = -1` when there was a `-` anywhere in the text. -/
theorem scanLoop_minus_anywhere (s : List Char)
    (hs : ∀ c ∈ s, c ≠ 'y' ∧ c ≠ 'm' ∧ c ≠ 'd') :
    ∀ st, scanLoop s st =
      (scanLoop (s.filter (fun c => c != '-')) st).map
        (fun r => { r with sign := if '-' ∈ s then .fin (-1) else r.sign }) := by
  induction s with
  | nil => intro st; rfl
  | cons c rest ih =>
    intro st
    obtain ⟨hy, hm, hd⟩ := hs c (by simp)
    have hrest : ∀ c ∈ rest, c ≠ 'y' ∧ c ≠ 'm' ∧ c ≠ 'd' := fun c hc => hs c (by simp [hc])
    have hfil : ∀ c ∈ rest.filter (fun c => c != '-'), c ≠ '-' ∧ c ≠ 'y' ∧ c ≠ 'm' ∧ c ≠ 'd' := by
      intro c hc
      rw [List.mem_filter] at hc
      exact ⟨by simpa using hc.2, hrest c hc.1⟩
    by_cases h0 : c = '-'
    · subst h0
      rw [scanLoop_minus, ih hrest, scanLoop_sign_frame _ hfil]
      have hf : ('-' :: rest).filter (fun c => c != '-') = rest.filter (fun c => c != '-') := by
        simp
      rw [hf, Option.map_map]
      congr 1
      funext r
      simp only [Function.comp, List.mem_cons, true_or, if_true]
      split_ifs <;> rfl
    · obtain ⟨f, f1, _⟩ := scanLoop_plain_step c h0 hy hm hd
      have hf : (c :: rest).filter (fun c => c != '-') =
          c :: rest.filter (fun c => c != '-') := by
        simp [h0]
      have hmem : ('-' ∈ c :: rest) ↔ ('-' ∈ rest) := by
        simp [List.mem_cons, Ne.symm h0]
      rw [hf, f1, f1, ih hrest]
      simp only [hmem]

/-- The statements after the loop for whole hours, minutes and seconds and a positive
sign: the seconds passed are `h*3600 + mi*60 + s`, the microseconds 0. -/
theorem interval_finish_pos (yrs mos dys den : Int) (h mi s : ℕ)
    (bs : h * 3600 + mi * 60 + s ≤ 2147483647) (len : Int) (curs : cursorObject)
    (buf : List Char)
    (hscan : scanLoop (cstr buf) IntervalVars.init =
      some ⟨yrs, mos, dys, den, .fin (h : ℚ), .fin (mi : ℚ), .fin 0, .fin 0, .fin (s : ℚ),
        .fin 1, 5⟩) :
    typecast_PYINTERVAL_cast (some buf) len curs =
      .call .pyDeltaTypeP
        [wrapInt (wrapLong (dys + wrapLong (wrapLong (yrs * 365) + wrapLong (mos * 30)))),
          ((h * 3600 + mi * 60 + s : ℕ) : Int), 0] none := by
  unfold typecast_PYINTERVAL_cast
  simp only [hscan]
  have hlast : lastValue ⟨yrs, mos, dys, den, .fin (h : ℚ), .fin (mi : ℚ), .fin 0, .fin 0,
        .fin (s : ℚ), .fin 1, 5⟩ =
      ⟨yrs, mos, dys, den, .fin (h : ℚ), .fin (mi : ℚ), .fin (s : ℚ), .fin 0, .fin (s : ℚ),
        .fin 1, 5⟩ := by
    simp [lastValue]
  have hlt : Dbl.ltZero (.fin 1) = false := by decide!
  have htot := clock_total_pos h mi s (by omega)
  rw [hlast]
  simp only [totalSeconds, hlt, htot, totalDays, Bool.false_eq_true, if_false]
  have hsec := secOf_intCast ((h * 3600 + mi * 60 + s : ℕ) : ℤ)
    (by simp [INT_MIN]; omega) (by simp [INT_MAX]; omega)
  have hmic := microOf_intCast ((h * 3600 + mi * 60 + s : ℕ) : ℤ)
  simp only [Int.cast_natCast] at hsec hmic
  rw [hsec, hmic, round_zero_toInt]

/-- The statements after the loop for whole hours, minutes and seconds and a negative
sign: the seconds passed are `-(h*3600 + mi*60 + s)`, the microseconds 0. -/
theorem interval_finish_neg (yrs mos dys den : Int) (h mi s : ℕ)
    (bs : h * 3600 + mi * 60 + s ≤ 2147483648) (len : Int) (curs : cursorObject)
    (buf : List Char)
    (hscan : scanLoop (cstr buf) IntervalVars.init =
      some ⟨yrs, mos, dys, den, .fin (h : ℚ), .fin (mi : ℚ), .fin 0, .fin 0, .fin (s : ℚ),
        .fin (-1), 5⟩) :
    typecast_PYINTERVAL_cast (some buf) len curs =
      .call .pyDeltaTypeP
        [wrapInt (wrapLong (dys + wrapLong (wrapLong (yrs * 365) + wrapLong (mos * 30)))),
          -((h * 3600 + mi * 60 + s : ℕ) : Int), 0] none := by
  unfold typecast_PYINTERVAL_cast
  simp only [hscan]
  have hlast : lastValue ⟨yrs, mos, dys, den, .fin (h : ℚ), .fin (mi : ℚ), .fin 0, .fin 0,
        .fin (s : ℚ), .fin (-1), 5⟩ =
      ⟨yrs, mos, dys, den, .fin (h : ℚ), .fin (mi : ℚ), .fin (s : ℚ), .fin 0, .fin (s : ℚ),
        .fin (-1), 5⟩ := by
    simp [lastValue]
  have hlt : Dbl.ltZero (.fin (-1)) = true := by decide!
  have htot := clock_total_neg h mi s (by omega)
  rw [hlast]
  simp only [totalSeconds, hlt, htot, totalDays, if_true]
  have hsec := secOf_intCast (-((h * 3600 + mi * 60 + s : ℕ) : ℤ))
    (by simp [INT_MIN]; omega) (by simp [INT_MAX]; omega)
  have hmic := microOf_intCast (-((h * 3600 + mi * 60 + s : ℕ) : ℤ))
  rw [hsec, hmic, round_zero_toInt]

/-- C16 (as the code has it): the sign of the clock clause is the sign flag at the end of
the scan.  For a text made of a clause `h:mi:s` of digit strings and any number of `-`
anywhere in it (in front, after a `:`, between digits, at the end), with
`h*3600 + mi*60 + s` at most `INT_MAX`, the seconds passed are `-(h*3600 + mi*60 + s)`
when the text contains a `-` and `h*3600 + mi*60 + s` when it contains none. -/
theorem interval_clock_sign (s dh dmi dsec : List Char) (len : Int) (curs : cursorObject)
    (hh : ∀ c ∈ dh, isdigit c = true) (hmi : ∀ c ∈ dmi, isdigit c = true)
    (hs : ∀ c ∈ dsec, isdigit c = true)
    (hfil : s.filter (fun c => c != '-') = dh ++ ':' :: (dmi ++ ':' :: dsec))
    (bs : digitsVal dh * 3600 + digitsVal dmi * 60 + digitsVal dsec ≤ 2147483647) :
    typecast_PYINTERVAL_cast (some s) len curs =
      .call .pyDeltaTypeP
        [0, if '-' ∈ s
            then -((digitsVal dh * 3600 + digitsVal dmi * 60 + digitsVal dsec : ℕ) : Int)
            else ((digitsVal dh * 3600 + digitsVal dmi * 60 + digitsVal dsec : ℕ) : Int), 0]
        none := by
  have hchar : ∀ c ∈ s, c = '-' ∨ isdigit c = true ∨ c = ':' := by
    intro c hc
    by_cases h0 : c = '-'
    · exact Or.inl h0
    · right
      have hm : c ∈ s.filter (fun c => c != '-') := by
        rw [List.mem_filter]; exact ⟨hc, by simpa using h0⟩
      rw [hfil] at hm
      simp only [List.mem_append, List.mem_cons] at hm
      rcases hm with hm | rfl | hm | rfl | hm
      · exact Or.inl (hh c hm)
      · exact Or.inr rfl
      · exact Or.inl (hmi c hm)
      · exact Or.inr rfl
      · exact Or.inl (hs c hm)
  have hnz : ∀ c ∈ s, c.toNat ≠ 0 := by
    intro c hc
    rcases hchar c hc with rfl | hd | rfl
    · decide
    · exact toNat_ne_zero_of_isdigit hd
    · decide
  have hunit : ∀ c ∈ s, c ≠ 'y' ∧ c ≠ 'm' ∧ c ≠ 'd' := by
    intro c hc
    rcases hchar c hc with rfl | hd | rfl
    · decide
    · refine ⟨?_, ?_, ?_⟩ <;> (rintro rfl; simp [isdigit] at hd)
    · decide
  have hscan := scanLoop_minus_anywhere s hunit IntervalVars.init
  rw [hfil, scanLoop_clock dh dmi dsec _ hh hmi hs rfl (by simp [IntervalVars.init])
    (by omega) (by omega) (by omega)] at hscan
  simp only [Option.map_some', IntervalVars.init] at hscan
  by_cases hmin : '-' ∈ s
  · simp only [hmin, if_true] at hscan ⊢
    have := interval_finish_neg 0 0 0 1 (digitsVal dh) (digitsVal dmi) (digitsVal dsec)
      (by omega) len curs s (by rw [cstr_of_nonzero _ hnz]; exact hscan)
    rw [this]
    rfl
  · simp only [hmin, if_false] at hscan ⊢
    have := interval_finish_pos 0 0 0 1 (digitsVal dh) (digitsVal dmi) (digitsVal dsec)
      (by omega) len curs s (by rw [cstr_of_nonzero _ hnz]; exact hscan)
    rw [this]
    rfl

theorem interval_clock_sign_witness :
    typecast_PYINTERVAL_cast (some "04:05:-06".toList) 9 ⟨.pyNone⟩ =
      .call .pyDeltaTypeP [0, -14706, 0] none ∧
    typecast_PYINTERVAL_cast (some "04:05:06-07".toList) 11 ⟨.pyNone⟩ =
      .call .pyDeltaTypeP [0, -15307, 0] none ∧
    typecast_PYINTERVAL_cast (some "04:05:06".toList) 8 ⟨.pyNone⟩ =
      .call .pyDeltaTypeP [0, 14706, 0] none :=
  ⟨(interval_clock_sign "04:05:-06".toList "04".toList "05".toList "06".toList 9 ⟨.pyNone⟩
      (by decide) (by decide) (by decide) (by decide) (by decide)).trans (by decide),
    (interval_clock_sign "04:05:06-07".toList "04".toList "05".toList "0607".toList 11 ⟨.pyNone⟩
      (by decide) (by decide) (by decide) (by decide) (by decide)).trans (by decide),
    (interval_clock_sign "04:05:06".toList "04".toList "05".toList "06".toList 8 ⟨.pyNone⟩
      (by decide) (by decide) (by decide) (by decide) (by decide)).trans (by decide)⟩

/-- C16, counterexample: in `04:05:-06` and in `04:05:06-07` the `-` comes after the
first `:`, and the total is negated all the same. -/
theorem interval_clock_sign_counterexample :
    typecast_PYINTERVAL_cast (some "04:05:-06".toList) 9 ⟨.pyNone⟩ =
      .call .pyDeltaTypeP [0, -14706, 0] none ∧
    typecast_PYINTERVAL_cast (some "04:05:-06".toList) 9 ⟨.pyNone⟩ ≠
      .call .pyDeltaTypeP [0, 4 * 3600 + 5 * 60 + 6, 0] none ∧
    typecast_PYINTERVAL_cast (some "04:05:06-07".toList) 11 ⟨.pyNone⟩ =
      .call .pyDeltaTypeP [0, -15307, 0] none := by
  refine ⟨?_, ?_, ?_⟩ <;> decide!

/-- The interval typecaster on `-Y year M mons D days h:mi:s` written with any digit
strings: only the years are negated. -/
theorem interval_neg_year_digits_cast (dY dM dD dh dmi dsec : List Char) (len : Int)
    (curs : cursorObject)
    (hY : ∀ c ∈ dY, isdigit c = true) (hM : ∀ c ∈ dM, isdigit c = true)
    (hD : ∀ c ∈ dD, isdigit c = true) (hh : ∀ c ∈ dh, isdigit c = true)
    (hmi : ∀ c ∈ dmi, isdigit c = true) (hs : ∀ c ∈ dsec, isdigit c = true)
    (bY : digitsVal dY + 48 < 2 ^ 53) (bM : digitsVal dM + 48 < 2 ^ 53)
    (bD : digitsVal dD + 48 < 2 ^ 53)
    (bd1 : -2147483648 ≤ -(digitsVal dY : Int) * 365 + (digitsVal dM : Int) * 30 + digitsVal dD)
    (bd2 : -(digitsVal dY : Int) * 365 + (digitsVal dM : Int) * 30 + digitsVal dD ≤ 2147483647)
    (bs : digitsVal dh * 3600 + digitsVal dmi * 60 + digitsVal dsec ≤ 2147483647) :
    typecast_PYINTERVAL_cast
      (some ('-' :: (dY ++ ' ' :: 'y' :: 'e' :: 'a' :: 'r' :: ' ' ::
        (dM ++ ' ' :: 'm' :: 'o' :: 'n' :: 's' :: ' ' ::
          (dD ++ ' ' :: 'd' :: 'a' :: 'y' :: 's' :: ' ' ::
            (dh ++ ':' :: (dmi ++ ':' :: dsec))))))) len curs =
      .call .pyDeltaTypeP
        [-(digitsVal dY : Int) * 365 + (digitsVal dM : Int) * 30 + digitsVal dD,
          ((digitsVal dh * 3600 + digitsVal dmi * 60 + digitsVal dsec : ℕ) : Int), 0] none := by
  have hnz : ∀ c ∈ ('-' :: (dY ++ ' ' :: 'y' :: 'e' :: 'a' :: 'r' :: ' ' ::
        (dM ++ ' ' :: 'm' :: 'o' :: 'n' :: 's' :: ' ' ::
          (dD ++ ' ' :: 'd' :: 'a' :: 'y' :: 's' :: ' ' ::
            (dh ++ ':' :: (dmi ++ ':' :: dsec)))))), c.toNat ≠ 0 := by
    intro c hc
    simp only [List.mem_append, List.mem_cons] at hc
    rcases hc with rfl | hc | rfl | rfl | rfl | rfl | rfl | rfl | hc | rfl | rfl | rfl | rfl |
      rfl | rfl | hc | rfl | rfl | rfl | rfl | rfl | rfl | hc | rfl | hc | rfl | hc
    all_goals first
      | decide
      | exact toNat_ne_zero_of_isdigit (hY c hc)
      | exact toNat_ne_zero_of_isdigit (hM c hc)
      | exact toNat_ne_zero_of_isdigit (hD c hc)
      | exact toNat_ne_zero_of_isdigit (hh c hc)
      | exact toNat_ne_zero_of_isdigit (hmi c hc)
      | exact toNat_ne_zero_of_isdigit (hs c hc)
  have hscan : scanLoop ('-' :: (dY ++ ' ' :: 'y' :: 'e' :: 'a' :: 'r' :: ' ' ::
        (dM ++ ' ' :: 'm' :: 'o' :: 'n' :: 's' :: ' ' ::
          (dD ++ ' ' :: 'd' :: 'a' :: 'y' :: 's' :: ' ' ::
            (dh ++ ':' :: (dmi ++ ':' :: dsec)))))) IntervalVars.init =
      some ⟨-(digitsVal dY : Int), digitsVal dM, digitsVal dD, 1, .fin (digitsVal dh : ℚ),
        .fin (digitsVal dmi : ℚ), .fin 0, .fin 0, .fin (digitsVal dsec : ℚ), .fin 1, 5⟩ := by
    rw [scanLoop_minus]
    rw [scanLoop_number dY _ hY _ rfl (by simp [IntervalVars.init]) bY]
    simp only [IntervalVars.init]
    rw [scanLoop_year _ _ rfl]
    simp only [IntervalVars.nextPart, toLong_mul_neg_one (digitsVal dY) (by omega)]
    rw [scanLoop_number dM _ hM _ rfl (by simp) bM]
    rw [scanLoop_mons _ _ (by simp)]
    simp only [IntervalVars.nextPart, toLong_mul_one (digitsVal dM) (by omega)]
    rw [scanLoop_number dD _ hD _ rfl (by simp) bD]
    rw [scanLoop_days _ _ (by simp)]
    simp only [IntervalVars.nextPart, toLong_mul_one (digitsVal dD) (by omega)]
    rw [scanLoop_clock dh dmi dsec _ hh hmi hs rfl (by simp) (by omega) (by omega) (by omega)]
  rw [interval_finish_pos _ _ _ _ _ _ _ bs len curs _
    (by rw [cstr_of_nonzero _ hnz]; exact hscan)]
  have p53 : (2 : ℕ) ^ 53 = 9007199254740992 := by norm_num
  rw [wrapLong_of_range (-(digitsVal dY : ℤ) * 365) (by omega) (by omega),
    wrapLong_of_range ((digitsVal dM : ℤ) * 30) (by omega) (by omega),
    wrapLong_of_range (-(digitsVal dY : ℤ) * 365 + (digitsVal dM : ℤ) * 30) (by omega)
      (by omega),
    wrapLong_of_range _ (by omega) (by omega), wrapInt_of_range _ (by omega) (by omega)]
  congr 2
  ring

/-- The interval typecaster on `-D days h:mi:s` written with any digit strings: the days
are negated, the clock is not. -/
theorem interval_neg_days_digits_cast (dD dh dmi dsec : List Char) (len : Int)
    (curs : cursorObject)
    (hD : ∀ c ∈ dD, isdigit c = true) (hh : ∀ c ∈ dh, isdigit c = true)
    (hmi : ∀ c ∈ dmi, isdigit c = true) (hs : ∀ c ∈ dsec, isdigit c = true)
    (bD : digitsVal dD ≤ 2147483648)
    (bs : digitsVal dh * 3600 + digitsVal dmi * 60 + digitsVal dsec ≤ 2147483647) :
    typecast_PYINTERVAL_cast
      (some ('-' :: (dD ++ ' ' :: 'd' :: 'a' :: 'y' :: 's' :: ' ' ::
            (dh ++ ':' :: (dmi ++ ':' :: dsec))))) len curs =
      .call .pyDeltaTypeP
        [-(digitsVal dD : Int),
          ((digitsVal dh * 3600 + digitsVal dmi * 60 + digitsVal dsec : ℕ) : Int), 0] none := by
  have hnz : ∀ c ∈ ('-' :: (dD ++ ' ' :: 'd' :: 'a' :: 'y' :: 's' :: ' ' ::
            (dh ++ ':' :: (dmi ++ ':' :: dsec)))), c.toNat ≠ 0 := by
    intro c hc
    simp only [List.mem_append, List.mem_cons] at hc
    rcases hc with rfl | hc | rfl | rfl | rfl | rfl | rfl | rfl | hc | rfl | hc | rfl | hc
    all_goals first
      | decide
      | exact toNat_ne_zero_of_isdigit (hD c hc)
      | exact toNat_ne_zero_of_isdigit (hh c hc)
      | exact toNat_ne_zero_of_isdigit (hmi c hc)
      | exact toNat_ne_zero_of_isdigit (hs c hc)
  have hscan : scanLoop ('-' :: (dD ++ ' ' :: 'd' :: 'a' :: 'y' :: 's' :: ' ' ::
            (dh ++ ':' :: (dmi ++ ':' :: dsec)))) IntervalVars.init =
      some ⟨0, 0, -(digitsVal dD : Int), 1, .fin (digitsVal dh : ℚ),
        .fin (digitsVal dmi : ℚ), .fin 0, .fin 0, .fin (digitsVal dsec : ℚ), .fin 1, 5⟩ := by
    rw [scanLoop_minus]
    rw [scanLoop_number dD _ hD _ rfl (by simp [IntervalVars.init]) (by omega)]
    simp only [IntervalVars.init]
    rw [scanLoop_days _ _ (by simp)]
    simp only [IntervalVars.nextPart, toLong_mul_neg_one (digitsVal dD) (by omega)]
    rw [scanLoop_clock dh dmi dsec _ hh hmi hs rfl (by simp) (by omega) (by omega) (by omega)]
  rw [interval_finish_pos _ _ _ _ _ _ _ bs len curs _
    (by rw [cstr_of_nonzero _ hnz]; exact hscan)]
  have e : wrapLong ((0 : ℤ) * 365) = 0 := by decide
  have e2 : wrapLong ((0 : ℤ) * 30) = 0 := by decide
  have e3 : wrapLong ((0 : ℤ) + 0) = 0 := by decide
  rw [e, e2, e3, add_zero, wrapLong_of_range _ (by omega) (by omega),
    wrapInt_of_range _ (by omega) (by omega)]


/-- The calls the interval typecaster makes on `-Y year M mons D days hh:mi:ss` and on
`-D days hh:mi:ss` when days and seconds fit a C `int`: a `-` negates only the unit
committed after it. -/
theorem interval_neg_unit_call (Y M D h mi s : Nat) (len : Int) (curs : cursorObject)
    (hs : h * 3600 + mi * 60 + s ≤ 2147483647) :
    (Y + 48 < 2 ^ 53 → M + 48 < 2 ^ 53 → D + 48 < 2 ^ 53 →
      -2147483648 ≤ -(Y : Int) * 365 + (M : Int) * 30 + (D : Int) →
      -(Y : Int) * 365 + (M : Int) * 30 + (D : Int) ≤ 2147483647 →
      typecast_PYINTERVAL_cast (some (negIntervalText Y M D h mi s)) len curs =
        .call .pyDeltaTypeP
          [-(Y : Int) * 365 + (M : Int) * 30 + (D : Int),
            (h : Int) * 3600 + (mi : Int) * 60 + (s : Int), 0] none) ∧
    (D ≤ 2147483648 →
      typecast_PYINTERVAL_cast (some (negDaysText D h mi s)) len curs =
        .call .pyDeltaTypeP
          [-(D : Int), (h : Int) * 3600 + (mi : Int) * 60 + (s : Int), 0] none) := by
  obtain ⟨_, y1, y2⟩ := decimal_spec Y
  obtain ⟨_, m1, m2⟩ := decimal_spec M
  obtain ⟨_, d1, d2⟩ := decimal_spec D
  obtain ⟨_, h1, h2⟩ := pad2_spec h
  obtain ⟨_, mi1, mi2⟩ := pad2_spec mi
  obtain ⟨_, s1, s2⟩ := pad2_spec s
  constructor
  · intro bY bM bD b1 b2
    unfold negIntervalText
    rw [intervalText_eq]
    rw [interval_neg_year_digits_cast _ _ _ _ _ _ len curs y1 m1 d1 h1 mi1 s1
      (by rw [y2]; exact bY) (by rw [m2]; exact bM) (by rw [d2]; exact bD)
      (by rw [y2, m2, d2]; exact b1) (by rw [y2, m2, d2]; exact b2)
      (by rw [h2, mi2, s2]; exact hs)]
    rw [y2, m2, d2, h2, mi2, s2]
    push_cast
    rfl
  · intro bD
    have e : negDaysText D h mi s =
        '-' :: (decimal D ++ ' ' :: 'd' :: 'a' :: 'y' :: 's' :: ' ' ::
          (pad2 h ++ ':' :: (pad2 mi ++ ':' :: pad2 s))) := by
      unfold negDaysText clockText
      rw [show " days ".toList = [' ', 'd', 'a', 'y', 's', ' '] from rfl]
      simp only [List.append_assoc, List.cons_append, List.nil_append]
    rw [e]
    rw [interval_neg_days_digits_cast _ _ _ _ len curs d1 h1 mi1 s1
      (by rw [d2]; exact bD) (by rw [h2, mi2, s2]; exact hs)]
    rw [d2, h2, mi2, s2]
    push_cast
    rfl

/-- C17 (with the limits of the C types and of the constructor): a `-` negates only the
unit committed after it.  For natural numbers `Y, M, D` below `2^53 - 48` with
`-Y*365 + M*30 + D` in the `int` range and `h*3600 + mi*60 + s` at most `INT_MAX`, the
text `-Y year M mons D days hh:mi:ss` makes the call with days `-Y*365 + M*30 + D` and
seconds `+(h*3600 + mi*60 + s)`; and for `D` at most 2147483648 the text
`-D days hh:mi:ss` makes the call with days `-D` and the same positive seconds.  Either
call yields a value exactly when the duration lies between -999999999 days and
999999999 days 23:59:59. -/
theorem interval_sign_per_unit (Y M D h mi s : Nat) (len : Int) (curs : cursorObject)
    (hs : h * 3600 + mi * 60 + s ≤ 2147483647) :
    (Y + 48 < 2 ^ 53 → M + 48 < 2 ^ 53 → D + 48 < 2 ^ 53 →
      -2147483648 ≤ -(Y : Int) * 365 + (M : Int) * 30 + (D : Int) →
      -(Y : Int) * 365 + (M : Int) * 30 + (D : Int) ≤ 2147483647 →
      typecast_PYINTERVAL_cast (some (negIntervalText Y M D h mi s)) len curs =
        .call .pyDeltaTypeP
          [-(Y : Int) * 365 + (M : Int) * 30 + (D : Int),
            (h : Int) * 3600 + (mi : Int) * 60 + (s : Int), 0] none ∧
      (constructs (typecast_PYINTERVAL_cast (some (negIntervalText Y M D h mi s)) len curs) =
          true ↔
        -(999999999 * 86400) ≤ (-(Y : Int) * 365 + (M : Int) * 30 + (D : Int)) * 86400 +
            ((h : Int) * 3600 + (mi : Int) * 60 + (s : Int)) ∧
          (-(Y : Int) * 365 + (M : Int) * 30 + (D : Int)) * 86400 +
            ((h : Int) * 3600 + (mi : Int) * 60 + (s : Int)) ≤ 999999999 * 86400 + 86399)) ∧
    (D ≤ 2147483648 →
      typecast_PYINTERVAL_cast (some (negDaysText D h mi s)) len curs =
        .call .pyDeltaTypeP
          [-(D : Int), (h : Int) * 3600 + (mi : Int) * 60 + (s : Int), 0] none ∧
      (constructs (typecast_PYINTERVAL_cast (some (negDaysText D h mi s)) len curs) = true ↔
        -(999999999 * 86400) ≤ -(D : Int) * 86400 +
          ((h : Int) * 3600 + (mi : Int) * 60 + (s : Int)))) := by
  have hall := interval_neg_unit_call Y M D h mi s len curs hs
  constructor
  · intro bY bM bD b1 b2
    have hc := hall.1 bY bM bD b1 b2
    refine ⟨hc, ?_⟩
    rw [hc]
    simp only [constructs, deltaAccepts, decide_eq_true_eq]
    constructor
    · intro h1; constructor <;> omega
    · intro h1; constructor <;> omega
  · intro bD
    have hc := hall.2 bD
    refine ⟨hc, ?_⟩
    rw [hc]
    simp only [constructs, deltaAccepts, decide_eq_true_eq]
    constructor
    · intro h1; omega
    · intro h1; constructor <;> omega

theorem interval_sign_per_unit_witness :
    negIntervalText 1 2 3 4 5 6 = "-1 year 2 mons 3 days 04:05:06".toList ∧
    typecast_PYINTERVAL_cast (some "-1 year 2 mons 3 days 04:05:06".toList) 30 ⟨.pyNone⟩ =
      .call .pyDeltaTypeP [-302, 14706, 0] none ∧
    constructs (typecast_PYINTERVAL_cast (some (negIntervalText 1 2 3 4 5 6)) 30 ⟨.pyNone⟩) =
      true ∧
    negDaysText 3 4 5 6 = "-3 days 04:05:06".toList ∧
    typecast_PYINTERVAL_cast (some "-3 days 04:05:06".toList) 16 ⟨.pyNone⟩ =
      .call .pyDeltaTypeP [-3, 14706, 0] none ∧
    constructs (typecast_PYINTERVAL_cast (some (negDaysText 3 4 5 6)) 16 ⟨.pyNone⟩) = true :=
  ⟨by decide,
    ((interval_sign_per_unit 1 2 3 4 5 6 30 ⟨.pyNone⟩ (by decide)).1 (by decide) (by decide)
      (by decide) (by decide) (by decide)).1.trans (by decide),
    ((interval_sign_per_unit 1 2 3 4 5 6 30 ⟨.pyNone⟩ (by decide)).1 (by decide) (by decide)
      (by decide) (by decide) (by decide)).2.2 (by decide),
    by decide,
    ((interval_sign_per_unit 1 2 3 4 5 6 16 ⟨.pyNone⟩ (by decide)).2 (by decide)).1.trans
      (by decide),
    ((interval_sign_per_unit 1 2 3 4 5 6 16 ⟨.pyNone⟩ (by decide)).2 (by decide)).2.2
      (by decide)⟩

/-- C17, counterexample: ten million negated years are -3650000000 days, which no C `int`
holds; the timedelta type is called with days 644967296 (the low 32 bits of the `long`),
not with `-10000000*365 + 0*30 + 0`.  Three million negated years are -1095000000 days,
which fit the `int` but not a timedelta: the call is made and yields no value. -/
theorem interval_sign_per_unit_counterexample :
    negIntervalText 10000000 0 0 0 0 0 = "-10000000 year 0 mons 0 days 00:00:00".toList ∧
    typecast_PYINTERVAL_cast (some (negIntervalText 10000000 0 0 0 0 0)) 37 ⟨.pyNone⟩ =
      .call .pyDeltaTypeP [644967296, 0, 0] none ∧
    typecast_PYINTERVAL_cast (some (negIntervalText 10000000 0 0 0 0 0)) 37 ⟨.pyNone⟩ ≠
      .call .pyDeltaTypeP [-10000000 * 365 + 0 * 30 + 0, 0 * 3600 + 0 * 60 + 0, 0] none ∧
    negIntervalText 3000000 0 0 0 0 0 = "-3000000 year 0 mons 0 days 00:00:00".toList ∧
    typecast_PYINTERVAL_cast (some (negIntervalText 3000000 0 0 0 0 0)) 36 ⟨.pyNone⟩ =
      .call .pyDeltaTypeP [-1095000000, 0, 0] none ∧
    constructs (typecast_PYINTERVAL_cast (some (negIntervalText 3000000 0 0 0 0 0)) 36
      ⟨.pyNone⟩) = false := by
  refine ⟨?_, ?_, ?_, ?_, ?_, ?_⟩ <;> decide!

/-! ## Rounding errors of binary64 and fractions of a second -/

/-- Rounding error of binary64: a rational below `2^(E+1)` in absolute value, in the
normal exponent range, rounds to a finite double at distance at most `2^(E-53)`. -/
theorem fl_error (q : ℚ) (E : ℤ) (hE1 : -1022 ≤ E) (hE2 : E ≤ 1000)
    (hq : |q| < (2 : ℚ) ^ (E + 1)) :
    ∃ r : ℚ, fl q = .fin r ∧ |r - q| ≤ (2 : ℚ) ^ (E - 53) := by
  by_cases h0 : q = 0
  · refine ⟨0, by simp [fl, h0], ?_⟩
    rw [h0]; simp; positivity
  · have hb := (binExp_spec q h0).1
    have hlt : (2 : ℚ) ^ binExp q < (2 : ℚ) ^ (E + 1) := lt_of_le_of_lt hb hq
    have hbe : binExp q < E + 1 := (zpow_lt_zpow_iff_right₀ (by norm_num : (1 : ℚ) < 2)).1 hlt
    have he : max (binExp q) (-1022) ≤ E := by omega
    have he2 : -1022 ≤ max (binExp q) (-1022) := le_max_right _ _
    unfold fl
    rw [if_neg h0]
    simp only
    generalize max (binExp q) (-1022) = e at he he2
    have h2pos : ∀ k : ℤ, (0 : ℚ) < (2 : ℚ) ^ k := fun k => zpow_pos (by norm_num) k
    have hre := roundEven_spec (q * (2 : ℚ) ^ (52 - e))
    have hmul : (2 : ℚ) ^ (52 - e) * (2 : ℚ) ^ (e - 52) = 1 := by
      rw [← zpow_add₀ (by norm_num : (2 : ℚ) ≠ 0)]; simp
    have herr : |(roundEven (q * (2 : ℚ) ^ (52 - e)) : ℚ) * (2 : ℚ) ^ (e - 52) - q| ≤
        (2 : ℚ) ^ (E - 53) := by
      have e1 : (roundEven (q * (2 : ℚ) ^ (52 - e)) : ℚ) * (2 : ℚ) ^ (e - 52) - q =
          ((roundEven (q * (2 : ℚ) ^ (52 - e)) : ℚ) - q * (2 : ℚ) ^ (52 - e)) *
            (2 : ℚ) ^ (e - 52) := by
        rw [sub_mul, mul_assoc, hmul, mul_one]
      rw [e1, abs_mul, abs_of_pos (h2pos (e - 52))]
      calc |(roundEven (q * (2 : ℚ) ^ (52 - e)) : ℚ) - q * (2 : ℚ) ^ (52 - e)| * (2 : ℚ) ^ (e - 52)
          ≤ 1 / 2 * (2 : ℚ) ^ (e - 52) :=
            mul_le_mul_of_nonneg_right hre (le_of_lt (h2pos _))
        _ = (2 : ℚ) ^ (e - 53) := by
            rw [show e - 52 = (e - 53) + 1 by ring, zpow_add₀ (by norm_num : (2 : ℚ) ≠ 0)]
            simp; ring
        _ ≤ (2 : ℚ) ^ (E - 53) :=
            zpow_le_zpow_right₀ (by norm_num) (by omega)
    refine ⟨_, ?_, herr⟩
    rw [if_neg]
    rw [not_le]
    have hr : |(roundEven (q * (2 : ℚ) ^ (52 - e)) : ℚ) * (2 : ℚ) ^ (e - 52)| ≤
        |q| + (2 : ℚ) ^ (E - 53) := by
      have := abs_sub_abs_le_abs_sub
        ((roundEven (q * (2 : ℚ) ^ (52 - e)) : ℚ) * (2 : ℚ) ^ (e - 52)) q
      linarith
    have hbig1 : (2 : ℚ) ^ (E + 1) ≤ (2 : ℚ) ^ (1001 : ℤ) :=
      zpow_le_zpow_right₀ (by norm_num) (by omega)
    have hbig2 : (2 : ℚ) ^ (E - 53) ≤ (2 : ℚ) ^ (1001 : ℤ) :=
      zpow_le_zpow_right₀ (by norm_num) (by omega)
    have hbig3 : (2 : ℚ) ^ (1001 : ℤ) + (2 : ℚ) ^ (1001 : ℤ) ≤ (2 : ℚ) ^ (1024 : ℤ) := by
      rw [← two_mul, show (1024 : ℤ) = 1001 + 23 by norm_num,
        zpow_add₀ (by norm_num : (2 : ℚ) ≠ 0), mul_comm]
      apply mul_le_mul_of_nonneg_left _ (le_of_lt (h2pos _))
      norm_num
    linarith

/-- The last statements of the time and interval typecasters on a `double` that is
within `4e-7` of a decimal `n + m / 10^6` with `1 ≤ m ≤ 999999`: the whole seconds
are `n` and the rounded microseconds are `m`. -/
theorem frac_finish (r : ℚ) (n m : ℤ) (hm1 : 1 ≤ m) (hm2 : m ≤ 999999)
    (hn1 : INT_MIN ≤ n) (hn2 : n ≤ INT_MAX)
    (hr : |r - ((n : ℚ) + (m : ℚ) / 1000000)| ≤ 4 / 10000000) :
    secOf (.fin r) = n ∧ Dbl.toInt (Dbl.round (microOf (.fin r))) = m := by
  have hm1q : (1 : ℚ) ≤ m := by exact_mod_cast hm1
  have hm2q : (m : ℚ) ≤ 999999 := by exact_mod_cast hm2
  obtain ⟨hr1, hr2⟩ := abs_le.1 hr
  have hfl : ⌊r⌋ = n := by
    rw [Int.floor_eq_iff]; constructor <;> linarith
  refine ⟨by rw [secOf_fin r (by rw [hfl]; exact hn1) (by rw [hfl]; exact hn2), hfl], ?_⟩
  unfold microOf
  simp only [Dbl.floor, Dbl.sub, Dbl.neg, Dbl.add, hfl]
  obtain ⟨r2, e2, b2⟩ := fl_error (r + -(n : ℚ)) (-1) (by norm_num) (by norm_num) (by
    rw [abs_lt]; norm_num; constructor <;> linarith)
  rw [e2]
  simp only [Dbl.mul]
  obtain ⟨hb21, hb22⟩ := abs_le.1 b2
  norm_num at hb21 hb22
  obtain ⟨r3, e3, b3⟩ := fl_error (r2 * 1000000) 19 (by norm_num) (by norm_num) (by
    rw [abs_lt]; norm_num; constructor <;> linarith)
  rw [e3]
  obtain ⟨hb31, hb32⟩ := abs_le.1 b3
  norm_num at hb31 hb32
  have h0 : (0 : ℚ) ≤ r3 := by linarith
  simp only [Dbl.round, if_pos h0]
  have hfl3 : ⌊r3 + 1 / 2⌋ = m := by
    rw [Int.floor_eq_iff]; constructor <;> linarith
  rw [hfl3]
  exact toInt_intCast m (by simp only [INT_MIN]; omega) (by simp only [INT_MAX]; omega)

theorem mul_natCast_60 (a : ℕ) (h : a * 60 < 2 ^ 53) :
    Dbl.mul (.fin (a : ℚ)) (.fin 60) = .fin ((a : ℚ) * 60) := by
  have := fl_natCast (a * 60) h
  push_cast at this
  exact this

theorem mul_natCast_3600 (a : ℕ) (h : a * 3600 < 2 ^ 53) :
    Dbl.mul (.fin (a : ℚ)) (.fin 3600) = .fin ((a : ℚ) * 3600) := by
  have := fl_natCast (a * 3600) h
  push_cast at this
  exact this

/-- The sum of the statement `seconds += hundredths + minutes*60 + hours*3600` when
the fraction is within `2^-54` of `m / 10^6`: three rounded additions below `2^31`. -/
theorem frac_total_pos (h mi s : ℕ) (m : ℤ) (rh : ℚ) (hm1 : 1 ≤ m) (hm2 : m ≤ 999999)
    (hrh : |rh - (m : ℚ) / 1000000| ≤ 1 / 2 ^ 54)
    (hb : h * 3600 + mi * 60 + s ≤ 2147483647) :
    ∃ r : ℚ, Dbl.add (.fin (s : ℚ)) (Dbl.add (Dbl.add (.fin rh) (Dbl.mul (.fin (mi : ℚ)) (.fin 60)))
        (Dbl.mul (.fin (h : ℚ)) (.fin 3600))) = .fin r ∧
      |r - ((((h * 3600 + mi * 60 + s : ℕ) : ℤ) : ℚ) + (m : ℚ) / 1000000)| ≤ 4 / 10000000 := by
  have hm1q : (1 : ℚ) ≤ m := by exact_mod_cast hm1
  have hm2q : (m : ℚ) ≤ 999999 := by exact_mod_cast hm2
  have hbq : (h : ℚ) * 3600 + (mi : ℚ) * 60 + (s : ℚ) ≤ 2147483647 := by
    exact_mod_cast hb
  have hh0 : (0 : ℚ) ≤ h := Nat.cast_nonneg h
  have hmi0 : (0 : ℚ) ≤ mi := Nat.cast_nonneg mi
  have hs0 : (0 : ℚ) ≤ s := Nat.cast_nonneg s
  obtain ⟨h1, h2⟩ := abs_le.1 hrh
  norm_num at h1 h2
  rw [mul_natCast_60 mi (by omega), mul_natCast_3600 h (by omega)]
  simp only [Dbl.add]
  obtain ⟨a1, e1, b1⟩ := fl_error (rh + (mi : ℚ) * 60) 30 (by norm_num) (by norm_num) (by
    rw [abs_lt]; norm_num; constructor <;> linarith)
  rw [e1]
  simp only [Dbl.add]
  obtain ⟨b11, b12⟩ := abs_le.1 b1
  norm_num at b11 b12
  obtain ⟨a2, e2, b2⟩ := fl_error (a1 + (h : ℚ) * 3600) 30 (by norm_num) (by norm_num) (by
    rw [abs_lt]; norm_num; constructor <;> linarith)
  rw [e2]
  simp only [Dbl.add]
  obtain ⟨b21, b22⟩ := abs_le.1 b2
  norm_num at b21 b22
  obtain ⟨a3, e3, b3⟩ := fl_error ((s : ℚ) + a2) 30 (by norm_num) (by norm_num) (by
    rw [abs_lt]; norm_num; constructor <;> linarith)
  obtain ⟨b31, b32⟩ := abs_le.1 b3
  norm_num at b31 b32
  refine ⟨a3, e3, ?_⟩
  rw [abs_le]
  push_cast
  constructor <;> linarith

/-- The sum of the statement `seconds = - (hundredths + seconds + minutes*60 +
hours*3600)` when the fraction is within `2^-54` of `m / 10^6`. -/
theorem frac_total_neg (h mi s : ℕ) (m : ℤ) (rh : ℚ) (hm1 : 1 ≤ m) (hm2 : m ≤ 999999)
    (hrh : |rh - (m : ℚ) / 1000000| ≤ 1 / 2 ^ 54)
    (hb : h * 3600 + mi * 60 + s ≤ 2147483647) :
    ∃ r : ℚ, Dbl.neg (Dbl.add (Dbl.add (Dbl.add (.fin rh) (.fin (s : ℚ)))
        (Dbl.mul (.fin (mi : ℚ)) (.fin 60))) (Dbl.mul (.fin (h : ℚ)) (.fin 3600))) = .fin r ∧
      |r - (((-((h * 3600 + mi * 60 + s : ℕ) : ℤ) - 1 : ℤ) : ℚ) + ((1000000 - m : ℤ) : ℚ) / 1000000)|
        ≤ 4 / 10000000 := by
  have hm1q : (1 : ℚ) ≤ m := by exact_mod_cast hm1
  have hm2q : (m : ℚ) ≤ 999999 := by exact_mod_cast hm2
  have hbq : (h : ℚ) * 3600 + (mi : ℚ) * 60 + (s : ℚ) ≤ 2147483647 := by
    exact_mod_cast hb
  have hh0 : (0 : ℚ) ≤ h := Nat.cast_nonneg h
  have hmi0 : (0 : ℚ) ≤ mi := Nat.cast_nonneg mi
  have hs0 : (0 : ℚ) ≤ s := Nat.cast_nonneg s
  obtain ⟨h1, h2⟩ := abs_le.1 hrh
  norm_num at h1 h2
  rw [mul_natCast_60 mi (by omega), mul_natCast_3600 h (by omega)]
  simp only [Dbl.add]
  obtain ⟨a1, e1, b1⟩ := fl_error (rh + (s : ℚ)) 30 (by norm_num) (by norm_num) (by
    rw [abs_lt]; norm_num; constructor <;> linarith)
  rw [e1]
  simp only [Dbl.add]
  obtain ⟨b11, b12⟩ := abs_le.1 b1
  norm_num at b11 b12
  obtain ⟨a2, e2, b2⟩ := fl_error (a1 + (mi : ℚ) * 60) 30 (by norm_num) (by norm_num) (by
    rw [abs_lt]; norm_num; constructor <;> linarith)
  rw [e2]
  simp only [Dbl.add]
  obtain ⟨b21, b22⟩ := abs_le.1 b2
  norm_num at b21 b22
  obtain ⟨a3, e3, b3⟩ := fl_error (a2 + (h : ℚ) * 3600) 30 (by norm_num) (by norm_num) (by
    rw [abs_lt]; norm_num; constructor <;> linarith)
  obtain ⟨b31, b32⟩ := abs_le.1 b3
  norm_num at b31 b32
  rw [e3]
  refine ⟨-a3, rfl, ?_⟩
  rw [abs_le]
  push_cast
  constructor <;> linarith

/-! ## TIME: the range of second and microsecond -/

/-- A decimal with `k ≤ 6` fractional digits, split into its whole part and its
millionths. -/
theorem decimal_split (N k : ℕ) (hk : k ≤ 6) :
    (N : ℚ) / (10 : ℚ) ^ k =
      ((N / 10 ^ k : ℕ) : ℚ) + ((N % 10 ^ k * 10 ^ (6 - k) : ℕ) : ℚ) / 1000000 ∧
    N % 10 ^ k * 10 ^ (6 - k) ≤ 999999 ∧
    (1 ≤ N % 10 ^ k → 1 ≤ N % 10 ^ k * 10 ^ (6 - k)) := by
  have hp : 10 ^ k * 10 ^ (6 - k) = 1000000 := by
    rw [← pow_add, show k + (6 - k) = 6 by omega]; norm_num
  have hpq : (10 : ℚ) ^ k * (10 : ℚ) ^ (6 - k) = 1000000 := by exact_mod_cast hp
  have hP : (0 : ℚ) < (10 : ℚ) ^ k := by positivity
  have hN : 10 ^ k * (N / 10 ^ k) + N % 10 ^ k = N := Nat.div_add_mod N (10 ^ k)
  have hNq : (10 : ℚ) ^ k * ((N / 10 ^ k : ℕ) : ℚ) + ((N % 10 ^ k : ℕ) : ℚ) = (N : ℚ) := by
    exact_mod_cast hN
  have hlt : N % 10 ^ k < 10 ^ k := Nat.mod_lt _ (by positivity)
  have hQ : 1 ≤ 10 ^ (6 - k) := Nat.one_le_pow _ _ (by norm_num)
  refine ⟨?_, ?_, ?_⟩
  · rw [div_eq_iff (ne_of_gt hP), ← hNq]
    push_cast
    have : ((N % 10 ^ k : ℕ) : ℚ) * (10 : ℚ) ^ (6 - k) / 1000000 * (10 : ℚ) ^ k =
        ((N % 10 ^ k : ℕ) : ℚ) := by
      rw [show ((N % 10 ^ k : ℕ) : ℚ) * (10 : ℚ) ^ (6 - k) / 1000000 * (10 : ℚ) ^ k =
        ((N % 10 ^ k : ℕ) : ℚ) * ((10 : ℚ) ^ k * (10 : ℚ) ^ (6 - k)) / 1000000 by ring, hpq]
      field_simp
    push_cast at this
    rw [add_mul, this]
    ring
  · have : N % 10 ^ k * 10 ^ (6 - k) < 10 ^ k * 10 ^ (6 - k) :=
      Nat.mul_lt_mul_of_pos_right hlt (by omega)
    omega
  · intro h1
    exact Nat.one_le_iff_ne_zero.2 (Nat.mul_ne_zero (by omega) (by omega))

/-- The time typecaster when the scan captured, for the seconds, the `double` nearest to a
decimal `N / 10^k` below 60 with `k ≤ 6` fractional digits. -/
theorem time_decimal_cast (buf : List Char) (len : Int) (curs : cursorObject)
    (hh mm : Int) (N k : ℕ) (hk : k ≤ 6) (hN : N < 60 * 10 ^ k)
    (hs : sscanf_time (cstr buf) = ⟨3, hh, mm, fl ((N : ℚ) / (10 : ℚ) ^ k)⟩) :
    typecast_PYTIME_cast (some buf) len curs =
      .call .pyTimeTypeP
        [hh, mm, ((N / 10 ^ k : ℕ) : Int), ((N % 10 ^ k * 10 ^ (6 - k) : ℕ) : Int)] none ∧
    N / 10 ^ k ≤ 59 ∧ N % 10 ^ k * 10 ^ (6 - k) ≤ 999999 := by
  obtain ⟨hsplit, hm2, -⟩ := decimal_split N k hk
  have hs59 : N / 10 ^ k ≤ 59 := by
    have : N / 10 ^ k < 60 := Nat.div_lt_of_lt_mul (by rw [mul_comm]; exact hN)
    omega
  refine ⟨?_, hs59, hm2⟩
  generalize N / 10 ^ k = S at hsplit hs59 ⊢
  generalize N % 10 ^ k * 10 ^ (6 - k) = M at hsplit hm2 ⊢
  have h59 : ¬ ((S : Int) > 59) := by omega
  have hfm : foldMinute mm (S : Int) = mm := by simp [foldMinute, h59]
  have hfs : foldSecond (S : Int) = (S : Int) := by simp [foldSecond, h59]
  unfold typecast_PYTIME_cast
  simp only [hs]
  by_cases hF : M = 0
  · have hq : (N : ℚ) / (10 : ℚ) ^ k = (((S : ℕ) : ℤ) : ℚ) := by
      rw [hsplit, hF]; simp
    rw [hq, fl_intCast _ (by omega)]
    rw [secOf_intCast _ (by simp only [INT_MIN]; omega) (by simp only [INT_MAX]; omega),
      microOf_intCast, round_zero_toInt, hfm, hfs, hF]
    simp
  · have hq0 : (0 : ℚ) ≤ (S : ℚ) := Nat.cast_nonneg _
    have hq59 : (S : ℚ) ≤ 59 := by exact_mod_cast hs59
    have hmq0 : (0 : ℚ) ≤ (M : ℚ) := Nat.cast_nonneg _
    have hmq : (M : ℚ) ≤ 999999 := by exact_mod_cast hm2
    obtain ⟨r, er, br⟩ := fl_error ((N : ℚ) / (10 : ℚ) ^ k) 5 (by norm_num) (by norm_num) (by
      rw [hsplit, abs_lt]; norm_num; constructor <;> linarith)
    rw [er]
    obtain ⟨b1, b2⟩ := abs_le.1 br
    norm_num at b1 b2
    obtain ⟨e1, e2⟩ := frac_finish r (S : ℤ) (M : ℤ) (by omega) (by omega)
      (by simp only [INT_MIN]; omega) (by simp only [INT_MAX]; omega) (by
        rw [hsplit] at b1 b2
        rw [abs_le]
        push_cast at b1 b2 ⊢
        constructor <;> linarith)
    rw [e1, e2, hfm, hfs]
    simp

/-- C15 (with at most six fractional digits): when the time scan captures hour `hh`,
minute `mm` and, for the seconds, the `double` nearest to a decimal `N / 10^k` below 60
with `k ≤ 6` fractional digits, the time type is called with `hh`, `mm`, the whole
seconds of the decimal as second and its fractional digits, as millionths, as
microsecond: second is in `0..59` and microsecond is in `0..999999`. -/
theorem time_fields_in_range (buf : List Char) (len : Int) (curs : cursorObject)
    (hh mm : Int) (N k : ℕ) (hk : k ≤ 6) (hN : N < 60 * 10 ^ k)
    (hs : sscanf_time (cstr buf) = ⟨3, hh, mm, fl ((N : ℚ) / (10 : ℚ) ^ k)⟩) :
    typecast_PYTIME_cast (some buf) len curs =
      .call .pyTimeTypeP
        [hh, mm, ((N / 10 ^ k : ℕ) : Int), ((N % 10 ^ k * 10 ^ (6 - k) : ℕ) : Int)] none ∧
    N / 10 ^ k ≤ 59 ∧ N % 10 ^ k * 10 ^ (6 - k) ≤ 999999 :=
  time_decimal_cast buf len curs hh mm N k hk hN hs

theorem time_fields_in_range_witness :
    typecast_PYTIME_cast (some "23:59:59.999999".toList) 15 ⟨.pyNone⟩ =
      .call .pyTimeTypeP [23, 59, 59, 999999] none ∧
    typecast_PYTIME_cast (some "04:05:06.789".toList) 12 ⟨.pyNone⟩ =
      .call .pyTimeTypeP [4, 5, 6, 789000] none :=
  ⟨(time_fields_in_range "23:59:59.999999".toList 15 ⟨.pyNone⟩ 23 59 59999999 6 (by decide)
      (by decide) (by decide!)).1.trans (by decide),
    (time_fields_in_range "04:05:06.789".toList 12 ⟨.pyNone⟩ 4 5 6789 3 (by decide)
      (by decide) (by decide!)).1.trans (by decide)⟩

/-- C15, counterexample: `12:00:59.9999999` is accepted, its seconds field is the
decimal 59.9999999, below 60 with seven fractional digits; the time type is called with
second 59 and microsecond 1000000, which is not in `0..999999`. -/
theorem time_fields_in_range_counterexample :
    sscanf_time (cstr "12:00:59.9999999".toList) =
      ⟨3, 12, 0, fl ((599999999 : ℚ) / (10 : ℚ) ^ 7)⟩ ∧
    typecast_PYTIME_cast (some "12:00:59.9999999".toList) 16 ⟨.pyNone⟩ =
      .call .pyTimeTypeP [12, 0, 59, 1000000] none ∧
    ¬ ((1000000 : Int) ≤ 999999) := by
  refine ⟨by decide!, by decide!, by decide⟩

/-! ## INTERVAL: fractions of a second -/

theorem digitVal_le_nine {c : Char} (h : isdigit c = true) : digitVal c ≤ 9 := by
  have := isdigit_range h
  unfold digitVal
  omega

theorem digits_foldl_lt (f : List Char) (hf : ∀ c ∈ f, isdigit c = true) :
    ∀ a : Nat, f.foldl (fun a c => a * 10 + digitVal c) a < (a + 1) * 10 ^ f.length := by
  induction f with
  | nil => intro a; simp
  | cons d ds ih =>
    intro a
    have hd := digitVal_le_nine (hf d (by simp))
    have := ih (fun c hc => hf c (by simp [hc])) (a * 10 + digitVal d)
    simp only [List.foldl, List.length_cons]
    calc ds.foldl (fun a c => a * 10 + digitVal c) (a * 10 + digitVal d)
        < (a * 10 + digitVal d + 1) * 10 ^ ds.length := this
      _ ≤ ((a + 1) * 10) * 10 ^ ds.length := Nat.mul_le_mul_right _ (by omega)
      _ = (a + 1) * 10 ^ (ds.length + 1) := by ring

theorem digitsVal_lt (f : List Char) (hf : ∀ c ∈ f, isdigit c = true) :
    digitsVal f < 10 ^ f.length := by
  have := digits_foldl_lt f hf 0
  simpa [digitsVal] using this

/-- In the fraction of a second a digit string changes `v` and multiplies `denominator`
by ten for every digit. -/
theorem foldl_digitStep_frac (ds : List Char) :
    ∀ (st : IntervalVars) (j : ℕ), st.part = 6 → st.denominator = ((10 ^ j : ℕ) : Int) →
      j + ds.length ≤ 18 →
      ds.foldl IntervalVars.digitStep st =
        { st with v := ds.foldl pushDigit st.v,
                  denominator := ((10 ^ (j + ds.length) : ℕ) : Int) } := by
  induction ds with
  | nil =>
    intro st j _ hden _
    cases st
    simp only at hden
    simp [hden]
  | cons d ds ih =>
    intro st j hp hden hj
    simp only [List.length_cons] at hj
    have hpow : 10 ^ (j + 1) ≤ 10 ^ 18 := Nat.pow_le_pow_right (by norm_num) (by omega)
    have hw : wrapLong (st.denominator * 10) = ((10 ^ (j + 1) : ℕ) : Int) := by
      rw [hden, wrapLong_of_range]
      · push_cast; ring
      · have : (0 : Int) ≤ ((10 ^ j : ℕ) : Int) := Int.natCast_nonneg _
        omega
      · have e : ((10 ^ j : ℕ) : Int) * 10 = ((10 ^ (j + 1) : ℕ) : Int) := by push_cast; ring
        rw [e]
        have : ((10 ^ (j + 1) : ℕ) : Int) ≤ ((10 ^ 18 : ℕ) : Int) := by exact_mod_cast hpow
        norm_num at this ⊢
        omega
    simp only [List.foldl, List.length_cons]
    rw [ih (st.digitStep d) (j + 1) (by simpa [IntervalVars.digitStep] using hp)
      (by simp [IntervalVars.digitStep, hp, hw]) (by omega)]
    simp [IntervalVars.digitStep, hp, show j + 1 + ds.length = j + (ds.length + 1) by omega]

theorem scanLoop_dot (rest : List Char) (st : IntervalVars) (h : st.part = 5) :
    scanLoop ('.' :: rest) st =
      scanLoop rest { st with seconds := st.v, v := .fin 0, part := 6 } := by
  simp [scanLoop, isdigit, h]

/-- The interval scan of `hs:mis:ss.f` for four digit strings, started outside the clock
clause with `v = 0` and `denominator = 1`. -/
theorem scanLoop_frac_clock (dh dmi dsec f : List Char) (st : IntervalVars)
    (hh : ∀ c ∈ dh, isdigit c = true) (hmi : ∀ c ∈ dmi, isdigit c = true)
    (hs : ∀ c ∈ dsec, isdigit c = true) (hf : ∀ c ∈ f, isdigit c = true)
    (hv : st.v = .fin 0) (hp : st.part ≤ 3) (hden : st.denominator = 1)
    (bh : digitsVal dh + 48 < 2 ^ 53) (bmi : digitsVal dmi + 48 < 2 ^ 53)
    (bs : digitsVal dsec + 48 < 2 ^ 53) (hk : f.length ≤ 6) :
    scanLoop (dh ++ ':' :: (dmi ++ ':' :: (dsec ++ '.' :: f))) st =
      some { st with hours := .fin (digitsVal dh : ℚ), minutes := .fin (digitsVal dmi : ℚ),
                     seconds := .fin (digitsVal dsec : ℚ), v := .fin (digitsVal f : ℚ),
                     denominator := ((10 ^ f.length : ℕ) : Int), part := 6 } := by
  have hfl := digitsVal_lt f hf
  have hpow : 10 ^ f.length ≤ 10 ^ 6 := Nat.pow_le_pow_right (by norm_num) hk
  rw [scanLoop_number dh _ hh st hv (by omega) bh]
  rw [scanLoop_colon_hours _ _ (by simpa using hp)]
  rw [scanLoop_number dmi _ hmi _ rfl (by simp) bmi]
  rw [scanLoop_colon_minutes _ _ rfl]
  rw [scanLoop_number dsec _ hs _ rfl (by simp) bs]
  rw [scanLoop_dot _ _ rfl]
  have e : f = f ++ [] := by simp
  rw [e, scanLoop_digits f [] hf]
  rw [foldl_digitStep_frac f _ 0 rfl (by simpa using hden) (by omega)]
  have hpd := pushDigits_natCast f hf 0 (by
    have : f.foldl (fun a c => a * 10 + digitVal c) 0 = digitsVal f := rfl
    rw [this]; norm_num at hpow ⊢; omega)
  rw [show ((0 : ℕ) : ℚ) = 0 by norm_num] at hpd
  simp only [hpd]
  simp [scanLoop, digitsVal]

/-- The interval scan of `Y year M mons D days ` for three digit strings: before what
follows, `v` is 0, the sign is positive and `part` is 3. -/
theorem scanLoop_ymd_prefix (dY dM dD : List Char)
    (hY : ∀ c ∈ dY, isdigit c = true) (hM : ∀ c ∈ dM, isdigit c = true)
    (hD : ∀ c ∈ dD, isdigit c = true) :
    ∃ yrs mos dys : Int, ∀ rest : List Char,
      scanLoop (dY ++ ' ' :: 'y' :: 'e' :: 'a' :: 'r' :: ' ' ::
        (dM ++ ' ' :: 'm' :: 'o' :: 'n' :: 's' :: ' ' ::
          (dD ++ ' ' :: 'd' :: 'a' :: 'y' :: 's' :: ' ' :: rest))) IntervalVars.init =
        scanLoop rest ⟨yrs, mos, dys, 1, .fin 0, .fin 0, .fin 0, .fin 0, .fin 0, .fin 1, 3⟩ := by
  refine ⟨Dbl.toLong (Dbl.mul (dY.foldl pushDigit (.fin 0)) (.fin 1)),
    Dbl.toLong (Dbl.mul (dM.foldl pushDigit (.fin 0)) (.fin 1)),
    Dbl.toLong (Dbl.mul (dD.foldl pushDigit (.fin 0)) (.fin 1)), fun rest => ?_⟩
  rw [scanLoop_digits dY _ hY, foldl_digitStep dY _ (by simp [IntervalVars.init])]
  simp only [IntervalVars.init]
  rw [scanLoop_year _ _ rfl]
  simp only [IntervalVars.nextPart]
  rw [scanLoop_digits dM _ hM, foldl_digitStep dM _ (by simp)]
  rw [scanLoop_mons _ _ (by simp)]
  simp only [IntervalVars.nextPart]
  rw [scanLoop_digits dD _ hD, foldl_digitStep dD _ (by simp)]
  rw [scanLoop_days _ _ (by simp)]
  simp only [IntervalVars.nextPart]

/-- The statements after the interval loop when it ended in the fraction of a second
with hours `h`, minutes `mi`, seconds `s`, the fraction digits `F` in `v` and
`denominator = 10^k`: the whole seconds and the microseconds add up to the signed total
in microseconds. -/
theorem frac_result (yrs mos dys : Int) (h mi s F k : ℕ) (hd : Dbl) (neg : Bool)
    (hk : k ≤ 6) (hF : F < 10 ^ k) (hb : h * 3600 + mi * 60 + s ≤ 2147483647) :
    ∃ sec micro : Int,
      secOf (totalSeconds (lastValue ⟨yrs, mos, dys, ((10 ^ k : ℕ) : Int), .fin (h : ℚ),
        .fin (mi : ℚ), .fin (s : ℚ), hd, .fin (F : ℚ),
        if neg then .fin (-1) else .fin 1, 6⟩)) = sec ∧
      Dbl.toInt (Dbl.round (microOf (totalSeconds (lastValue ⟨yrs, mos, dys,
        ((10 ^ k : ℕ) : Int), .fin (h : ℚ), .fin (mi : ℚ), .fin (s : ℚ), hd, .fin (F : ℚ),
        if neg then .fin (-1) else .fin 1, 6⟩)))) = micro ∧
      sec * 1000000 + micro =
        (if neg then -1 else 1) *
          (((h * 3600 + mi * 60 + s) * 1000000 + F * 10 ^ (6 - k) : ℕ) : Int) ∧
      0 ≤ micro ∧ micro ≤ 999999 := by
  have hpow : 10 ^ k ≤ 10 ^ 6 := Nat.pow_le_pow_right (by norm_num) hk
  have hpos : 0 < 10 ^ k := by positivity
  have hden : Dbl.ofInt ((10 ^ k : ℕ) : Int) = .fin ((10 ^ k : ℕ) : ℚ) := by
    unfold Dbl.ofInt
    rw [fl_intCast _ (by norm_num at hpow; omega)]
    simp
  have hne : ((10 ^ k : ℕ) : ℚ) ≠ 0 := by positivity
  have hdiv : Dbl.div (.fin (F : ℚ)) (.fin ((10 ^ k : ℕ) : ℚ)) =
      fl ((F : ℚ) / (10 : ℚ) ^ k) := by
    simp only [Dbl.div, if_neg hne]
    push_cast
    rfl
  have hl1 : Dbl.ltZero (.fin 1) = false := by decide!
  have hl2 : Dbl.ltZero (.fin (-1)) = true := by decide!
  obtain ⟨hsplit, hm2, hm1⟩ := decimal_split F k hk
  rw [Nat.div_eq_of_lt hF, Nat.mod_eq_of_lt hF] at hsplit
  rw [Nat.mod_eq_of_lt hF] at hm2 hm1
  generalize F * 10 ^ (6 - k) = M at hsplit hm2 hm1 ⊢
  simp only [lastValue, totalSeconds, hden, hdiv]
  norm_num only [if_true, if_false]
  by_cases hF0 : F = 0
  · have hM0 : M = 0 := by
      have h1 : ((M : ℕ) : ℚ) / 1000000 = 0 := by
        rw [hF0] at hsplit; simpa using hsplit.symm
      have h2 : ((M : ℕ) : ℚ) = 0 := by
        rcases div_eq_zero_iff.1 h1 with h | h
        · exact h
        · norm_num at h
      exact_mod_cast h2
    have hz : fl ((F : ℚ) / (10 : ℚ) ^ k) = .fin 0 := by
      rw [hF0]; simp [fl]
    rw [hz, hM0]
    cases neg
    · simp only [hl1, Bool.false_eq_true, if_false]
      rw [clock_total_pos h mi s (by omega)]
      have hsec := secOf_intCast ((h * 3600 + mi * 60 + s : ℕ) : ℤ)
        (by simp only [INT_MIN]; omega) (by simp only [INT_MAX]; omega)
      have hmic := microOf_intCast ((h * 3600 + mi * 60 + s : ℕ) : ℤ)
      simp only [Int.cast_natCast] at hsec hmic
      refine ⟨_, _, hsec, by rw [hmic, round_zero_toInt], ?_, le_refl _, by norm_num⟩
      push_cast
      ring
    · simp only [hl2, if_true]
      rw [clock_total_neg h mi s (by omega)]
      have hsec := secOf_intCast (-((h * 3600 + mi * 60 + s : ℕ) : ℤ))
        (by simp only [INT_MIN]; omega) (by simp only [INT_MAX]; omega)
      have hmic := microOf_intCast (-((h * 3600 + mi * 60 + s : ℕ) : ℤ))
      refine ⟨_, _, hsec, by rw [hmic, round_zero_toInt], ?_, le_refl _, by norm_num⟩
      push_cast
      ring
  · have hM1 : 1 ≤ M := hm1 (by omega)
    have hFq0 : (0 : ℚ) ≤ (M : ℚ) := Nat.cast_nonneg _
    have hFq1 : (M : ℚ) ≤ 999999 := by exact_mod_cast hm2
    obtain ⟨rh, erh, brh⟩ := fl_error ((F : ℚ) / (10 : ℚ) ^ k) (-1) (by norm_num) (by norm_num)
      (by rw [hsplit, abs_lt]; norm_num; constructor <;> linarith)
    have brh2 : |rh - ((M : ℤ) : ℚ) / 1000000| ≤ 1 / 2 ^ 54 := by
      rw [hsplit] at brh
      norm_num at brh ⊢
      exact brh
    rw [erh]
    cases neg
    · simp only [hl1, Bool.false_eq_true, if_false]
      obtain ⟨r, er, br⟩ := frac_total_pos h mi s (M : ℤ) rh (by omega) (by omega) brh2 hb
      obtain ⟨e1, e2⟩ := frac_finish r ((h * 3600 + mi * 60 + s : ℕ) : ℤ) (M : ℤ) (by omega)
        (by omega) (by simp only [INT_MIN]; omega) (by simp only [INT_MAX]; omega) br
      rw [er]
      refine ⟨_, _, e1, e2, ?_, by omega, by omega⟩
      push_cast
      ring
    · simp only [hl2, if_true]
      obtain ⟨r, er, br⟩ := frac_total_neg h mi s (M : ℤ) rh (by omega) (by omega) brh2 hb
      obtain ⟨e1, e2⟩ := frac_finish r (-((h * 3600 + mi * 60 + s : ℕ) : ℤ) - 1)
        (1000000 - (M : ℤ)) (by omega) (by omega) (by simp only [INT_MIN]; omega)
        (by simp only [INT_MAX]; omega) br
      rw [er]
      refine ⟨_, _, e1, e2, ?_, by omega, by omega⟩
      push_cast
      ring

/-- The interval typecaster on a clock clause `hs:mis:ss.f` of digit strings, after an
optional `-`, that follows a prefix leaving the scan outside the clock clause with
`v = 0`, a positive sign and `denominator = 1`. -/
theorem interval_frac_digits_cast (pre : List Char) (st : IntervalVars) (neg : Bool)
    (dh dmi dsec f : List Char) (len : Int) (curs : cursorObject)
    (hpre : ∀ rest, scanLoop (pre ++ rest) IntervalVars.init = scanLoop rest st)
    (hnz : ∀ c ∈ pre, c.toNat ≠ 0)
    (hv : st.v = .fin 0) (hp : st.part ≤ 3) (hden : st.denominator = 1)
    (hsg : st.sign = .fin 1)
    (hh : ∀ c ∈ dh, isdigit c = true) (hmi : ∀ c ∈ dmi, isdigit c = true)
    (hs : ∀ c ∈ dsec, isdigit c = true) (hf : ∀ c ∈ f, isdigit c = true)
    (hk : f.length ≤ 6)
    (hb : digitsVal dh * 3600 + digitsVal dmi * 60 + digitsVal dsec ≤ 2147483647) :
    ∃ sec micro : Int,
      typecast_PYINTERVAL_cast (some (pre ++ ((if neg then ['-'] else []) ++
        (dh ++ ':' :: (dmi ++ ':' :: (dsec ++ '.' :: f)))))) len curs =
        .call .pyDeltaTypeP [wrapInt (totalDays st), sec, micro] none ∧
      sec * 1000000 + micro =
        (if neg then -1 else 1) *
          (((digitsVal dh * 3600 + digitsVal dmi * 60 + digitsVal dsec) * 1000000 +
            digitsVal f * 10 ^ (6 - f.length) : ℕ) : Int) ∧
      0 ≤ micro ∧ micro ≤ 999999 := by
  have hnz2 : ∀ c ∈ (pre ++ ((if neg then ['-'] else []) ++
        (dh ++ ':' :: (dmi ++ ':' :: (dsec ++ '.' :: f))))), c.toNat ≠ 0 := by
    intro c hc
    simp only [List.mem_append, List.mem_cons] at hc
    rcases hc with hc | hc | hc | rfl | hc | rfl | hc | rfl | hc
    · exact hnz c hc
    · cases neg
      · simp at hc
      · simp at hc; rw [hc]; decide
    · exact toNat_ne_zero_of_isdigit (hh c hc)
    · decide
    · exact toNat_ne_zero_of_isdigit (hmi c hc)
    · decide
    · exact toNat_ne_zero_of_isdigit (hs c hc)
    · decide
    · exact toNat_ne_zero_of_isdigit (hf c hc)
  obtain ⟨yrs, mos, dys, den, hrs, mins, secs, hund, v, sign, part⟩ := st
  simp only at hv hp hden hsg
  subst hv hden hsg
  have hF := digitsVal_lt f hf
  obtain ⟨sec, micro, e1, e2, e3, e4, e5⟩ := frac_result yrs mos dys (digitsVal dh)
    (digitsVal dmi) (digitsVal dsec) (digitsVal f) f.length hund neg hk hF hb
  refine ⟨sec, micro, ?_, e3, e4, e5⟩
  have hscan : scanLoop (pre ++ ((if neg then ['-'] else []) ++
        (dh ++ ':' :: (dmi ++ ':' :: (dsec ++ '.' :: f))))) IntervalVars.init =
      some ⟨yrs, mos, dys, ((10 ^ f.length : ℕ) : Int), .fin (digitsVal dh : ℚ),
        .fin (digitsVal dmi : ℚ), .fin (digitsVal dsec : ℚ), hund, .fin (digitsVal f : ℚ),
        if neg then .fin (-1) else .fin 1, 6⟩ := by
    rw [hpre]
    cases neg
    · simp only [Bool.false_eq_true, if_false, List.nil_append]
      rw [scanLoop_frac_clock dh dmi dsec f _ hh hmi hs hf rfl hp rfl (by omega) (by omega)
        (by omega) hk]
    · simp only [if_true, List.singleton_append]
      rw [scanLoop_minus]
      rw [scanLoop_frac_clock dh dmi dsec f _ hh hmi hs hf rfl hp rfl (by omega) (by omega)
        (by omega) hk]
  unfold typecast_PYINTERVAL_cast
  simp only [cstr_of_nonzero _ hnz2, hscan]
  rw [e1, e2]
  simp [lastValue, totalDays]

theorem fracClockText_eq (neg : Bool) (h mi s : Nat) (f : List Char) :
    fracClockText neg h mi s f =
      [] ++ ((if neg then ['-'] else []) ++
        (pad2 h ++ ':' :: (pad2 mi ++ ':' :: (pad2 s ++ '.' :: f)))) := by
  simp [fracClockText, clockText]

theorem fracIntervalText_eq (Y M D : Nat) (neg : Bool) (h mi s : Nat) (f : List Char) :
    fracIntervalText Y M D neg h mi s f =
      (decimal Y ++ ' ' :: 'y' :: 'e' :: 'a' :: 'r' :: ' ' ::
        (decimal M ++ ' ' :: 'm' :: 'o' :: 'n' :: 's' :: ' ' ::
          (decimal D ++ [' ', 'd', 'a', 'y', 's', ' ']))) ++
        ((if neg then ['-'] else []) ++
          (pad2 h ++ ':' :: (pad2 mi ++ ':' :: (pad2 s ++ '.' :: f)))) := by
  unfold fracIntervalText fracClockText clockText
  rw [show " year ".toList = [' ', 'y', 'e', 'a', 'r', ' '] from rfl,
    show " mons ".toList = [' ', 'm', 'o', 'n', 's', ' '] from rfl,
    show " days ".toList = [' ', 'd', 'a', 'y', 's', ' '] from rfl]
  simp only [List.append_assoc, List.cons_append, List.nil_append]

/-- C19 (with the limits of the C types): for all natural numbers `h, mi, s` with
`h*3600 + mi*60 + s` at most `INT_MAX` and every string `f` of at most six digits, the
interval typecaster applied to the clock clause `hh:mi:ss.f`, positive or after a `-`,
alone or after `Y year M mons D days `, calls the timedelta type with whole seconds
`sec` and microseconds `micro` such that `sec*1000000 + micro` is the signed total
`±((h*3600 + mi*60 + s)*1000000 + f*10^(6 - number of digits of f))` and
`0 ≤ micro ≤ 999999`; with the clock clause alone the days are 0. -/
theorem interval_fraction_exact (Y M D h mi s : Nat) (neg : Bool) (f : List Char)
    (len : Int) (curs : cursorObject)
    (hf : ∀ c ∈ f, isdigit c = true) (hk : f.length ≤ 6)
    (hb : h * 3600 + mi * 60 + s ≤ 2147483647) :
    (∃ sec micro : Int,
      typecast_PYINTERVAL_cast (some (fracClockText neg h mi s f)) len curs =
        .call .pyDeltaTypeP [0, sec, micro] none ∧
      sec * 1000000 + micro =
        (if neg then -1 else 1) *
          (((h * 3600 + mi * 60 + s) * 1000000 + digitsVal f * 10 ^ (6 - f.length) : ℕ) : Int) ∧
      0 ≤ micro ∧ micro ≤ 999999) ∧
    (∃ days sec micro : Int,
      typecast_PYINTERVAL_cast (some (fracIntervalText Y M D neg h mi s f)) len curs =
        .call .pyDeltaTypeP [days, sec, micro] none ∧
      sec * 1000000 + micro =
        (if neg then -1 else 1) *
          (((h * 3600 + mi * 60 + s) * 1000000 + digitsVal f * 10 ^ (6 - f.length) : ℕ) : Int) ∧
      0 ≤ micro ∧ micro ≤ 999999) := by
  obtain ⟨_, y1, _⟩ := decimal_spec Y
  obtain ⟨_, m1, _⟩ := decimal_spec M
  obtain ⟨_, d1, _⟩ := decimal_spec D
  obtain ⟨_, h1, h2⟩ := pad2_spec h
  obtain ⟨_, mi1, mi2⟩ := pad2_spec mi
  obtain ⟨_, s1, s2⟩ := pad2_spec s
  constructor
  · obtain ⟨sec, micro, e, e3, e4, e5⟩ := interval_frac_digits_cast [] IntervalVars.init neg
      (pad2 h) (pad2 mi) (pad2 s) f len curs (fun _ => rfl) (by simp) rfl (by decide) rfl rfl
      h1 mi1 s1 hf hk (by rw [h2, mi2, s2]; exact hb)
    rw [h2, mi2, s2] at e3
    refine ⟨sec, micro, ?_, e3, e4, e5⟩
    rw [fracClockText_eq, e]
    rfl
  · obtain ⟨yrs, mos, dys, hpre⟩ := scanLoop_ymd_prefix (decimal Y) (decimal M) (decimal D)
      y1 m1 d1
    obtain ⟨sec, micro, e, e3, e4, e5⟩ := interval_frac_digits_cast
      (decimal Y ++ ' ' :: 'y' :: 'e' :: 'a' :: 'r' :: ' ' ::
        (decimal M ++ ' ' :: 'm' :: 'o' :: 'n' :: 's' :: ' ' ::
          (decimal D ++ [' ', 'd', 'a', 'y', 's', ' '])))
      ⟨yrs, mos, dys, 1, .fin 0, .fin 0, .fin 0, .fin 0, .fin 0, .fin 1, 3⟩ neg
      (pad2 h) (pad2 mi) (pad2 s) f len curs
      (fun rest => by
        rw [← hpre rest]
        simp only [List.append_assoc, List.cons_append, List.nil_append])
      (by
        intro c hc
        simp only [List.mem_append, List.mem_cons] at hc
        rcases hc with hc | rfl | rfl | rfl | rfl | rfl | rfl | hc | rfl | rfl | rfl | rfl |
          rfl | rfl | hc | hc
        all_goals first
          | decide
          | exact toNat_ne_zero_of_isdigit (y1 c hc)
          | exact toNat_ne_zero_of_isdigit (m1 c hc)
          | exact toNat_ne_zero_of_isdigit (d1 c hc)
          | (simp at hc; rcases hc with rfl | rfl | rfl | rfl | rfl | rfl <;> decide))
      rfl (by simp) rfl rfl h1 mi1 s1 hf hk (by rw [h2, mi2, s2]; exact hb)
    rw [h2, mi2, s2] at e3
    exact ⟨_, sec, micro, by rw [fracIntervalText_eq, e], e3, e4, e5⟩

theorem interval_fraction_exact_witness :
    typecast_PYINTERVAL_cast (some "04:05:06.789".toList) 12 ⟨.pyNone⟩ =
      .call .pyDeltaTypeP [0, 14706, 789000] none ∧
    typecast_PYINTERVAL_cast (some "-00:00:00.5".toList) 11 ⟨.pyNone⟩ =
      .call .pyDeltaTypeP [0, -1, 500000] none ∧
    typecast_PYINTERVAL_cast (some "1 year 2 mons 3 days -04:05:06.789".toList) 34 ⟨.pyNone⟩ =
      .call .pyDeltaTypeP [428, -14707, 211000] none ∧
    ∃ sec micro : Int,
      typecast_PYINTERVAL_cast (some (fracClockText true 4 5 6 "789".toList)) 13 ⟨.pyNone⟩ =
        .call .pyDeltaTypeP [0, sec, micro] none ∧
      sec * 1000000 + micro = -14706789000 ∧ 0 ≤ micro ∧ micro ≤ 999999 :=
  ⟨by decide!, by decide!, by decide!,
    (interval_fraction_exact 1 2 3 4 5 6 true "789".toList 13 ⟨.pyNone⟩ (by decide) (by decide)
      (by decide)).1⟩

/-- C19, counterexample: for `600000:00:00.5` the total is 2160000000.5 seconds, above
`INT_MAX`; the timedelta type is called with seconds `INT_MIN` (what the out-of-range
conversion gives on x86-64) and microseconds 500000, and `sec*1000000 + micro` is not
2160000000500000. -/
theorem interval_fraction_exact_counterexample :
    fracClockText false 600000 0 0 "5".toList = "600000:00:00.5".toList ∧
    typecast_PYINTERVAL_cast (some "600000:00:00.5".toList) 14 ⟨.pyNone⟩ =
      .call .pyDeltaTypeP [0, -2147483648, 500000] none ∧
    (-2147483648 : Int) * 1000000 + 500000 ≠
      ((600000 * 3600 + 0 * 60 + 0) * 1000000 + 5 * 10 ^ (6 - 1) : Int) := by
  refine ⟨by decide!, by decide!, by decide⟩

/-! ## TIME: the text with a fraction -/

theorem digits_foldl_shift (f : List Char) :
    ∀ a : Nat, f.foldl (fun a c => a * 10 + digitVal c) a =
      a * 10 ^ f.length + f.foldl (fun a c => a * 10 + digitVal c) 0 := by
  induction f with
  | nil => intro a; simp
  | cons d ds ih =>
    intro a
    simp only [List.foldl, List.length_cons]
    rw [ih (a * 10 + digitVal d), ih (0 * 10 + digitVal d)]
    ring

theorem digitsVal_append (ds f : List Char) :
    digitsVal (ds ++ f) = digitsVal ds * 10 ^ f.length + digitsVal f := by
  unfold digitsVal
  rw [List.foldl_append, digits_foldl_shift]

/-- The conversion `%lf` on a decimal `ds.f` that ends the string: the `double` nearest
to the decimal. -/
theorem scanDouble_decimal (ds f : List Char) (hne : ds ≠ [])
    (hds : ∀ c ∈ ds, isdigit c = true) (hf : ∀ c ∈ f, isdigit c = true) :
    scanDouble (ds ++ '.' :: f) =
      .ok (fl (((digitsVal ds * 10 ^ f.length + digitsVal f : ℕ) : ℚ) / (10 : ℚ) ^ f.length))
        [] := by
  have hdot : ∀ c ∈ ('.' :: f).head?, isdigit c = false := by
    intro c hc; simp at hc; subst hc; decide
  have hx := eatNoCase_0x_digits ds ('.' :: f) hne hds (by
    intro c hc; simp at hc; subst hc; decide)
  have htk := takeWhile_digits ds ('.' :: f) hds hdot
  have hdr := dropWhile_digits ds ('.' :: f) hds hdot
  have hft : f.takeWhile isdigit = f := by
    have := takeWhile_digits f [] hf (by simp)
    simpa using this
  have hfd : f.dropWhile isdigit = [] := by
    have := dropWhile_digits f [] hf (by simp)
    simpa using this
  cases ds with
  | nil => exact absurd rfl hne
  | cons d ds' =>
    have hd : isdigit d = true := hds d (by simp)
    have hsp : skipws ((d :: ds') ++ '.' :: f) = d :: (ds' ++ '.' :: f) := by
      simp [skipws, List.dropWhile, isspace_of_isdigit hd]
    have hi : tolower d ≠ 'i' := by
      rw [tolower_of_isdigit hd]; rintro rfl; simp [isdigit] at hd
    have hn : tolower d ≠ 'n' := by
      rw [tolower_of_isdigit hd]; rintro rfl; simp [isdigit] at hd
    unfold scanDouble
    rw [hsp]
    simp only [optSign_of_isdigit _ hd]
    unfold scanDoubleBody
    rw [eatNoCase_head_ne _ _ _ _ hi, eatNoCase_head_ne _ _ _ _ hn]
    have e : d :: (ds' ++ '.' :: f) = (d :: ds') ++ '.' :: f := rfl
    simp only [e, hx]
    unfold scanDecimal
    have hfr : scanFraction isdigit ('.' :: f) = (f, []) := by
      simp [scanFraction, hft, hfd]
    have hexp : scanExponent 'e' [] = some (0, []) := rfl
    simp only [htk, hdr, hfr, hexp]
    have hnn : ¬ (d :: ds' = [] ∧ f = []) := by simp
    rw [if_neg hnn]
    simp only [withSign, Bool.false_eq_true, if_false, digitsVal_append]
    congr 2
    rw [zero_sub, zpow_neg, zpow_natCast]
    rfl

/-- The time scan of `hs:mis:ss.f` for four digit strings. -/
theorem sscanf_time_decimal (dh dmi dsec f : List Char) (hh0 : dh ≠ []) (hmi0 : dmi ≠ [])
    (hs0 : dsec ≠ []) (hh : ∀ c ∈ dh, isdigit c = true) (hmi : ∀ c ∈ dmi, isdigit c = true)
    (hs : ∀ c ∈ dsec, isdigit c = true) (hf : ∀ c ∈ f, isdigit c = true) :
    sscanf_time (dh ++ ':' :: (dmi ++ ':' :: (dsec ++ '.' :: f))) =
      ⟨3, wrapInt (digitsVal dh), wrapInt (digitsVal dmi),
        fl (((digitsVal dsec * 10 ^ f.length + digitsVal f : ℕ) : ℚ) / (10 : ℚ) ^ f.length)⟩ := by
  unfold sscanf_time
  rw [scanInt_digits dh _ hh0 hh (by simp [isdigit])]
  simp only [scanLit_cons]
  rw [scanInt_digits dmi _ hmi0 hmi (by simp [isdigit])]
  simp only [scanLit_cons]
  rw [scanDouble_decimal dsec f hs0 hs hf]

/-- The time typecaster on the text `hh:mi:ss.f` with `s` below 60 and at most six
fraction digits: the second is `s` and the microsecond is the fraction in millionths. -/
theorem time_fraction_text (h mi s : Nat) (f : List Char) (len : Int) (curs : cursorObject)
    (hh : h ≤ 2147483647) (hmi : mi ≤ 2147483647) (hs : s < 60)
    (hf : ∀ c ∈ f, isdigit c = true) (hk : f.length ≤ 6) :
    typecast_PYTIME_cast (some (clockText h mi s ++ '.' :: f)) len curs =
      .call .pyTimeTypeP
        [(h : Int), (mi : Int), (s : Int), ((digitsVal f * 10 ^ (6 - f.length) : ℕ) : Int)]
        none := by
  obtain ⟨h0, h1, h2⟩ := pad2_spec h
  obtain ⟨mi0, mi1, mi2⟩ := pad2_spec mi
  obtain ⟨s0, s1, s2⟩ := pad2_spec s
  have hF := digitsVal_lt f hf
  have hpos : 0 < 10 ^ f.length := by positivity
  have htxt : clockText h mi s ++ '.' :: f =
      pad2 h ++ ':' :: (pad2 mi ++ ':' :: (pad2 s ++ '.' :: f)) := by
    simp [clockText]
  have hnz : ∀ c ∈ pad2 h ++ ':' :: (pad2 mi ++ ':' :: (pad2 s ++ '.' :: f)), c.toNat ≠ 0 := by
    intro c hc
    simp only [List.mem_append, List.mem_cons] at hc
    rcases hc with hc | rfl | hc | rfl | hc | rfl | hc
    · exact toNat_ne_zero_of_isdigit (h1 c hc)
    · decide
    · exact toNat_ne_zero_of_isdigit (mi1 c hc)
    · decide
    · exact toNat_ne_zero_of_isdigit (s1 c hc)
    · decide
    · exact toNat_ne_zero_of_isdigit (hf c hc)
  have hscan := sscanf_time_decimal (pad2 h) (pad2 mi) (pad2 s) f h0 mi0 s0 h1 mi1 s1 hf
  rw [h2, mi2, s2, wrapInt_of_range h (by omega) (by omega),
    wrapInt_of_range mi (by omega) (by omega)] at hscan
  have hdiv : (s * 10 ^ f.length + digitsVal f) / 10 ^ f.length = s := by
    rw [Nat.add_comm, Nat.add_mul_div_right _ _ hpos, Nat.div_eq_of_lt hF, Nat.zero_add]
  have hmod : (s * 10 ^ f.length + digitsVal f) % 10 ^ f.length = digitsVal f := by
    rw [Nat.add_comm, Nat.add_mul_mod_self_right, Nat.mod_eq_of_lt hF]
  have hN : s * 10 ^ f.length + digitsVal f < 60 * 10 ^ f.length := by
    have : (s + 1) * 10 ^ f.length ≤ 60 * 10 ^ f.length := Nat.mul_le_mul_right _ (by omega)
    have e : (s + 1) * 10 ^ f.length = s * 10 ^ f.length + 10 ^ f.length := by ring
    omega
  have := (time_decimal_cast (pad2 h ++ ':' :: (pad2 mi ++ ':' :: (pad2 s ++ '.' :: f))) len curs
    h mi (s * 10 ^ f.length + digitsVal f) f.length hk hN
    (by rw [cstr_of_nonzero _ hnz]; exact hscan)).1
  rw [hdiv, hmod] at this
  rw [htxt, this]

theorem time_fraction_text_witness :
    typecast_PYTIME_cast (some "23:59:59.999999".toList) 15 ⟨.pyNone⟩ =
      .call .pyTimeTypeP [23, 59, 59, 999999] none :=
  time_fraction_text 23 59 59 "999999".toList 15 ⟨.pyNone⟩ (by decide) (by decide) (by decide)
    (by decide) (by decide)

end Typecast
